import Mathlib

/-!
# The task scheduler of `hgparallel.cpp`

A shallow embedding of `Src/LinearSolvers/C_NodalMG/hgparallel.cpp`:
the task classes (`task`, `task_copy`, `task_copy_local`, `task_fab`,
`task_fec_base`), the `task_list` and its scheduling loop
`task_list::execute`, followed by theorems about them.

Conventions of the embedding.

* A `task_proxy` is a `Handle` (a natural number); the task object behind it
  is `State.obj h` and its shared finished flag is `State.finished h`.
* A `MultiFab` object is identified by its address (a natural number), so the
  source's `eq(a, b)`, which compares addresses, is equality of numbers.
* Array values are kept as integers: the code only moves them around.
* A sequence number (`task::sequence_number`) is an unsigned machine integer of
  32 bits: the counter of the task list advances modulo `sequence_number_size`.
* An assertion that fails, or a call of `ParallelDescriptor::Abort`, makes the
  embedded function return `none`.
* The transport (MPI) is an environment: what it answers in one visit of the
  scheduler is an `MPIEnv` value, given from outside.
-/

namespace HGParallel

/-! ## Regions and buffers (collaborators of the scheduler) -/

/-- Modelled from the spec: `IntVect`, the integer index of a point (declared
outside `src/`). Three coordinates; a two-dimensional build keeps `z = 0`. -/
structure IntVect where
  x : Int
  y : Int
  z : Int
deriving DecidableEq

/-- Component-wise `<=` of two points. -/
def IntVect.le (a b : IntVect) : Bool :=
  decide (a.x ≤ b.x) && decide (a.y ≤ b.y) && decide (a.z ≤ b.z)

/-- Component-wise maximum. -/
def IntVect.max (a b : IntVect) : IntVect := ⟨Max.max a.x b.x, Max.max a.y b.y, Max.max a.z b.z⟩

/-- Component-wise minimum. -/
def IntVect.min (a b : IntVect) : IntVect := ⟨Min.min a.x b.x, Min.min a.y b.y, Min.min a.z b.z⟩

/-- Component-wise sum. -/
def IntVect.add (a b : IntVect) : IntVect := ⟨a.x + b.x, a.y + b.y, a.z + b.z⟩

/-- Component-wise difference. -/
def IntVect.sub (a b : IntVect) : IntVect := ⟨a.x - b.x, a.y - b.y, a.z - b.z⟩

/-- Modelled from the spec: `Box`, "an axis-aligned integer index-space
rectangle" (declared outside `src/`), given by its two corners. -/
structure Box where
  smallend : IntVect
  bigend : IntVect
deriving DecidableEq

/-- The point `p` lies in the box. -/
def Box.contains (b : Box) (p : IntVect) : Bool := b.smallend.le p && p.le b.bigend

/-- The box `c` lies in the box `b`. -/
def Box.containsBox (b c : Box) : Bool := b.smallend.le c.smallend && c.bigend.le b.bigend

/-- Modelled from the spec: the intersection test of the region collaborator.
Two boxes intersect when the larger of the small ends is below the smaller of
the big ends in every direction. -/
def Box.intersects (a b : Box) : Bool :=
  (a.smallend.max b.smallend).le (a.bigend.min b.bigend)

/-- Number of points of a box. -/
def Box.numPts (b : Box) : Nat :=
  (b.bigend.x - b.smallend.x + 1).toNat * (b.bigend.y - b.smallend.y + 1).toNat *
    (b.bigend.z - b.smallend.z + 1).toNat

/-- Modelled from the spec: `FArrayBox`, the addressable buffer of numeric data
over one region (declared outside `src/`): its box, its number of components
and its values. -/
structure FArrayBox where
  domain : Box
  nvar : Nat
  dat : IntVect → Nat → Int

/-- Modelled from the spec: `new FArrayBox(bx, n)`, a fresh buffer of exactly
the region `bx` with `n` components. Its values are not set by the code; the
model fills them with zero. -/
def FArrayBox.alloc (bx : Box) (n : Nat) : FArrayBox := ⟨bx, n, fun _ _ => 0⟩

/-- Modelled from the spec: `dst.copy(src, srcbox, srccomp, destbox, destcomp,
numcomp)` of `FArrayBox` (declared outside `src/`). It moves `numcomp`
components of `src` over `srcbox` onto `dst` over `destbox`, point `p` of
`destbox` receiving the point of `srcbox` at the same offset. The point counts
of the two regions must match and both regions and component ranges must lie in
the buffers; otherwise the call is a contract violation (`none`). -/
def FArrayBox.copy (dst src : FArrayBox) (srcbox : Box) (srccomp : Nat) (destbox : Box)
    (destcomp numcomp : Nat) : Option FArrayBox :=
  if srcbox.numPts = destbox.numPts ∧ src.domain.containsBox srcbox = true ∧
      dst.domain.containsBox destbox = true ∧ srccomp + numcomp ≤ src.nvar ∧
      destcomp + numcomp ≤ dst.nvar then
    some { dst with
      dat := fun p c =>
        if destbox.contains p = true ∧ destcomp ≤ c ∧ c < destcomp + numcomp then
          src.dat ((p.sub destbox.smallend).add srcbox.smallend) (c - destcomp + srccomp)
        else dst.dat p c }
  else none

/-- Modelled from the spec: the two-argument `dst.copy(src, bx)`, all components
of `dst` over the same region `bx` of both buffers. -/
def FArrayBox.copyBox (dst src : FArrayBox) (bx : Box) : Option FArrayBox :=
  dst.copy src bx 0 bx 0 dst.nvar

/-- Modelled from the spec: `MultiFab`, the distributed array (declared outside
`src/`): its number of components, the buffer of each grid index and the process
that owns each grid index. -/
structure MultiFab where
  ncomp : Nat
  fabs : Nat → FArrayBox
  owner : Nat → Nat

/-- The memory the tasks work on: the distributed arrays by address, and the
private buffers (`FArrayBox*`) by address. -/
structure Mem where
  mfs : Nat → MultiFab
  bufs : Nat → FArrayBox

/-- Replace the buffer of grid `g` of the array at address `a`. -/
def Mem.setFab (m : Mem) (a g : Nat) (f : FArrayBox) : Mem :=
  let mf : MultiFab := { m.mfs a with fabs := Function.update (m.mfs a).fabs g f }
  { m with mfs := Function.update m.mfs a mf }

/-- Replace the private buffer at address `p`. -/
def Mem.setBuf (m : Mem) (p : Nat) (f : FArrayBox) : Mem :=
  { m with bufs := Function.update m.bufs p f }

/-- What is fixed for one run: whether the build has `BL_USE_MPI`, the value of
`HG::max_live_tasks`, and the rank of this process. -/
structure Build where
  BL_USE_MPI : Bool
  max_live_tasks : Int
  myproc : Nat

/-- Modelled from the spec: `processor_number(mf, grid)`, "which process owns
grid G" (declared in `hgparallel.h`, outside `src/`). -/
def processor_number (mf : MultiFab) (grid : Nat) : Nat := mf.owner grid

/-- Modelled from the spec: `is_local(mf, grid)`, "is grid G locally owned by
this process" (declared in `hgparallel.h`, outside `src/`). -/
def is_local (b : Build) (mf : MultiFab) (grid : Nat) : Bool :=
  processor_number mf grid == b.myproc

/-- What the transport answers during one visit of the scheduler: the return
code of the MPI call made (`res`), the completion flag of `MPI_Test`, the fields
of its status, the return code and result of `MPI_Get_count`, and the data a
completed receive has put in the buffer. -/
structure MPIEnv where
  res : Int
  flag : Bool
  MPI_SOURCE : Nat
  MPI_TAG : Nat
  count_res : Int
  count : Nat
  payload : IntVect → Nat → Int

/-- A transport operation issued by a task: a non-blocking receive of `count`
values from process `peer` with tag `tag`, or a non-blocking send. -/
inductive MPI_Op where
  | Irecv (count : Nat) (peer : Nat) (tag : Nat)
  | Isend (buf : FArrayBox) (count : Nat) (peer : Nat) (tag : Nat)

/-! ## Tasks -/

/-- Modelled from the spec: `task_proxy` (declared in `hgparallel.h`, outside
`src/`), the shared handle of a task, with a finished flag seen by every copy of
the handle and never reset. A handle is a number; the task object behind it and
its finished flag are `State.obj` and `State.finished`, and `set_finished()`
sets the flag. -/
abbrev Handle := Nat

/-- The members `task_copy` adds to `task`. `m_mf` and `m_smf` are the addresses
of the destination and source arrays; `m_request` is true when the request is
not `MPI_REQUEST_NULL`. -/
structure task_copy_data where
  m_mf : Nat
  m_dgrid : Nat
  m_smf : Nat
  m_sgrid : Nat
  m_bx : Box
  m_sbx : Box
  m_local : Bool
  tmp : Option FArrayBox
  m_request : Bool

/-- The members `task_copy_local` adds to `task`. `m_fab` is the address of the
private destination buffer, `none` for a null pointer. -/
structure task_copy_local_data where
  m_fab : Option Nat
  m_smf : Nat
  m_sgrid : Nat
  m_bx : Box
  tmp : Option FArrayBox
  m_local : Bool
  m_target_proc_id : Nat
  m_request : Bool

/-- The members `task_fab` adds to `task`. -/
structure task_fab_data where
  m_target_proc_id : Nat
  region : Box
  ncomp : Nat
  target : Option FArrayBox

/-- The members `task_fec_base` adds to `task`. -/
structure task_fec_base_data where
  s : Nat
  igrid : Nat
  tfvect : List Handle

/-- The dynamic type of a task object, with the members of the derived class. -/
inductive task_kind where
  | base
  | copy (d : task_copy_data)
  | copy_local (d : task_copy_local_data)
  | fab (d : task_fab_data)
  | fec_base (d : task_fec_base_data)

/-- A task object: the members of class `task` and its dynamic type. -/
structure task where
  m_sno : Nat
  m_started : Bool
  dependencies : List Handle
  kind : task_kind

/-- The loop of `task::depend_ready`: walk the list, erase the finished ones. -/
def task.depend_ready_loop (finished : Handle → Bool) : List Handle → List Handle
  | [] => []
  | t :: rest =>
    if finished t then task.depend_ready_loop finished rest
    else t :: task.depend_ready_loop finished rest

/-- The method `task::depend_ready`: the result and the dependency list it leaves. -/
def task.depend_ready (finished : Handle → Bool) (dependencies : List Handle) :
    Bool × List Handle :=
  if dependencies.isEmpty then (true, dependencies)
  else
    let d := task.depend_ready_loop finished dependencies
    (d.isEmpty, d)

/-- The method `task::depend_on`. -/
def task.depend_on (t : task) (t1 : Handle) : task :=
  { t with dependencies := t.dependencies ++ [t1] }

/-- The method `task::is_started`. -/
def task.is_started (t : task) : Bool := t.m_started

/-- The method `task::startup` of the base class: the result, the task after the
call, and the transport operations issued (none). -/
def task.startup_base (t : task) : Option (Bool × task × List MPI_Op) :=
  some (true, { t with m_started := true }, [])

/-- The method `task::ready` of the base class. -/
def task.ready_base (m : Mem) (t : task) : Option (Bool × task × Mem) :=
  if t.is_started = false then none else some (true, t, m)

/-- The method `task_copy::startup`. The result is `none` when the run is
aborted, otherwise the returned value, the task after the call and the transport
operations issued. -/
def task_copy.startup (b : Build) (m : Mem) (e : MPIEnv) (t : task) (d : task_copy_data) :
    Option (Bool × task × List MPI_Op) :=
  let t := { t with m_started := true }
  if is_local b (m.mfs d.m_mf) d.m_dgrid && is_local b (m.mfs d.m_smf) d.m_sgrid then
    some (true, { t with kind := .copy { d with m_local := true } }, [])
  else if b.BL_USE_MPI then
    if is_local b (m.mfs d.m_mf) d.m_dgrid then
      let tmp := FArrayBox.alloc d.m_sbx (m.mfs d.m_smf).ncomp
      if e.res ≠ 0 then none
      else
        some (true, { t with kind := .copy { d with tmp := some tmp, m_request := true } },
          [.Irecv (tmp.domain.numPts * tmp.nvar) (processor_number (m.mfs d.m_smf) d.m_sgrid)
            t.m_sno])
    else if is_local b (m.mfs d.m_smf) d.m_sgrid then
      match (FArrayBox.alloc d.m_sbx (m.mfs d.m_smf).ncomp).copyBox
          ((m.mfs d.m_smf).fabs d.m_sgrid) d.m_sbx with
      | none => none
      | some tmp =>
        if e.res ≠ 0 then none
        else
          some (true, { t with kind := .copy { d with tmp := some tmp, m_request := true } },
            [.Isend tmp (tmp.domain.numPts * tmp.nvar)
              (processor_number (m.mfs d.m_mf) d.m_dgrid) t.m_sno])
    else some (false, t, [])
  else some (true, t, [])

/-- The block of `task_copy::ready` that runs when `MPI_Test` has reported the
completion of the receive of a task whose destination is local: the assertions
on the status and the copy of the received buffer into the destination. -/
def task_copy.ready_received (m : Mem) (e : MPIEnv) (t : task) (d : task_copy_data) :
    Option (Bool × task × Mem) :=
  if e.MPI_SOURCE ≠ processor_number (m.mfs d.m_smf) d.m_sgrid then none
  else if e.MPI_TAG ≠ t.m_sno then none
  else if e.count_res ≠ 0 then none
  else
    match d.tmp with
    | none => none
    | some buf =>
      if e.count ≠ buf.domain.numPts * buf.nvar then none
      else
        match ((m.mfs d.m_mf).fabs d.m_dgrid).copy ⟨buf.domain, buf.nvar, e.payload⟩ buf.domain 0
            d.m_bx 0 (m.mfs d.m_smf).ncomp with
        | none => none
        | some f =>
          some (true,
            { t with
              kind := .copy { d with tmp := some ⟨buf.domain, buf.nvar, e.payload⟩, m_request := false } },
            m.setFab d.m_mf d.m_dgrid f)

/-- The method `task_copy::ready`. The result is `none` when an assertion fails
or the run is aborted, otherwise the returned value, the task and the memory
after the call. A completed `MPI_Test` leaves the request null. -/
def task_copy.ready (b : Build) (m : Mem) (e : MPIEnv) (t : task) (d : task_copy_data) :
    Option (Bool × task × Mem) :=
  if t.is_started = false then none
  else if d.m_local then
    match ((m.mfs d.m_mf).fabs d.m_dgrid).copy ((m.mfs d.m_smf).fabs d.m_sgrid)
        d.m_sbx 0 d.m_bx 0 (m.mfs d.m_mf).ncomp with
    | none => none
    | some f => some (true, t, m.setFab d.m_mf d.m_dgrid f)
  else if b.BL_USE_MPI then
    if d.m_request = false then none
    else if e.res ≠ 0 then none
    else if e.flag then
      if is_local b (m.mfs d.m_mf) d.m_dgrid then task_copy.ready_received m e t d
      else some (true, { t with kind := .copy { d with m_request := false } }, m)
    else some (false, t, m)
  else some (false, t, m)

/-- The method `task_copy_local::startup`. -/
def task_copy_local.startup (b : Build) (m : Mem) (e : MPIEnv) (t : task)
    (d : task_copy_local_data) : Option (Bool × task × List MPI_Op) :=
  let t := { t with m_started := true }
  if d.m_fab.isSome && is_local b (m.mfs d.m_smf) d.m_sgrid then
    some (true, { t with kind := .copy_local { d with m_local := true } }, [])
  else if b.BL_USE_MPI then
    if d.m_fab.isSome then
      let tmp := FArrayBox.alloc d.m_bx (m.mfs d.m_smf).ncomp
      if e.res ≠ 0 then none
      else
        some (true, { t with kind := .copy_local { d with tmp := some tmp, m_request := true } },
          [.Irecv (tmp.domain.numPts * tmp.nvar) (processor_number (m.mfs d.m_smf) d.m_sgrid)
            t.m_sno])
    else if is_local b (m.mfs d.m_smf) d.m_sgrid then
      match (FArrayBox.alloc d.m_bx (m.mfs d.m_smf).ncomp).copyBox
          ((m.mfs d.m_smf).fabs d.m_sgrid) d.m_bx with
      | none => none
      | some tmp =>
        if e.res ≠ 0 then none
        else
          some (true, { t with kind := .copy_local { d with tmp := some tmp, m_request := true } },
            [.Isend tmp (tmp.domain.numPts * tmp.nvar) d.m_target_proc_id t.m_sno])
    else some (false, t, [])
  else some (true, t, [])

/-- The block of `task_copy_local::ready` that runs when `MPI_Test` has reported
the completion of the receive of a task with a destination buffer at address
`p`: the assertions on the status and the copy of the received buffer. -/
def task_copy_local.ready_received (m : Mem) (e : MPIEnv) (t : task)
    (d : task_copy_local_data) (p : Nat) : Option (Bool × task × Mem) :=
  if e.MPI_SOURCE ≠ processor_number (m.mfs d.m_smf) d.m_sgrid then none
  else if e.MPI_TAG ≠ t.m_sno then none
  else if e.count_res ≠ 0 then none
  else
    match d.tmp with
    | none => none
    | some buf =>
      if e.count ≠ buf.domain.numPts * buf.nvar then none
      else
        match (m.bufs p).copyBox ⟨buf.domain, buf.nvar, e.payload⟩ d.m_bx with
        | none => none
        | some f =>
          some (true,
            { t with
              kind := .copy_local
                { d with tmp := some ⟨buf.domain, buf.nvar, e.payload⟩, m_request := false } },
            m.setBuf p f)

/-- The method `task_copy_local::ready`. -/
def task_copy_local.ready (b : Build) (m : Mem) (e : MPIEnv) (t : task)
    (d : task_copy_local_data) : Option (Bool × task × Mem) :=
  if t.is_started = false then none
  else if d.m_local then
    match d.m_fab with
    | none => none
    | some p =>
      match (m.bufs p).copyBox ((m.mfs d.m_smf).fabs d.m_sgrid) d.m_bx with
      | none => none
      | some f => some (true, t, m.setBuf p f)
  else if b.BL_USE_MPI then
    if d.m_request = false then none
    else if e.res ≠ 0 then none
    else if e.flag then
      match d.m_fab with
      | some p => task_copy_local.ready_received m e t d p
      | none => some (true, { t with kind := .copy_local { d with m_request := false } }, m)
    else some (false, t, m)
  else some (false, t, m)

/-- The virtual call `t->startup()`: the override of the dynamic type. `task_fab`
and `task_fec_base` have no override in this file and use `task::startup`. -/
def task.startup (b : Build) (m : Mem) (e : MPIEnv) (t : task) :
    Option (Bool × task × List MPI_Op) :=
  match t.kind with
  | .copy d => task_copy.startup b m e t d
  | .copy_local d => task_copy_local.startup b m e t d
  | _ => t.startup_base

/-- The virtual call `t->ready()`: the override of the dynamic type. -/
def task.ready (b : Build) (m : Mem) (e : MPIEnv) (t : task) : Option (Bool × task × Mem) :=
  match t.kind with
  | .copy d => task_copy.ready b m e t d
  | .copy_local d => task_copy_local.ready b m e t d
  | _ => t.ready_base m

/-- The test `task_copy::depends_on_q(t1)` of a `task_copy` with members `d`. -/
def task_copy.depends_on_q (d : task_copy_data) (t1 : task) : Bool :=
  if d.m_mf ≠ d.m_smf then false
  else
    match t1.kind with
    | .copy t1tc =>
      if d.m_sgrid == t1tc.m_dgrid && d.m_sbx.intersects t1tc.m_bx then true
      else if d.m_dgrid == t1tc.m_dgrid && d.m_bx.intersects t1tc.m_bx then true
      else if d.m_sgrid == t1tc.m_sgrid && d.m_sbx.intersects t1tc.m_sbx then true
      else if d.m_dgrid == t1tc.m_sgrid && d.m_bx.intersects t1tc.m_sbx then true
      else false
    | _ => false

/-- The method `task_copy::_do_depend`: walk the task list `tasks` front to back
and depend on every task the test selects. -/
def task_copy._do_depend (obj : Handle → task) (tasks : List Handle) (t : task)
    (d : task_copy_data) : task :=
  tasks.foldl (fun acc cit => if task_copy.depends_on_q d (obj cit) then acc.depend_on cit else acc) t

/-! ## The task list -/

/-- The members of `task_list`; `tasks` holds the handles in submission order. -/
structure task_list where
  seq_no : Nat
  seq_delta : Nat
  verbose : Bool
  tasks : List Handle

/-- The constructor `task_list::task_list`, with `def_verbose` false. -/
def task_list.ctor : task_list := ⟨1, 1, false, []⟩

/-- Modelled from the spec: the number of values of `task::sequence_number`, the
type of the counter `seq_no` and of `m_sno` (a typedef of `hgparallel.h`, outside
`src/`): an unsigned machine integer, taken as 32 bits wide, `2 ^ 32` values. -/
def sequence_number_size : Nat := 4294967296

/-- The method `task_list::get_then_advance`: `tmp = seq_no; seq_no += seq_delta;
return tmp;`, the addition being that of the machine integer, modulo
`2 ^ 32`. -/
def task_list.get_then_advance (tl : task_list) : Nat × task_list :=
  (tl.seq_no, { tl with seq_no := (tl.seq_no + tl.seq_delta) % sequence_number_size })

/-- Where a run of `task_list::execute` stands. -/
inductive Status where
  | running
  | returned
  | aborted
deriving DecidableEq

/-- The program state: the task list, the task object and the finished flag
behind every handle, the number of handles made so far, the memory, the
transport operations issued so far, and the local variables of
`task_list::execute` (`live_tasks`, the position `tli` of the iterator in
`tasks`, and whether the call is still running). -/
structure State where
  tl : task_list
  obj : Handle → task
  finished : Handle → Bool
  nalloc : Nat
  mem : Mem
  mpi : List MPI_Op
  live_tasks : Int
  tli : Nat
  status : Status

/-- The constructor `task::task(tl_)`: take the next sequence number. The result
is `none` when the assertion `m_sno != 0` fails. -/
def task.ctor (tl : task_list) (k : task_kind) : Option (task × task_list) :=
  let r := tl.get_then_advance
  if r.1 = 0 then none
  else some ({ m_sno := r.1, m_started := false, dependencies := [], kind := k }, r.2)

/-- The constructor `task_copy::task_copy(tl_, mf, dgrid, db, smf, sgrid, sb)`. -/
def task_copy.ctor (s : State) (mf dgrid : Nat) (db : Box) (smf sgrid : Nat) (sb : Box) :
    Option (task × State) :=
  let d : task_copy_data := ⟨mf, dgrid, smf, sgrid, db, sb, false, none, false⟩
  match task.ctor s.tl (.copy d) with
  | none => none
  | some (t, tl) => some (task_copy._do_depend s.obj tl.tasks t d, { s with tl := tl })

/-- The constructor `task_copy::task_copy(tl_, mf, dgrid, smf, sgrid, bx)`: one
region for both ends. -/
def task_copy.ctor_bx (s : State) (mf dgrid smf sgrid : Nat) (bx : Box) : Option (task × State) :=
  task_copy.ctor s mf dgrid bx smf sgrid bx

/-- The method `task_list::add_task`: make a handle for the task object, put it
at the end of `tasks` and return it. The handle made is the number `nalloc`. -/
def task_list.add_task (s : State) (t : task) : Handle × State :=
  (s.nalloc,
    { s with
      obj := Function.update s.obj s.nalloc t
      finished := Function.update s.finished s.nalloc false
      nalloc := s.nalloc + 1
      tl := { s.tl with tasks := s.tl.tasks ++ [s.nalloc] } })

/-- The constructor `task_copy_local::task_copy_local(tl_, fab_, target_proc_id,
bx, smf_, grid)`. Its body is empty and `m_request` is not in the initialiser
list: the member starts with the indeterminate value `req`. -/
def task_copy_local.ctor (s : State) (fab_ : Option Nat) (target_proc_id : Nat) (bx : Box)
    (smf_ grid : Nat) (req : Bool) : Option (task × State) :=
  match task.ctor s.tl (.copy_local ⟨fab_, smf_, grid, bx, none, false, target_proc_id, req⟩) with
  | none => none
  | some (t, tl) => some (t, { s with tl := tl })

/-- The constructor `task_fab::task_fab(tl_, t_, tt_, region_, ncomp_)`, on the
process of build `b`. -/
def task_fab.ctor (b : Build) (s : State) (t_ tt_ : Nat) (region_ : Box) (ncomp_ : Nat) :
    Option (task × State) :=
  match task.ctor s.tl (.fab ⟨processor_number (s.mem.mfs t_) tt_, region_, ncomp_, none⟩) with
  | none => none
  | some (t, tl) =>
    if t.m_sno = 0 then none
    else if is_local b (s.mem.mfs t_) tt_ then
      some ({ t with
          kind := .fab ⟨processor_number (s.mem.mfs t_) tt_, region_, ncomp_,
            some (FArrayBox.alloc region_ ncomp_)⟩ },
        { s with tl := tl })
    else some (t, { s with tl := tl })

/-- The constructor `task_fec_base::task_fec_base(tl_, s_, igrid_)`. -/
def task_fec_base.ctor (s : State) (s_ igrid_ : Nat) : Option (task × State) :=
  match task.ctor s.tl (.fec_base ⟨s_, igrid_, []⟩) with
  | none => none
  | some (t, tl) => some (t, { s with tl := tl })

/-- The method `task::depends_on_q` of the base class. -/
def task.depends_on_q_base (_t1 : task) : Bool := false

/-- The virtual call `t->depends_on_q(t1)`: only `task_copy` overrides it. -/
def task.depends_on_q (t t1 : task) : Bool :=
  match t.kind with
  | .copy d => task_copy.depends_on_q d t1
  | _ => task.depends_on_q_base t1

/-- A constructor call of one of the task classes of this file, with its
arguments other than the task list. -/
inductive Ctor where
  | task
  | task_copy (mf dgrid : Nat) (db : Box) (smf sgrid : Nat) (sb : Box)
  | task_copy_local (fab_ : Option Nat) (target_proc_id : Nat) (bx : Box) (smf_ grid : Nat)
      (req : Bool)
  | task_fab (t_ tt_ : Nat) (region_ : Box) (ncomp_ : Nat)
  | task_fec_base (s_ igrid_ : Nat)

/-- The expression `new T(tl, ...)` for the constructor call `c`: the task object
made and the state after it, `none` when an assertion of the constructor fails. -/
def construct (b : Build) (s : State) : Ctor → Option (task × State)
  | .task =>
    match task.ctor s.tl .base with
    | none => none
    | some (t, tl) => some (t, { s with tl := tl })
  | .task_copy mf dgrid db smf sgrid sb => task_copy.ctor s mf dgrid db smf sgrid sb
  | .task_copy_local fab_ target_proc_id bx smf_ grid req =>
    task_copy_local.ctor s fab_ target_proc_id bx smf_ grid req
  | .task_fab t_ tt_ region_ ncomp_ => task_fab.ctor b s t_ tt_ region_ ncomp_
  | .task_fec_base s_ igrid_ => task_fec_base.ctor s s_ igrid_

/-- The cast `dynamic_cast<task_fab*>(t)`: the members of the `task_fab` when
the task is one. -/
def task.as_fab (t : task) : Option task_fab_data :=
  match t.kind with
  | .fab d => some d
  | _ => none

/-- The members of the `task_fec_base` when the task is one. -/
def task.as_fec_base (t : task) : Option task_fec_base_data :=
  match t.kind with
  | .fec_base d => some d
  | _ => none

/-- The method `task_fab::fab`: the buffer `*target`, `none` when the assertion
`target != 0` fails. -/
def task_fab.fab (d : task_fab_data) : Option FArrayBox := d.target

/-- The method `task_fec_base::push_back(tf)` on the aggregate `t` with members
`d`: the state and the aggregate after the call. -/
def task_fec_base.push_back (s : State) (t : task) (d : task_fec_base_data) (tf : task) :
    State × task :=
  let tp := task_list.add_task s tf
  (tp.2, ({ t with kind := .fec_base { d with tfvect := d.tfvect ++ [tp.1] } }).depend_on tp.1)

/-- The assertion `n >= 0 && n < tfvect.size()` of `task_fec_base::task_fab_result`. -/
def task_fec_base.task_fab_result_assert (d : task_fec_base_data) (n : Int) : Bool :=
  decide (n ≥ 0) && decide (n < d.tfvect.length)

/-- The method `task_fec_base::task_fab_result(n)`: `none` when its assertion or
the one of `fab()` fails, or when the sub-task is not a `task_fab`. -/
def task_fec_base.task_fab_result (s : State) (d : task_fec_base_data) (n : Int) :
    Option FArrayBox :=
  if task_fec_base.task_fab_result_assert d n = false then none
  else
    match d.tfvect.get? n.toNat with
    | none => none
    | some h =>
      match (s.obj h).as_fab with
      | none => none
      | some tf => task_fab.fab tf

/-! ## The scheduling loop -/

/-- What one visit of the loop of `task_list::execute` does: `skip h` is the
`continue` after `depend_ready()` was false, `restart h` the `goto restart`,
`startup h r` and `ready h r` the calls of these methods on the task of handle
`h` with what they returned (`none`: the run was aborted inside), `rescan` the
end of one pass over a list that is not empty, `returned` the return of
`execute`, `assert_live` the failure of `assert(live_tasks == 0)`, and `halted`
a visit after the run has ended. -/
inductive Event where
  | skip (h : Handle)
  | restart (h : Handle)
  | startup (h : Handle) (r : Option Bool)
  | ready (h : Handle) (r : Option Bool)
  | rescan
  | returned
  | assert_live
  | halted
deriving DecidableEq

/-- One visit of the loops of `task_list::execute`, at iterator position
`s.tli`, with the transport answering `e`: the event and the state after it. -/
def visit (b : Build) (e : MPIEnv) (s : State) : Event × State :=
  match s.status with
  | .returned => (.halted, s)
  | .aborted => (.halted, s)
  | .running =>
    match s.tl.tasks.get? s.tli with
    | none =>
      if s.tl.tasks.isEmpty then
        if s.live_tasks = 0 then
          (.returned, { s with status := .returned, tl := { s.tl with seq_no := 1 } })
        else (.assert_live, { s with status := .aborted })
      else (.rescan, { s with tli := 0 })
    | some h =>
      let r := task.depend_ready s.finished (s.obj h).dependencies
      let t : task := { s.obj h with dependencies := r.2 }
      let s1 : State := { s with obj := Function.update s.obj h t }
      if r.1 = false then (.skip h, s1)
      else if t.is_started = false then
        if s1.live_tasks > b.max_live_tasks then (.restart h, { s1 with tli := 0 })
        else
          match t.startup b s1.mem e with
          | none => (.startup h none, { s1 with status := .aborted })
          | some (false, t1, ops) =>
            (.startup h (some false),
              { s1 with
                obj := Function.update s1.obj h t1
                mpi := s1.mpi ++ ops
                finished := Function.update s1.finished h true
                tl := { s1.tl with tasks := s1.tl.tasks.eraseIdx s1.tli } })
          | some (true, t1, ops) =>
            (.startup h (some true),
              { s1 with
                obj := Function.update s1.obj h t1
                mpi := s1.mpi ++ ops
                live_tasks := s1.live_tasks + 1
                tli := s1.tli + 1 })
      else
        match t.ready b s1.mem e with
        | none => (.ready h none, { s1 with status := .aborted })
        | some (true, t1, m) =>
          (.ready h (some true),
            { s1 with
              obj := Function.update s1.obj h t1
              mem := m
              finished := Function.update s1.finished h true
              live_tasks := s1.live_tasks - 1
              tl := { s1.tl with tasks := s1.tl.tasks.eraseIdx s1.tli } })
        | some (false, t1, m) =>
          (.ready h (some false),
            { s1 with obj := Function.update s1.obj h t1, mem := m, tli := s1.tli + 1 })

/-- The entry of `task_list::execute`: `live_tasks = 0` and the scan at the
front of the list. -/
def execute_entry (s : State) : State :=
  { s with live_tasks := 0, tli := 0, status := .running }

/-- The state after the visits of a run in which the transport answers `es`,
one answer per visit. -/
def run (b : Build) : List MPIEnv → State → State
  | [], s => s
  | e :: es, s => run b es (visit b e s).2

/-- The events of the visits of that run, in order. -/
def trace (b : Build) : List MPIEnv → State → List Event
  | [], _ => []
  | e :: es, s => (visit b e s).1 :: trace b es (visit b e s).2

/-- The call `execute()` from state `s`, followed for `es.length` visits. -/
def execute (b : Build) (es : List MPIEnv) (s : State) : State :=
  run b es (execute_entry s)

/-! ## The configuration `HG` -/

/-- The static members of `HG`. `mpi_comm` is the communicator (0 for
`MPI_COMM_WORLD`); `cgsolve_tolfact`, a `double` that is only stored, is kept as
a rational number. -/
structure HG where
  mpi_comm : Nat
  max_live_tasks : Int
  multigrid_maxiter : Int
  cgsolve_maxiter : Int
  initialized : Bool
  cgsolve_tolfact : Rat

/-- The static initialisers of the members of `HG`. -/
def HG.defaults : HG := ⟨0, 50, 100, 250, false, 1 / 1000⟩

/-- Modelled from the spec: what `ParmParse pp("HG")` (declared outside `src/`)
holds for the four names that `HG::MPI_init` queries, `none` for a name that is
not set. -/
structure ParmParse where
  cgsolve_maxiter : Option Int
  multigrid_maxiter : Option Int
  cgsolve_tolfact : Option Rat
  max_live_tasks : Option Int

/-- Modelled from the spec: `pp.query(name, var)`, which stores the value found
under the name in `var` and leaves `var` as it is when the name is not set. -/
def ParmParse.query {α : Type} (found : Option α) (var : α) : α := found.getD var

/-- The condition `!initialized == 0` of `HG::MPI_init`: the negation is taken
first and its value, 0 or 1, is compared with 0. -/
def HG.guard (g : HG) : Bool := (if (!g.initialized) = true then (1 : Int) else 0) == 0

/-- The function `HG::MPI_init`, in a build with or without `BL_USE_MPI`, with
`pp` what the parameter table holds, `res` the return code of `MPI_Comm_dup` and
`comm` the communicator it makes. The result is `none` when the run is
aborted. -/
def HG.MPI_init (use_mpi : Bool) (pp : ParmParse) (res : Int) (comm : Nat) (g : HG) :
    Option HG :=
  if g.guard = true then
    let g1 : HG :=
      { g with
        cgsolve_maxiter := ParmParse.query pp.cgsolve_maxiter g.cgsolve_maxiter
        multigrid_maxiter := ParmParse.query pp.multigrid_maxiter g.multigrid_maxiter
        cgsolve_tolfact := ParmParse.query pp.cgsolve_tolfact g.cgsolve_tolfact
        max_live_tasks := ParmParse.query pp.max_live_tasks g.max_live_tasks
        initialized := true }
    if use_mpi = true then
      if res ≠ 0 then none else some { g1 with mpi_comm := comm }
    else some g1
  else some g

/-- A sequence of calls of `HG::MPI_init`, one for each entry of `calls` (the
return code of `MPI_Comm_dup` and the communicator it makes). -/
def HG.MPI_init_calls (use_mpi : Bool) (pp : ParmParse) : List (Int × Nat) → HG → Option HG
  | [], g => some g
  | c :: cs, g =>
    match HG.MPI_init use_mpi pp c.1 c.2 g with
    | none => none
    | some g1 => HG.MPI_init_calls use_mpi pp cs g1

/-! ## Runs and sample inputs -/

/-- The results of successive calls of `depend_ready()` on one task whose
dependency list is `D` at the first call, `fs` giving the finished flags seen by
each call; nothing else touches the dependency list in between. -/
def depend_ready_calls : List (Handle → Bool) → List Handle → List Bool
  | [], _ => []
  | f :: fs, D => (task.depend_ready f D).1 :: depend_ready_calls fs (task.depend_ready f D).2

/-- The number of tasks of the collection that are started and not finished. -/
def started_not_finished (s : State) : Nat :=
  (s.tl.tasks.filter fun h => (s.obj h).m_started && !s.finished h).length

/-- A two-dimensional box `[x0,y0]-[x1,y1]`. -/
def box2 (x0 y0 x1 y1 : Int) : Box := ⟨⟨x0, y0, 0⟩, ⟨x1, y1, 0⟩⟩

/-- A buffer over `[0,0]-[7,7]` with one component and values that tell the
points apart. -/
def demoFab (seed : Int) : FArrayBox := ⟨box2 0 0 7 7, 1, fun p _ => seed + p.x + 10 * p.y⟩

/-- A memory in which every array has one component and every grid is owned by
process 0; the array at address `a` holds `100 * a + x + 10 * y`. -/
def demoMem : Mem := ⟨fun a => ⟨1, fun _ => demoFab (100 * a), fun _ => 0⟩, fun _ => demoFab 0⟩

/-- A transport that reports nothing complete. -/
def quiet : MPIEnv := ⟨0, false, 0, 0, 0, 0, fun _ _ => 0⟩

/-- A state with a freshly constructed, empty task list over memory `m`. -/
def idle (m : Mem) : State :=
  ⟨task_list.ctor, fun _ => ⟨0, false, [], .base⟩, fun _ => false, 0, m, [], 0, 0, .returned⟩

/-- The client idiom `tl.add_task(new task_copy(tl, mf, dgrid, smf, sgrid, bx))`. -/
def add_task_copy (s : State) (mf dgrid smf sgrid : Nat) (bx : Box) : Option State :=
  match task_copy.ctor_bx s mf dgrid smf sgrid bx with
  | none => none
  | some (t, s1) => some (task_list.add_task s1 t).2

/-- The client idiom `t = new task(tl); t->depend_on(d) ...; tl.add_task(t)`. -/
def add_task_base (s : State) (deps : List Handle) : Option State :=
  match task.ctor s.tl .base with
  | none => none
  | some (t, tl) => some (task_list.add_task { s with tl := tl } (deps.foldl task.depend_on t)).2

/-- The client idiom `tl.add_task(new T(tl, ...))` for the constructor call `c`. -/
def submit (b : Build) (s : State) (c : Ctor) : Option State :=
  match construct b s c with
  | none => none
  | some (t, s1) => some (task_list.add_task s1 t).2

/-- A sequence of constructions, each followed by `add_task`, with no `execute`
in between. -/
def submit_all (b : Build) : List Ctor → State → Option State
  | [], s => some s
  | c :: cs, s =>
    match submit b s c with
    | none => none
    | some s1 => submit_all b cs s1

/-- Successive calls `push_back(tf)` on the aggregate `t`, one for each task of
the list; `none` when `t` is not a `task_fec_base`. -/
def push_back_all (s : State) (t : task) : List task → Option (State × task)
  | [] => some (s, t)
  | tf :: tfs =>
    match t.as_fec_base with
    | none => none
    | some d =>
      push_back_all (task_fec_base.push_back s t d tf).1 (task_fec_base.push_back s t d tf).2 tfs

/-- The number of tasks of the collection whose started flag is true. -/
def started_count (s : State) : Nat := s.tl.tasks.countP fun h => (s.obj h).m_started

/-- A memory like `demoMem` in which the array at address `a` is owned by
process `a`. -/
def splitMem : Mem := ⟨fun a => ⟨1, fun _ => demoFab (100 * a), fun _ => a⟩, fun _ => demoFab 0⟩

/-- A build without transport, with the default limit of 50 live tasks, run by
process 0. -/
def serialBuild : Build := ⟨false, 50, 0⟩

/-- A build with transport, limit 50, run by process 1. -/
def remoteBuild : Build := ⟨true, 50, 1⟩

/-- A build with transport, limit 1, run by process 0. -/
def limitOne : Build := ⟨true, 1, 0⟩

/-- Two tasks of the base class, the second depending on the first. -/
def baseChain : State :=
  ((add_task_base (idle demoMem) []).bind fun s => add_task_base s [0]).getD (idle demoMem)

/-- Two copies inside array 0, grid 0, over the overlapping regions `[0,0]-[3,3]`
and `[2,2]-[5,5]`, submitted in this order. -/
def twoCopiesSameArray : State :=
  ((add_task_copy (idle demoMem) 0 0 0 0 (box2 0 0 3 3)).bind fun s =>
    add_task_copy s 0 0 0 0 (box2 2 2 5 5)).getD (idle demoMem)

/-- Two copies into the local array 0 from the array 1 owned by another process,
over the disjoint regions `[0,0]-[1,1]` and `[4,4]-[5,5]`. -/
def twoReceives : State :=
  ((add_task_copy (idle splitMem) 0 0 1 0 (box2 0 0 1 1)).bind fun s =>
    add_task_copy s 0 0 1 0 (box2 4 4 5 5)).getD (idle splitMem)

/-- The cast `dynamic_cast<const task_copy*>(t)`: the members of the `task_copy`
when the task is one. -/
def task.as_copy (t : task) : Option task_copy_data :=
  match t.kind with
  | .copy d => some d
  | _ => none

/-- The task list holding the copy (a) of the spec's scenario: array 0 (A) grid 0
to array 1 (B) grid 0 over `[0,0]-[3,3]`. -/
def afterCopyA : State := (add_task_copy (idle demoMem) 1 0 0 0 (box2 0 0 3 3)).getD (idle demoMem)

/-- The task list holding a copy inside array 0, grid 0, over `[0,0]-[3,3]`. -/
def afterCopyInA : State :=
  (add_task_copy (idle demoMem) 0 0 0 0 (box2 0 0 3 3)).getD (idle demoMem)

/-- A freshly constructed `task_fec_base` for array 0 grid 0, and the state after
its construction against a fresh task list. -/
def freshAggregate : task × State :=
  (task_fec_base.ctor (idle splitMem) 0 0).getD (⟨0, false, [], .base⟩, idle splitMem)

/-- A `task_fab` object with sequence number `sno` and no buffer. -/
def fetchTask (sno : Nat) : task := ⟨sno, false, [], .fab ⟨1, box2 0 0 3 3, 1, none⟩⟩

/-- What one `task_copy` copies: the destination array, grid index and region and
the source array, grid index and region. -/
structure CopySpec where
  mf : Nat
  dgrid : Nat
  bx : Box
  smf : Nat
  sgrid : Nat
  sbx : Box

/-- What the `task_copy` with members `d` copies. -/
def task_copy_data.spec (d : task_copy_data) : CopySpec :=
  ⟨d.m_mf, d.m_dgrid, d.m_bx, d.m_smf, d.m_sgrid, d.m_sbx⟩

/-- One copy performed on its own, in the words of the spec: all components of
the destination array move from the source region of the source grid to the
destination region of the destination grid; `none` when the copy is a contract
violation. -/
def CopySpec.perform (c : CopySpec) (m : Mem) : Option Mem :=
  match ((m.mfs c.mf).fabs c.dgrid).copy ((m.mfs c.smf).fabs c.sgrid) c.sbx 0 c.bx 0
      (m.mfs c.mf).ncomp with
  | none => none
  | some f => some (m.setFab c.mf c.dgrid f)

/-- The copies of a list performed one after another, in the order of the list. -/
def serial_copies : List CopySpec → Mem → Option Mem
  | [], m => some m
  | c :: cs, m =>
    match c.perform m with
    | none => none
    | some m1 => serial_copies cs m1

/-- The copies of the `task_copy` tasks of the collection, in the order of the
collection. -/
def pending (s : State) : List CopySpec :=
  s.tl.tasks.filterMap fun h => (s.obj h).as_copy.map task_copy_data.spec

/-- The handles on which `ready()` returned true, in the order of the visits. -/
def completed : List Event → List Handle
  | [] => []
  | .ready h (some true) :: evs => h :: completed evs
  | _ :: evs => completed evs

/-- Both ends of the copy with members `d` are locally owned. -/
def Local (b : Build) (m : Mem) (d : task_copy_data) : Prop :=
  is_local b (m.mfs d.m_mf) d.m_dgrid = true ∧ is_local b (m.mfs d.m_smf) d.m_sgrid = true

/-- A run of the scheduler on local copies without dependencies: the collection
is the started tasks `st` followed by the unstarted tasks `un`, `live_tasks`
counts the started ones, and the scan is either behind the started tasks or back
at the front of the list. -/
def CopyRun (b : Build) (s : State) (st un : List Handle) : Prop :=
  s.status = .running ∧ s.tl.tasks = st ++ un ∧ (st ++ un).Nodup ∧
    s.live_tasks = st.length ∧ (s.tli = st.length ∨ (s.tli = 0 ∧ st ≠ [])) ∧
    (∀ h ∈ st, ∃ sno d, s.obj h = ⟨sno, true, [], .copy d⟩ ∧ d.m_local = true) ∧
    (∀ h ∈ un, ∃ sno d, s.obj h = ⟨sno, false, [], .copy d⟩ ∧ Local b s.mem d)

/-- A bound on the number of visits left in a run on local copies. -/
def copy_fuel (s : State) (st un : List Handle) : Nat :=
  2 * st.length + 3 * un.length + (if s.tli = st.length then 1 else 0)

/-- A build without transport, run by process 0, in which the limit on live
tasks is 0. -/
def limitZero : Build := ⟨false, 0, 0⟩

/-- Two local copies over `[0,0]-[3,3]`, submitted in this order: array 0 grid 0
to array 1 grid 0, then array 1 grid 0 to array 2 grid 0. The second reads what
the first writes, and its constructor records no dependency. -/
def chainCopies : State :=
  ((add_task_copy (idle demoMem) 1 0 0 0 (box2 0 0 3 3)).bind fun s =>
    add_task_copy s 2 0 1 0 (box2 0 0 3 3)).getD (idle demoMem)

/-- The hazard relation in the words of the spec: two copy tasks race when, for
one of the pairs source-source, source-destination, destination-source,
destination-destination, they refer to the same array and the same grid index
and the two regions intersect. -/
def spec_races (t t1 : task_copy_data) : Bool :=
  (t.m_smf == t1.m_smf && t.m_sgrid == t1.m_sgrid && t.m_sbx.intersects t1.m_sbx) ||
  (t.m_smf == t1.m_mf && t.m_sgrid == t1.m_dgrid && t.m_sbx.intersects t1.m_bx) ||
  (t.m_mf == t1.m_smf && t.m_dgrid == t1.m_sgrid && t.m_bx.intersects t1.m_sbx) ||
  (t.m_mf == t1.m_mf && t.m_dgrid == t1.m_dgrid && t.m_bx.intersects t1.m_bx)

/-- A visit at which the scheduler cannot move on: the run is at the task of
handle `h`, which has the unfinished dependency `d`. -/
def Stuck (s : State) (h d : Handle) : Prop :=
  s.status = .running ∧ s.tl.tasks.get? s.tli = some h ∧ d ∈ (s.obj h).dependencies ∧
    s.finished d = false

/-! ## Definitions used by the proofs -/

/-- What a call of `ready` leaves of the task: a returning call was made on a
started task and keeps its dependencies, its started flag and its number. -/
def ReadyFrame (t : task) (o : Option (Bool × task × Mem)) : Prop :=
  ∀ r t1 m1, o = some (r, t1, m1) →
    t1.dependencies = t.dependencies ∧ t1.m_started = t.m_started ∧ t1.m_sno = t.m_sno

/-- What a call of `startup` leaves of the task. -/
def StartupFrame (t : task) (o : Option (Bool × task × List MPI_Op)) : Prop :=
  ∀ r t1 ops, o = some (r, t1, ops) →
    t1.dependencies = t.dependencies ∧ t1.m_started = true ∧ t1.m_sno = t.m_sno

/-- The state after the call `depend_ready()` on the task of handle `h`. -/
def pruned (s : State) (h : Handle) : State :=
  let t : task :=
    { s.obj h with dependencies := (task.depend_ready s.finished (s.obj h).dependencies).2 }
  { s with obj := Function.update s.obj h t }

/-- The visits of `visit`, one constructor for each way through the loop body. -/
inductive Visit (b : Build) (e : MPIEnv) (s : State) : Event → State → Prop
  | halted (hst : s.status ≠ .running) : Visit b e s .halted s
  | returned (hst : s.status = .running) (hend : s.tl.tasks.get? s.tli = none)
      (hemp : s.tl.tasks = []) (hlive : s.live_tasks = 0) :
      Visit b e s .returned { s with status := .returned, tl := { s.tl with seq_no := 1 } }
  | assert_live (hst : s.status = .running) (hend : s.tl.tasks.get? s.tli = none)
      (hemp : s.tl.tasks = []) (hlive : s.live_tasks ≠ 0) :
      Visit b e s .assert_live { s with status := .aborted }
  | rescan (hst : s.status = .running) (hend : s.tl.tasks.get? s.tli = none)
      (hne : s.tl.tasks ≠ []) : Visit b e s .rescan { s with tli := 0 }
  | skip (h : Handle) (hst : s.status = .running) (hget : s.tl.tasks.get? s.tli = some h)
      (hdep : (task.depend_ready s.finished (s.obj h).dependencies).1 = false) :
      Visit b e s (.skip h) (pruned s h)
  | restart (h : Handle) (hst : s.status = .running) (hget : s.tl.tasks.get? s.tli = some h)
      (hdep : (task.depend_ready s.finished (s.obj h).dependencies).1 = true)
      (hns : (s.obj h).m_started = false) (hlive : s.live_tasks > b.max_live_tasks) :
      Visit b e s (.restart h) { pruned s h with tli := 0 }
  | startup_abort (h : Handle) (hst : s.status = .running)
      (hget : s.tl.tasks.get? s.tli = some h)
      (hdep : (task.depend_ready s.finished (s.obj h).dependencies).1 = true)
      (hns : (s.obj h).m_started = false) (hlive : ¬ s.live_tasks > b.max_live_tasks)
      (hcall : ((pruned s h).obj h).startup b s.mem e = none) :
      Visit b e s (.startup h none) { pruned s h with status := .aborted }
  | startup_false (h : Handle) (t1 : task) (ops : List MPI_Op) (hst : s.status = .running)
      (hget : s.tl.tasks.get? s.tli = some h)
      (hdep : (task.depend_ready s.finished (s.obj h).dependencies).1 = true)
      (hns : (s.obj h).m_started = false) (hlive : ¬ s.live_tasks > b.max_live_tasks)
      (hcall : ((pruned s h).obj h).startup b s.mem e = some (false, t1, ops)) :
      Visit b e s (.startup h (some false))
        { pruned s h with
          obj := Function.update (pruned s h).obj h t1
          mpi := s.mpi ++ ops
          finished := Function.update s.finished h true
          tl := { s.tl with tasks := s.tl.tasks.eraseIdx s.tli } }
  | startup_true (h : Handle) (t1 : task) (ops : List MPI_Op) (hst : s.status = .running)
      (hget : s.tl.tasks.get? s.tli = some h)
      (hdep : (task.depend_ready s.finished (s.obj h).dependencies).1 = true)
      (hns : (s.obj h).m_started = false) (hlive : ¬ s.live_tasks > b.max_live_tasks)
      (hcall : ((pruned s h).obj h).startup b s.mem e = some (true, t1, ops)) :
      Visit b e s (.startup h (some true))
        { pruned s h with
          obj := Function.update (pruned s h).obj h t1
          mpi := s.mpi ++ ops
          live_tasks := s.live_tasks + 1
          tli := s.tli + 1 }
  | ready_abort (h : Handle) (hst : s.status = .running)
      (hget : s.tl.tasks.get? s.tli = some h)
      (hdep : (task.depend_ready s.finished (s.obj h).dependencies).1 = true)
      (hs : (s.obj h).m_started = true)
      (hcall : ((pruned s h).obj h).ready b s.mem e = none) :
      Visit b e s (.ready h none) { pruned s h with status := .aborted }
  | ready_true (h : Handle) (t1 : task) (m : Mem) (hst : s.status = .running)
      (hget : s.tl.tasks.get? s.tli = some h)
      (hdep : (task.depend_ready s.finished (s.obj h).dependencies).1 = true)
      (hs : (s.obj h).m_started = true)
      (hcall : ((pruned s h).obj h).ready b s.mem e = some (true, t1, m)) :
      Visit b e s (.ready h (some true))
        { pruned s h with
          obj := Function.update (pruned s h).obj h t1
          mem := m
          finished := Function.update s.finished h true
          live_tasks := s.live_tasks - 1
          tl := { s.tl with tasks := s.tl.tasks.eraseIdx s.tli } }
  | ready_false (h : Handle) (t1 : task) (m : Mem) (hst : s.status = .running)
      (hget : s.tl.tasks.get? s.tli = some h)
      (hdep : (task.depend_ready s.finished (s.obj h).dependencies).1 = true)
      (hs : (s.obj h).m_started = true)
      (hcall : ((pruned s h).obj h).ready b s.mem e = some (false, t1, m)) :
      Visit b e s (.ready h (some false))
        { pruned s h with
          obj := Function.update (pruned s h).obj h t1
          mem := m
          tli := s.tli + 1 }

/-! ## Lemmas on the task methods -/

theorem depend_ready_loop_eq_filter (fin : Handle → Bool) (D : List Handle) :
    task.depend_ready_loop fin D = D.filter (fun h => !fin h) := by
  induction D with
  | nil => rfl
  | cons a l ih =>
    by_cases h : fin a = true
    · simp [task.depend_ready_loop, h, ih]
    · simp [task.depend_ready_loop, h, ih]

theorem depend_ready_snd (fin : Handle → Bool) (D : List Handle) :
    (task.depend_ready fin D).2 = D.filter (fun h => !fin h) := by
  unfold task.depend_ready
  split
  · rename_i h
    simp only [List.isEmpty_iff] at h
    subst h
    rfl
  · exact depend_ready_loop_eq_filter fin D

theorem depend_ready_fst (fin : Handle → Bool) (D : List Handle) :
    (task.depend_ready fin D).1 = true ↔ ∀ h ∈ D, fin h = true := by
  unfold task.depend_ready
  split
  · rename_i h
    simp only [List.isEmpty_iff] at h
    subst h
    simp
  · simp [depend_ready_loop_eq_filter, List.isEmpty_iff, List.filter_eq_nil_iff]

theorem readyFrame_none (t : task) : ReadyFrame t none := by
  intro r t1 m1 h; cases h

theorem readyFrame_some (t t1 : task) (r : Bool) (m : Mem) (h1 : t1.dependencies = t.dependencies)
    (h2 : t1.m_started = t.m_started) (h4 : t1.m_sno = t.m_sno) :
    ReadyFrame t (some (r, t1, m)) := by
  intro r t1 m1 h
  simp only [Option.some.injEq, Prod.mk.injEq] at h
  obtain ⟨-, rfl, -⟩ := h
  exact ⟨h1, h2, h4⟩

theorem task_copy_ready_received_frame (m : Mem) (e : MPIEnv) (t : task) (d : task_copy_data) :
    ReadyFrame t (task_copy.ready_received m e t d) := by
  unfold task_copy.ready_received
  repeat' split
  all_goals first
    | exact readyFrame_none _
    | exact readyFrame_some _ _ _ _ rfl rfl rfl

theorem task_copy_ready_frame (b : Build) (m : Mem) (e : MPIEnv) (t : task) (d : task_copy_data) :
    ReadyFrame t (task_copy.ready b m e t d) := by
  unfold task_copy.ready
  repeat' split
  all_goals first
    | exact readyFrame_none _
    | exact readyFrame_some _ _ _ _ rfl rfl rfl
    | exact task_copy_ready_received_frame _ _ _ _

theorem task_copy_local_ready_received_frame (m : Mem) (e : MPIEnv) (t : task)
    (d : task_copy_local_data) (p : Nat) :
    ReadyFrame t (task_copy_local.ready_received m e t d p) := by
  unfold task_copy_local.ready_received
  repeat' split
  all_goals first
    | exact readyFrame_none _
    | exact readyFrame_some _ _ _ _ rfl rfl rfl

theorem task_copy_local_ready_frame (b : Build) (m : Mem) (e : MPIEnv) (t : task)
    (d : task_copy_local_data) : ReadyFrame t (task_copy_local.ready b m e t d) := by
  unfold task_copy_local.ready
  repeat' split
  all_goals first
    | exact readyFrame_none _
    | exact readyFrame_some _ _ _ _ rfl rfl rfl
    | exact task_copy_local_ready_received_frame _ _ _ _ _

theorem task_ready_frame (b : Build) (m : Mem) (e : MPIEnv) (t : task) :
    ReadyFrame t (t.ready b m e) := by
  unfold task.ready
  split
  · exact task_copy_ready_frame _ _ _ _ _
  · exact task_copy_local_ready_frame _ _ _ _ _
  · unfold task.ready_base
    split
    · exact readyFrame_none _
    · exact readyFrame_some _ _ _ _ rfl rfl rfl

theorem startupFrame_none (t : task) : StartupFrame t none := by
  intro r t1 m1 h; cases h

theorem startupFrame_some (t t1 : task) (r : Bool) (ops : List MPI_Op)
    (h1 : t1.dependencies = t.dependencies) (h2 : t1.m_started = true) (h4 : t1.m_sno = t.m_sno) :
    StartupFrame t (some (r, t1, ops)) := by
  intro r t1 m1 h
  simp only [Option.some.injEq, Prod.mk.injEq] at h
  obtain ⟨-, rfl, -⟩ := h
  exact ⟨h1, h2, h4⟩

theorem task_startup_frame (b : Build) (m : Mem) (e : MPIEnv) (t : task) :
    StartupFrame t (t.startup b m e) := by
  unfold task.startup
  split
  · unfold task_copy.startup
    repeat' split
    all_goals first
      | exact startupFrame_none _
      | exact startupFrame_some _ _ _ _ rfl rfl rfl
  · unfold task_copy_local.startup
    repeat' split
    all_goals first
      | exact startupFrame_none _
      | exact startupFrame_some _ _ _ _ rfl rfl rfl
  · exact startupFrame_some _ _ _ _ rfl rfl rfl

theorem pruned_obj_self (s : State) (h : Handle) :
    (pruned s h).obj h =
      { s.obj h with dependencies := (task.depend_ready s.finished (s.obj h).dependencies).2 } := by
  simp [pruned]

theorem visit_spec (b : Build) (e : MPIEnv) (s : State) :
    Visit b e s (visit b e s).1 (visit b e s).2 := by
  unfold visit
  split
  · rename_i hst
    exact Visit.halted (by simp [hst])
  · rename_i hst
    exact Visit.halted (by simp [hst])
  · rename_i hst
    split
    · rename_i hend
      split
      · rename_i hemp
        simp only [List.isEmpty_iff] at hemp
        split
        · rename_i hlive
          exact Visit.returned hst hend hemp hlive
        · rename_i hlive
          exact Visit.assert_live hst hend hemp hlive
      · rename_i hemp
        simp only [List.isEmpty_iff] at hemp
        exact Visit.rescan hst hend hemp
    · rename_i h hget
      simp only
      split
      · rename_i hdep
        exact Visit.skip h hst hget hdep
      · rename_i hdep
        simp only [Bool.not_eq_false] at hdep
        split
        · rename_i hns
          simp only [task.is_started] at hns
          split
          · rename_i hlive
            exact Visit.restart h hst hget hdep hns hlive
          · rename_i hlive
            split
            · rename_i hcall
              exact Visit.startup_abort h hst hget hdep hns hlive (by rw [pruned_obj_self]; exact hcall)
            · rename_i t1 ops hcall
              exact Visit.startup_false h t1 ops hst hget hdep hns hlive
                (by rw [pruned_obj_self]; exact hcall)
            · rename_i t1 ops hcall
              exact Visit.startup_true h t1 ops hst hget hdep hns hlive
                (by rw [pruned_obj_self]; exact hcall)
        · rename_i hns
          simp only [task.is_started, Bool.not_eq_false] at hns
          split
          · rename_i hcall
            exact Visit.ready_abort h hst hget hdep hns (by rw [pruned_obj_self]; exact hcall)
          · rename_i t1 m hcall
            exact Visit.ready_true h t1 m hst hget hdep hns (by rw [pruned_obj_self]; exact hcall)
          · rename_i t1 m hcall
            exact Visit.ready_false h t1 m hst hget hdep hns (by rw [pruned_obj_self]; exact hcall)

theorem depend_ready_nil (fin : Handle → Bool) : task.depend_ready fin [] = (true, []) := rfl

theorem depend_ready_calls_nil (fs : List (Handle → Bool)) (j : Nat)
    (hj : j < (depend_ready_calls fs []).length) : (depend_ready_calls fs [])[j]? = some true := by
  induction fs generalizing j with
  | nil => simp [depend_ready_calls] at hj
  | cons f fs ih =>
    cases j with
    | zero => simp [depend_ready_calls, depend_ready_nil]
    | succ j =>
      simp only [depend_ready_calls, depend_ready_nil, List.length_cons, Nat.add_lt_add_iff_right] at hj
      simpa [depend_ready_calls, depend_ready_nil] using ih j hj

theorem depend_ready_true_snd (fin : Handle → Bool) (D : List Handle)
    (h : (task.depend_ready fin D).1 = true) : (task.depend_ready fin D).2 = [] := by
  rw [depend_ready_snd]
  rw [depend_ready_fst] at h
  simpa [List.filter_eq_nil_iff] using h

theorem depend_ready_calls_mono (fs : List (Handle → Bool)) (D : List Handle) (i j : Nat)
    (hij : i ≤ j) (hj : j < (depend_ready_calls fs D).length)
    (hi : (depend_ready_calls fs D)[i]? = some true) :
    (depend_ready_calls fs D)[j]? = some true := by
  induction fs generalizing D i j with
  | nil => simp [depend_ready_calls] at hj
  | cons f fs ih =>
    cases j with
    | zero =>
      have : i = 0 := by omega
      subst this
      exact hi
    | succ j =>
      simp only [depend_ready_calls, List.length_cons, Nat.add_lt_add_iff_right] at hj
      cases i with
      | zero =>
        simp only [depend_ready_calls, List.getElem?_cons_zero, Option.some.injEq] at hi
        have hnil := depend_ready_true_snd f D hi
        simp only [depend_ready_calls, List.getElem?_cons_succ]
        rw [hnil] at hj ⊢
        exact depend_ready_calls_nil fs j hj
      | succ i =>
        simp only [depend_ready_calls, List.getElem?_cons_succ] at hi ⊢
        exact ih _ i j (by omega) hj hi

/-! ## Lemmas on one visit of the scheduler -/

theorem pruned_deps (s : State) (h h1 : Handle) (d : Handle)
    (hd : d ∈ (s.obj h1).dependencies) :
    s.finished d = true ∨ d ∈ ((pruned s h).obj h1).dependencies := by
  by_cases hf : s.finished d = true
  · exact Or.inl hf
  · right
    by_cases hh : h1 = h
    · subst hh
      rw [pruned_obj_self]
      simp only [depend_ready_snd, List.mem_filter]
      exact ⟨hd, by simpa using hf⟩
    · simpa [pruned, Function.update_noteq hh] using hd

theorem pruned_started (s : State) (h h1 : Handle) :
    ((pruned s h).obj h1).m_started = (s.obj h1).m_started := by
  by_cases hh : h1 = h
  · subst hh; rw [pruned_obj_self]
  · simp [pruned, Function.update_noteq hh]

theorem update_true_mono (f : Handle → Bool) (h x : Handle) (hx : f x = true) :
    Function.update f h true x = true := by
  by_cases hh : x = h
  · subst hh; simp
  · simpa [Function.update_noteq hh] using hx

theorem Visit.finished_mono {b : Build} {e : MPIEnv} {s s1 : State} {ev : Event}
    (hv : Visit b e s ev s1) (d : Handle) (hd : s.finished d = true) : s1.finished d = true := by
  cases hv with
  | halted _ => exact hd
  | returned _ _ _ _ => exact hd
  | assert_live _ _ _ _ => exact hd
  | rescan _ _ _ => exact hd
  | skip h _ _ _ => exact hd
  | restart h _ _ _ _ _ => exact hd
  | startup_abort h _ _ _ _ _ _ => exact hd
  | startup_false h t1 ops _ _ _ _ _ hcall => exact update_true_mono _ _ _ hd
  | startup_true h t1 ops _ _ _ _ _ hcall => exact hd
  | ready_abort h _ _ _ _ _ => exact hd
  | ready_true h t1 m _ _ _ _ hcall => exact update_true_mono _ _ _ hd
  | ready_false h t1 m _ _ _ _ hcall => exact hd

theorem Visit.deps_kept {b : Build} {e : MPIEnv} {s s1 : State} {ev : Event}
    (hv : Visit b e s ev s1) (h1 d : Handle) (hd : d ∈ (s.obj h1).dependencies) :
    s1.finished d = true ∨ d ∈ (s1.obj h1).dependencies := by
  have key : ∀ h t1 (f : Handle → Bool), (∀ x, s.finished x = true → f x = true) →
      t1.dependencies = ((pruned s h).obj h).dependencies →
      f d = true ∨ d ∈ ((Function.update (pruned s h).obj h t1) h1).dependencies := by
    intro h t1 f hf ht1
    rcases pruned_deps s h h1 d hd with hfin | hin
    · exact Or.inl (hf d hfin)
    · right
      by_cases hh : h1 = h
      · subst hh; simpa [ht1] using hin
      · simpa [Function.update_noteq hh] using hin
  have hupd : ∀ (h x : Handle), s.finished x = true → Function.update s.finished h true x = true :=
    fun h x hx => update_true_mono _ _ _ hx
  cases hv with
  | halted _ => exact Or.inr hd
  | returned _ _ _ _ => exact Or.inr hd
  | assert_live _ _ _ _ => exact Or.inr hd
  | rescan _ _ _ => exact Or.inr hd
  | skip h _ _ _ => exact pruned_deps s h h1 d hd
  | restart h _ _ _ _ _ => exact pruned_deps s h h1 d hd
  | startup_abort h _ _ _ _ _ _ => exact pruned_deps s h h1 d hd
  | startup_false h t1 ops _ _ _ _ _ hcall =>
    exact key h t1 _ (hupd h) (task_startup_frame _ _ _ _ _ _ _ hcall).1
  | startup_true h t1 ops _ _ _ _ _ hcall =>
    exact key h t1 _ (fun _ hx => hx) (task_startup_frame _ _ _ _ _ _ _ hcall).1
  | ready_abort h _ _ _ _ _ => exact pruned_deps s h h1 d hd
  | ready_true h t1 m _ _ _ _ hcall =>
    exact key h t1 _ (hupd h) (task_ready_frame _ _ _ _ _ _ _ hcall).1
  | ready_false h t1 m _ _ _ _ hcall =>
    exact key h t1 _ (fun _ hx => hx) (task_ready_frame _ _ _ _ _ _ _ hcall).1

theorem run_deps_kept (b : Build) (es : List MPIEnv) (s : State) (h1 d : Handle)
    (hd : d ∈ (s.obj h1).dependencies) :
    (run b es s).finished d = true ∨ d ∈ ((run b es s).obj h1).dependencies := by
  induction es generalizing s with
  | nil => exact Or.inr hd
  | cons e es ih =>
    simp only [run]
    rcases (visit_spec b e s).deps_kept h1 d hd with hf | hin
    · left
      clear ih
      generalize (visit b e s).2 = s1 at hf
      induction es generalizing s1 with
      | nil => exact hf
      | cons e1 es ih1 =>
        simp only [run]
        exact ih1 _ ((visit_spec b e1 s1).finished_mono d hf)
    · exact ih _ hin

theorem visit_startup_ready {b : Build} {e : MPIEnv} {s : State} {h : Handle} {r : Option Bool}
    (hev : (visit b e s).1 = Event.startup h r) :
    s.status = .running ∧ s.tl.tasks.get? s.tli = some h ∧
      (task.depend_ready s.finished (s.obj h).dependencies).1 = true ∧
      (s.obj h).m_started = false ∧ s.live_tasks ≤ b.max_live_tasks := by
  have hv := visit_spec b e s
  rw [hev] at hv
  generalize (visit b e s).2 = s1 at hv
  cases hv with
  | startup_abort _ hst hget hdep hns hlive _ => exact ⟨hst, hget, hdep, hns, not_lt.mp hlive⟩
  | startup_false _ _ _ hst hget hdep hns hlive _ => exact ⟨hst, hget, hdep, hns, not_lt.mp hlive⟩
  | startup_true _ _ _ hst hget hdep hns hlive _ => exact ⟨hst, hget, hdep, hns, not_lt.mp hlive⟩

theorem nodup_not_mem_eraseIdx (l : List Handle) (k : Nat) (x : Handle) (hnd : l.Nodup)
    (hk : l.get? k = some x) : x ∉ l.eraseIdx k := by
  intro hmem
  rw [List.mem_eraseIdx_iff_getElem?] at hmem
  obtain ⟨i, hik, hi⟩ := hmem
  rw [List.get?_eq_getElem?] at hk
  obtain ⟨hi1, hi2⟩ := List.getElem?_eq_some_iff.mp hi
  obtain ⟨hk1, hk2⟩ := List.getElem?_eq_some_iff.mp hk
  exact hik ((List.Nodup.getElem_inj_iff hnd).mp (hi2.trans hk2.symm))

theorem Visit.started_mono {b : Build} {e : MPIEnv} {s s1 : State} {ev : Event}
    (hv : Visit b e s ev s1) (h1 : Handle) (hd : (s.obj h1).m_started = true) :
    (s1.obj h1).m_started = true := by
  have hp : ∀ h, ((pruned s h).obj h1).m_started = true := fun h => by
    rw [pruned_started]; exact hd
  have key : ∀ h t1, t1.m_started = true →
      ((Function.update (pruned s h).obj h t1) h1).m_started = true := by
    intro h t1 ht1
    by_cases hh : h1 = h
    · subst hh; simpa using ht1
    · simpa [Function.update_noteq hh] using hp h
  cases hv with
  | halted _ => exact hd
  | returned _ _ _ _ => exact hd
  | assert_live _ _ _ _ => exact hd
  | rescan _ _ _ => exact hd
  | skip h _ _ _ => exact hp h
  | restart h _ _ _ _ _ => exact hp h
  | startup_abort h _ _ _ _ _ _ => exact hp h
  | startup_false h t1 ops _ _ _ _ _ hcall =>
    exact key h t1 (task_startup_frame _ _ _ _ _ _ _ hcall).2.1
  | startup_true h t1 ops _ _ _ _ _ hcall =>
    exact key h t1 (task_startup_frame _ _ _ _ _ _ _ hcall).2.1
  | ready_abort h _ _ _ _ _ => exact hp h
  | ready_true h t1 m _ _ _ hs hcall =>
    refine key h t1 ?_
    rw [(task_ready_frame _ _ _ _ _ _ _ hcall).2.1, pruned_started]; exact hs
  | ready_false h t1 m _ _ _ hs hcall =>
    refine key h t1 ?_
    rw [(task_ready_frame _ _ _ _ _ _ _ hcall).2.1, pruned_started]; exact hs

theorem Visit.tasks_subset {b : Build} {e : MPIEnv} {s s1 : State} {ev : Event}
    (hv : Visit b e s ev s1) (x : Handle) (hx : x ∈ s1.tl.tasks) : x ∈ s.tl.tasks := by
  cases hv with
  | halted _ => exact hx
  | returned _ _ _ _ => exact hx
  | assert_live _ _ _ _ => exact hx
  | rescan _ _ _ => exact hx
  | skip h _ _ _ => exact hx
  | restart h _ _ _ _ _ => exact hx
  | startup_abort h _ _ _ _ _ _ => exact hx
  | startup_false h t1 ops _ _ _ _ _ hcall => exact List.mem_of_mem_eraseIdx hx
  | startup_true h t1 ops _ _ _ _ _ hcall => exact hx
  | ready_abort h _ _ _ _ _ => exact hx
  | ready_true h t1 m _ _ _ _ hcall => exact List.mem_of_mem_eraseIdx hx
  | ready_false h t1 m _ _ _ _ hcall => exact hx

theorem Visit.nodup {b : Build} {e : MPIEnv} {s s1 : State} {ev : Event}
    (hv : Visit b e s ev s1) (hnd : s.tl.tasks.Nodup) : s1.tl.tasks.Nodup := by
  cases hv with
  | halted _ => exact hnd
  | returned _ _ _ _ => exact hnd
  | assert_live _ _ _ _ => exact hnd
  | rescan _ _ _ => exact hnd
  | skip h _ _ _ => exact hnd
  | restart h _ _ _ _ _ => exact hnd
  | startup_abort h _ _ _ _ _ _ => exact hnd
  | startup_false h t1 ops _ _ _ _ _ hcall => exact List.Nodup.eraseIdx _ hnd
  | startup_true h t1 ops _ _ _ _ _ hcall => exact hnd
  | ready_abort h _ _ _ _ _ => exact hnd
  | ready_true h t1 m _ _ _ _ hcall => exact List.Nodup.eraseIdx _ hnd
  | ready_false h t1 m _ _ _ _ hcall => exact hnd

/-- A task of the collection that is started after a visit was started before
it, or the visit is its `startup()` returning true. -/
theorem Visit.started_origin {b : Build} {e : MPIEnv} {s s1 : State} {ev : Event}
    (hv : Visit b e s ev s1) (hnd : s.tl.tasks.Nodup) (x : Handle) (hx : x ∈ s1.tl.tasks)
    (hs1 : (s1.obj x).m_started = true) :
    (s.obj x).m_started = true ∨ ev = .startup x (some true) := by
  have key : ∀ h t1, ((Function.update (pruned s h).obj h t1) x).m_started = true → x ≠ h →
      (s.obj x).m_started = true := by
    intro h t1 ht hne
    rw [Function.update_noteq hne, pruned_started] at ht
    exact ht
  cases hv with
  | halted _ => exact Or.inl hs1
  | returned _ _ _ _ => exact Or.inl hs1
  | assert_live _ _ _ _ => exact Or.inl hs1
  | rescan _ _ _ => exact Or.inl hs1
  | skip h _ _ _ => left; rw [← pruned_started s h x]; exact hs1
  | restart h _ _ _ _ _ => left; rw [← pruned_started s h x]; exact hs1
  | startup_abort h _ _ _ _ _ _ => left; rw [← pruned_started s h x]; exact hs1
  | startup_false h t1 ops _ hget _ _ _ hcall =>
    left
    refine key h t1 hs1 ?_
    rintro rfl
    exact nodup_not_mem_eraseIdx _ _ _ hnd hget hx
  | startup_true h t1 ops _ _ _ _ _ hcall =>
    by_cases hh : x = h
    · subst hh; exact Or.inr rfl
    · exact Or.inl (key h t1 hs1 hh)
  | ready_abort h _ _ _ _ _ => left; rw [← pruned_started s h x]; exact hs1
  | ready_true h t1 m _ _ _ hs hcall =>
    by_cases hh : x = h
    · subst hh; exact Or.inl hs
    · exact Or.inl (key h t1 hs1 hh)
  | ready_false h t1 m _ _ _ hs hcall =>
    by_cases hh : x = h
    · subst hh; exact Or.inl hs
    · exact Or.inl (key h t1 hs1 hh)

theorem visit_ready_event {b : Build} {e : MPIEnv} {s : State} {h : Handle} {r : Option Bool}
    (hev : (visit b e s).1 = Event.ready h r) :
    s.status = .running ∧ s.tl.tasks.get? s.tli = some h ∧ (s.obj h).m_started = true := by
  have hv := visit_spec b e s
  rw [hev] at hv
  generalize (visit b e s).2 = s1 at hv
  cases hv with
  | ready_abort _ hst hget _ hs _ => exact ⟨hst, hget, hs⟩
  | ready_true _ _ _ hst hget _ hs _ => exact ⟨hst, hget, hs⟩
  | ready_false _ _ _ hst hget _ hs _ => exact ⟨hst, hget, hs⟩

theorem visit_startup_after {b : Build} {e : MPIEnv} {s : State} {h : Handle} {r : Option Bool}
    (hev : (visit b e s).1 = Event.startup h r) :
    (visit b e s).2.status ≠ .running ∨ ((visit b e s).2.obj h).m_started = true := by
  have hv := visit_spec b e s
  rw [hev] at hv
  generalize (visit b e s).2 = s1 at hv
  cases hv with
  | startup_abort _ hst hget hdep hns hlive _ => left; simp
  | startup_false _ t1 _ hst hget hdep hns hlive hcall =>
    right; simpa using (task_startup_frame _ _ _ _ _ _ _ hcall).2.1
  | startup_true _ t1 _ hst hget hdep hns hlive hcall =>
    right; simpa using (task_startup_frame _ _ _ _ _ _ _ hcall).2.1

theorem visit_halted {b : Build} {e : MPIEnv} {s : State} (hst : s.status ≠ .running) :
    visit b e s = (.halted, s) := by
  unfold visit
  split
  · rfl
  · rfl
  · rename_i h; exact absurd h hst

theorem trace_halted (b : Build) (es : List MPIEnv) (s : State) (hst : s.status ≠ .running)
    (i : Nat) (ev : Event) (hi : (trace b es s)[i]? = some ev) : ev = .halted := by
  induction es generalizing i with
  | nil => simp [trace] at hi
  | cons e es ih =>
    rw [trace, visit_halted hst] at hi
    cases i with
    | zero => simpa using hi.symm
    | succ i => exact ih i (by simpa using hi)

theorem mem_of_get? {l : List Handle} {k : Nat} {x : Handle} (h : l.get? k = some x) : x ∈ l := by
  rw [List.get?_eq_getElem?] at h
  obtain ⟨h1, h2⟩ := List.getElem?_eq_some_iff.mp h
  exact h2 ▸ List.getElem_mem h1

/-- In the trace of a run from `s`, a call of `ready()` on `x` is made on a task
already started in `s`, or after a `startup()` of `x` that returned true. -/
theorem trace_ready_after_startup (b : Build) (es : List MPIEnv) (s : State)
    (hnd : s.tl.tasks.Nodup) (i : Nat) (x : Handle) (r : Option Bool)
    (hi : (trace b es s)[i]? = some (.ready x r)) :
    (x ∈ s.tl.tasks ∧ (s.obj x).m_started = true) ∨
      ∃ j, j < i ∧ (trace b es s)[j]? = some (.startup x (some true)) := by
  induction es generalizing s i with
  | nil => simp [trace] at hi
  | cons e es ih =>
    rw [trace] at hi ⊢
    cases i with
    | zero =>
      simp only [List.getElem?_cons_zero, Option.some.injEq] at hi
      obtain ⟨-, hget, hs⟩ := visit_ready_event hi
      exact Or.inl ⟨mem_of_get? hget, hs⟩
    | succ i =>
      simp only [List.getElem?_cons_succ] at hi
      have hv := visit_spec b e s
      rcases ih _ (hv.nodup hnd) i hi with ⟨hx, hs1⟩ | ⟨j, hj, hjs⟩
      · rcases hv.started_origin hnd x hx hs1 with hs | hev
        · exact Or.inl ⟨hv.tasks_subset x hx, hs⟩
        · exact Or.inr ⟨0, Nat.succ_pos i, by simp [hev]⟩
      · exact Or.inr ⟨j + 1, by omega, by simpa using hjs⟩

/-- In the trace of a run from `s`, `startup()` is called only on a task that is
not started in `s`. -/
theorem trace_startup_unstarted (b : Build) (es : List MPIEnv) (s : State) (i : Nat)
    (x : Handle) (r : Option Bool) (hi : (trace b es s)[i]? = some (.startup x r)) :
    (s.obj x).m_started = false := by
  induction es generalizing s i with
  | nil => simp [trace] at hi
  | cons e es ih =>
    rw [trace] at hi
    cases i with
    | zero =>
      simp only [List.getElem?_cons_zero, Option.some.injEq] at hi
      exact (visit_startup_ready hi).2.2.2.1
    | succ i =>
      simp only [List.getElem?_cons_succ] at hi
      have h1 := ih _ i hi
      by_contra hne
      have := (visit_spec b e s).started_mono x (by simpa using hne)
      rw [this] at h1
      exact Bool.noConfusion h1

theorem trace_startup_le (b : Build) (es : List MPIEnv) (s : State) (i j : Nat)
    (x : Handle) (r r1 : Option Bool) (hij : i ≤ j)
    (hi : (trace b es s)[i]? = some (.startup x r))
    (hj : (trace b es s)[j]? = some (.startup x r1)) : i = j := by
  induction es generalizing s i j with
  | nil => simp [trace] at hi
  | cons e es ih =>
    rw [trace] at hi hj
    cases i with
    | zero =>
      cases j with
      | zero => rfl
      | succ j =>
        exfalso
        simp only [List.getElem?_cons_zero, Option.some.injEq] at hi
        simp only [List.getElem?_cons_succ] at hj
        have h1 := trace_startup_unstarted b es _ j x r1 hj
        rcases visit_startup_after hi with hst | hs
        · have := trace_halted b es _ hst j _ hj
          exact Event.noConfusion this
        · rw [hs] at h1
          exact Bool.noConfusion h1
    | succ i =>
      cases j with
      | zero => omega
      | succ j =>
        simp only [List.getElem?_cons_succ] at hi hj
        have := ih _ i j (by omega) hi hj
        omega

theorem trace_startup_once (b : Build) (es : List MPIEnv) (s : State) (i j : Nat)
    (x : Handle) (r r1 : Option Bool)
    (hi : (trace b es s)[i]? = some (.startup x r))
    (hj : (trace b es s)[j]? = some (.startup x r1)) : i = j := by
  rcases Nat.le_total i j with h | h
  · exact trace_startup_le b es s i j x r r1 h hi hj
  · exact (trace_startup_le b es s j i x r1 r h hj hi).symm

theorem run_append (b : Build) (es es1 : List MPIEnv) (s : State) :
    run b (es ++ es1) s = run b es1 (run b es s) := by
  induction es generalizing s with
  | nil => rfl
  | cons e es ih => simp only [List.cons_append, run]; exact ih _

theorem run_nodup (b : Build) (es : List MPIEnv) (s : State) (hnd : s.tl.tasks.Nodup) :
    (run b es s).tl.tasks.Nodup := by
  induction es generalizing s with
  | nil => exact hnd
  | cons e es ih => exact ih _ ((visit_spec b e s).nodup hnd)

theorem trace_getElem?_length (b : Build) (es es1 : List MPIEnv) (e : MPIEnv) (s : State) :
    (trace b (es ++ e :: es1) s)[es.length]? = some (visit b e (run b es s)).1 := by
  induction es generalizing s with
  | nil => simp [trace, run]
  | cons e0 es ih => simpa [trace, run] using ih _

theorem visit_startup_false {b : Build} {e : MPIEnv} {s : State} {h : Handle}
    (hev : (visit b e s).1 = Event.startup h (some false)) :
    s.tl.tasks.get? s.tli = some h ∧ (visit b e s).2.finished h = true ∧
      (visit b e s).2.tl.tasks = s.tl.tasks.eraseIdx s.tli ∧
      (visit b e s).2.live_tasks = s.live_tasks := by
  have hv := visit_spec b e s
  rw [hev] at hv
  generalize (visit b e s).2 = s1 at hv
  cases hv with
  | startup_false _ t1 _ hst hget hdep hns hlive hcall =>
    exact ⟨hget, by simp, rfl, rfl⟩

theorem stuck_visit_eq {b : Build} {e : MPIEnv} {s : State} {h d : Handle} (hs : Stuck s h d) :
    (visit b e s).2 = pruned s h := by
  obtain ⟨hst, hget, hd, hf⟩ := hs
  have hdep : (task.depend_ready s.finished (s.obj h).dependencies).1 = false := by
    rw [Bool.eq_false_iff]
    intro hc
    have := (depend_ready_fst _ _).mp hc d hd
    rw [hf] at this
    exact Bool.noConfusion this
  have hv := visit_spec b e s
  generalize (visit b e s).1 = ev at hv
  generalize (visit b e s).2 = s1 at hv
  cases hv with
  | halted hne => exact absurd hst hne
  | returned _ hend _ _ => rw [hend] at hget; cases hget
  | assert_live _ hend _ _ => rw [hend] at hget; cases hget
  | rescan _ hend _ => rw [hend] at hget; cases hget
  | skip h1 _ hget1 _ =>
    obtain rfl : h1 = h := by rw [hget1] at hget; exact Option.some.inj hget
    rfl
  | restart h1 _ hget1 hdep1 _ _ =>
    obtain rfl : h1 = h := by rw [hget1] at hget; exact Option.some.inj hget
    rw [hdep] at hdep1; exact Bool.noConfusion hdep1
  | startup_abort h1 _ hget1 hdep1 _ _ _ =>
    obtain rfl : h1 = h := by rw [hget1] at hget; exact Option.some.inj hget
    rw [hdep] at hdep1; exact Bool.noConfusion hdep1
  | startup_false h1 _ _ _ hget1 hdep1 _ _ _ =>
    obtain rfl : h1 = h := by rw [hget1] at hget; exact Option.some.inj hget
    rw [hdep] at hdep1; exact Bool.noConfusion hdep1
  | startup_true h1 _ _ _ hget1 hdep1 _ _ _ =>
    obtain rfl : h1 = h := by rw [hget1] at hget; exact Option.some.inj hget
    rw [hdep] at hdep1; exact Bool.noConfusion hdep1
  | ready_abort h1 _ hget1 hdep1 _ _ =>
    obtain rfl : h1 = h := by rw [hget1] at hget; exact Option.some.inj hget
    rw [hdep] at hdep1; exact Bool.noConfusion hdep1
  | ready_true h1 _ _ _ hget1 hdep1 _ _ =>
    obtain rfl : h1 = h := by rw [hget1] at hget; exact Option.some.inj hget
    rw [hdep] at hdep1; exact Bool.noConfusion hdep1
  | ready_false h1 _ _ _ hget1 hdep1 _ _ =>
    obtain rfl : h1 = h := by rw [hget1] at hget; exact Option.some.inj hget
    rw [hdep] at hdep1; exact Bool.noConfusion hdep1

theorem stuck_visit {b : Build} {e : MPIEnv} {s : State} {h d : Handle} (hs : Stuck s h d) :
    Stuck (visit b e s).2 h d := by
  rw [stuck_visit_eq hs]
  obtain ⟨hst, hget, hd, hf⟩ := hs
  refine ⟨hst, hget, ?_, hf⟩
  rcases pruned_deps s h h d hd with hfin | hin
  · rw [hf] at hfin; exact Bool.noConfusion hfin
  · exact hin

theorem stuck_run {b : Build} {s : State} {h d : Handle} (hs : Stuck s h d)
    (es : List MPIEnv) : Stuck (run b es s) h d := by
  induction es generalizing s with
  | nil => exact hs
  | cons e es ih => exact ih (stuck_visit hs)

/-! ## Lemmas on the construction of copy tasks -/

theorem do_depend_foldl (obj : Handle → task) (d : task_copy_data) (tasks : List Handle)
    (t : task) :
    (task_copy._do_depend obj tasks t d).dependencies =
      t.dependencies ++ tasks.filter (fun h => task_copy.depends_on_q d (obj h)) := by
  unfold task_copy._do_depend
  induction tasks generalizing t with
  | nil => simp
  | cons a l ih =>
    simp only [List.foldl_cons]
    rw [ih]
    by_cases hq : task_copy.depends_on_q d (obj a) = true
    · simp [hq, task.depend_on]
    · simp [hq]

theorem ctor_dependencies (s s1 : State) (mf dgrid : Nat) (db : Box) (smf sgrid : Nat) (sb : Box)
    (t : task) (hc : task_copy.ctor s mf dgrid db smf sgrid sb = some (t, s1)) :
    t.dependencies = s.tl.tasks.filter (fun h =>
      task_copy.depends_on_q ⟨mf, dgrid, smf, sgrid, db, sb, false, none, false⟩ (s.obj h)) := by
  unfold task_copy.ctor task.ctor at hc
  simp only at hc
  split at hc
  · cases hc
  · rename_i t0 tl heq
    split at heq
    · cases heq
    · simp only [Option.some.injEq, Prod.mk.injEq] at heq hc
      obtain ⟨rfl, rfl⟩ := heq
      obtain ⟨rfl, -⟩ := hc
      rw [do_depend_foldl]
      simp [task_list.get_then_advance]

theorem depends_on_q_of_races (d d1 : task_copy_data) (t1 : task) (hk : t1.kind = .copy d1)
    (hsame : d.m_mf = d.m_smf) (hr : spec_races d d1 = true) :
    task_copy.depends_on_q d t1 = true := by
  unfold task_copy.depends_on_q
  rw [hk]
  simp only [spec_races, Bool.or_eq_true, Bool.and_eq_true, beq_iff_eq] at hr
  simp only [hsame, ne_eq, not_true_eq_false, if_false, Bool.and_eq_true, beq_iff_eq]
  rcases hr with ((⟨⟨-, h1⟩, h2⟩ | ⟨⟨-, h1⟩, h2⟩) | ⟨⟨-, h1⟩, h2⟩) | ⟨⟨-, h1⟩, h2⟩
  · by_cases c1 : d.m_sgrid = d1.m_dgrid ∧ d.m_sbx.intersects d1.m_bx = true
    · simp [c1]
    · by_cases c2 : d.m_dgrid = d1.m_dgrid ∧ d.m_bx.intersects d1.m_bx = true
      · simp [c1, c2]
      · simp [c1, c2, h1, h2]
  · simp [h1, h2]
  · by_cases c1 : d.m_sgrid = d1.m_dgrid ∧ d.m_sbx.intersects d1.m_bx = true
    · simp [c1]
    · by_cases c2 : d.m_dgrid = d1.m_dgrid ∧ d.m_bx.intersects d1.m_bx = true
      · simp [c1, c2]
      · by_cases c3 : d.m_sgrid = d1.m_sgrid ∧ d.m_sbx.intersects d1.m_sbx = true
        · simp [c1, c2, c3]
        · simp [c1, c2, c3, h1, h2]
  · by_cases c1 : d.m_sgrid = d1.m_dgrid ∧ d.m_sbx.intersects d1.m_bx = true
    · simp [c1]
    · simp [c1, h1, h2]

/-! ## Lemmas on the run of a single local copy -/

theorem run_halted (b : Build) (es : List MPIEnv) (s : State) (hst : s.status ≠ .running) :
    run b es s = s := by
  induction es with
  | nil => rfl
  | cons e es ih => rw [run, visit_halted hst]; exact ih

theorem IntVect.sub_add_cancel (p a : IntVect) : (p.sub a).add a = p := by
  cases p; cases a
  simp [IntVect.sub, IntVect.add]

/-- The copy of a single local `task_copy`: phase after `startup()`. -/
theorem single_copy_visit_startup (b : Build) (e : MPIEnv) (s : State) (h : Handle)
    (d : task_copy_data) (sno : Nat)
    (hL : 0 ≤ b.max_live_tasks)
    (hst : s.status = .running) (htasks : s.tl.tasks = [h]) (htli : s.tli = 0)
    (hlive : s.live_tasks = 0)
    (hobj : s.obj h = ⟨sno, false, [], .copy d⟩)
    (hld : is_local b (s.mem.mfs d.m_mf) d.m_dgrid = true)
    (hls : is_local b (s.mem.mfs d.m_smf) d.m_sgrid = true) :
    (visit b e s).2.status = .running ∧ (visit b e s).2.tl.tasks = [h] ∧
      (visit b e s).2.tli = 1 ∧ (visit b e s).2.live_tasks = 1 ∧
      (visit b e s).2.obj h = ⟨sno, true, [], .copy { d with m_local := true }⟩ ∧
      (visit b e s).2.mem = s.mem := by
  have hl : ¬ (0 : Int) > b.max_live_tasks := not_lt.mpr hL
  simp [visit, hst, htasks, htli, hlive, hobj, task.depend_ready, task.is_started, task.startup,
    task_copy.startup, hld, hls, hl]

theorem single_copy_visit_rescan (b : Build) (e : MPIEnv) (s : State) (h : Handle)
    (hst : s.status = .running) (htasks : s.tl.tasks = [h]) (htli : s.tli = 1) :
    (visit b e s).2 = { s with tli := 0 } := by
  simp [visit, hst, htasks, htli]

theorem single_copy_visit_ready (b : Build) (e : MPIEnv) (s : State) (h : Handle)
    (d : task_copy_data) (sno : Nat) (f : FArrayBox)
    (hst : s.status = .running) (htasks : s.tl.tasks = [h]) (htli : s.tli = 0)
    (hlive : s.live_tasks = 1)
    (hobj : s.obj h = ⟨sno, true, [], .copy d⟩) (hloc : d.m_local = true)
    (hcopy : ((s.mem.mfs d.m_mf).fabs d.m_dgrid).copy ((s.mem.mfs d.m_smf).fabs d.m_sgrid)
        d.m_sbx 0 d.m_bx 0 (s.mem.mfs d.m_mf).ncomp = some f) :
    (visit b e s).2.status = .running ∧ (visit b e s).2.tl.tasks = [] ∧
      (visit b e s).2.tli = 0 ∧ (visit b e s).2.live_tasks = 0 ∧
      (visit b e s).2.mem = s.mem.setFab d.m_mf d.m_dgrid f := by
  simp [visit, hst, htasks, htli, hlive, hobj, task.depend_ready, task.is_started, task.ready,
    task_copy.ready, hloc, hcopy]

theorem visit_returns (b : Build) (e : MPIEnv) (s : State)
    (hst : s.status = .running) (htasks : s.tl.tasks = []) (hlive : s.live_tasks = 0) :
    (visit b e s).2.status = .returned ∧ (visit b e s).2.tl.tasks = [] ∧
      (visit b e s).2.mem = s.mem := by
  simp [visit, hst, htasks, hlive]

theorem add_task_copy_empty (s : State) (mf dgrid smf sgrid : Nat) (bx : Box)
    (hemp : s.tl.tasks = []) (hseq : s.tl.seq_no ≠ 0) :
    ∃ s1, add_task_copy s mf dgrid smf sgrid bx = some s1 ∧ s1.tl.tasks = [s.nalloc] ∧
      s1.obj s.nalloc =
        ⟨s.tl.seq_no, false, [], .copy ⟨mf, dgrid, smf, sgrid, bx, bx, false, none, false⟩⟩ ∧
      s1.mem = s.mem := by
  simp [add_task_copy, task_copy.ctor_bx, task_copy.ctor, task.ctor, task_list.get_then_advance,
    hseq, task_copy._do_depend, hemp, task_list.add_task]

theorem copy_same_region (dst src : FArrayBox) (R : Box) (n : Nat)
    (hs : src.domain.containsBox R = true) (hd : dst.domain.containsBox R = true)
    (hns : n ≤ src.nvar) (hnd : n ≤ dst.nvar) :
    ∃ f, dst.copy src R 0 R 0 n = some f ∧
      ∀ p c, R.contains p = true → c < n → f.dat p c = src.dat p c := by
  refine ⟨_, by simp [FArrayBox.copy, hs, hd, hns, hnd]; rfl, ?_⟩
  intro p c hp hc
  simp [hp, hc, IntVect.sub_add_cancel]

/-- A run that is stuck at a task leaves the memory, the collection and the
count of live tasks as they are. -/
theorem stuck_run_frame {b : Build} {s : State} {h d : Handle} (hs : Stuck s h d)
    (es : List MPIEnv) :
    (run b es s).mem = s.mem ∧ (run b es s).tl.tasks = s.tl.tasks ∧
      (run b es s).live_tasks = s.live_tasks := by
  induction es generalizing s with
  | nil => exact ⟨rfl, rfl, rfl⟩
  | cons e es ih =>
    have h1 := ih (stuck_visit (b := b) (e := e) hs)
    have h2 : run b (e :: es) s = run b es (visit b e s).2 := rfl
    rw [h2]
    rw [stuck_visit_eq hs] at h1 ⊢
    exact h1

/-! ## The counter of live tasks -/

theorem countP_eraseIdx_add (p : Handle → Bool) (l : List Handle) (k : Nat) (h : Handle)
    (hk : l.get? k = some h) :
    l.countP p = (l.eraseIdx k).countP p + (if p h = true then 1 else 0) := by
  induction l generalizing k with
  | nil => simp at hk
  | cons a l ih =>
    cases k with
    | zero =>
      simp only [List.get?_cons_zero, Option.some.injEq] at hk
      subst hk
      by_cases hp : p a = true <;> simp [List.countP_cons, hp]
    | succ k =>
      simp only [List.get?_cons_succ] at hk
      simp only [List.eraseIdx_cons_succ, List.countP_cons]
      rw [ih k hk]
      omega

theorem countP_eraseIdx_congr (p q : Handle → Bool) (l : List Handle) (k : Nat) (h : Handle)
    (hnd : l.Nodup) (hk : l.get? k = some h) (hpq : ∀ x, x ≠ h → q x = p x) :
    (l.eraseIdx k).countP q = (l.eraseIdx k).countP p := by
  apply List.countP_congr
  intro x hx
  have hne : x ≠ h := by
    rintro rfl
    exact nodup_not_mem_eraseIdx l k x hnd hk hx
  rw [hpq x hne]

theorem pruned_started_count (s : State) (h : Handle) :
    started_count (pruned s h) = started_count s := by
  unfold started_count
  apply List.countP_congr
  intro x _
  rw [pruned_started]

/-- The counter `live_tasks` is the number of started tasks of the collection. -/
theorem Visit.live_count {b : Build} {e : MPIEnv} {s s1 : State} {ev : Event}
    (hv : Visit b e s ev s1) (hnd : s.tl.tasks.Nodup)
    (hinv : s.live_tasks = (started_count s : Int)) :
    s1.live_tasks = (started_count s1 : Int) := by
  have hoff : ∀ h t1 x, x ≠ h →
      ((Function.update (pruned s h).obj h t1) x).m_started = (s.obj x).m_started := by
    intro h t1 x hx
    rw [Function.update_noteq hx, pruned_started]
  cases hv with
  | halted _ => exact hinv
  | returned _ _ _ _ => exact hinv
  | assert_live _ _ _ _ => exact hinv
  | rescan _ _ _ => exact hinv
  | skip h _ _ _ => rw [pruned_started_count]; exact hinv
  | restart h _ _ _ _ _ =>
    show s.live_tasks = _
    rw [hinv, ← pruned_started_count s h]; rfl
  | startup_abort h _ _ _ _ _ _ =>
    show s.live_tasks = _
    rw [hinv, ← pruned_started_count s h]; rfl
  | ready_abort h _ _ _ _ _ =>
    show s.live_tasks = _
    rw [hinv, ← pruned_started_count s h]; rfl
  | startup_false h t1 ops _ hget _ hns _ hcall =>
    show s.live_tasks = ((s.tl.tasks.eraseIdx s.tli).countP _ : Int)
    rw [hinv]
    unfold started_count
    rw [countP_eraseIdx_add _ _ _ _ hget, hns]
    rw [countP_eraseIdx_congr (fun x => (s.obj x).m_started) _ _ _ h hnd hget (hoff h t1)]
    simp
  | startup_true h t1 ops _ hget _ hns _ hcall =>
    show s.live_tasks + 1 = ((s.tl.tasks).countP _ : Int)
    rw [hinv]
    unfold started_count
    rw [countP_eraseIdx_add _ s.tl.tasks _ _ hget, hns]
    rw [countP_eraseIdx_add (fun x => ((Function.update (pruned s h).obj h t1) x).m_started)
      s.tl.tasks _ _ hget]
    rw [countP_eraseIdx_congr (fun x => (s.obj x).m_started) _ _ _ h hnd hget (hoff h t1)]
    have : t1.m_started = true := (task_startup_frame _ _ _ _ _ _ _ hcall).2.1
    simp [this]
  | ready_true h t1 m _ hget _ hs hcall =>
    show s.live_tasks - 1 = ((s.tl.tasks.eraseIdx s.tli).countP _ : Int)
    rw [hinv]
    unfold started_count
    rw [countP_eraseIdx_add _ _ _ _ hget, hs]
    rw [countP_eraseIdx_congr (fun x => (s.obj x).m_started) _ _ _ h hnd hget (hoff h t1)]
    simp
  | ready_false h t1 m _ hget _ hs hcall =>
    show s.live_tasks = ((s.tl.tasks).countP _ : Int)
    rw [hinv]
    unfold started_count
    rw [countP_eraseIdx_add _ s.tl.tasks _ _ hget, hs]
    rw [countP_eraseIdx_add (fun x => ((Function.update (pruned s h).obj h t1) x).m_started)
      s.tl.tasks _ _ hget]
    rw [countP_eraseIdx_congr (fun x => (s.obj x).m_started) _ _ _ h hnd hget (hoff h t1)]
    have : t1.m_started = true := by
      rw [(task_ready_frame _ _ _ _ _ _ _ hcall).2.1, pruned_started]; exact hs
    simp [this]

theorem run_live_count (b : Build) (es : List MPIEnv) (s : State) (hnd : s.tl.tasks.Nodup)
    (hinv : s.live_tasks = (started_count s : Int)) :
    (run b es s).live_tasks = (started_count (run b es s) : Int) := by
  induction es generalizing s with
  | nil => exact hinv
  | cons e es ih =>
    exact ih _ ((visit_spec b e s).nodup hnd) ((visit_spec b e s).live_count hnd hinv)

theorem entry_live_count (s : State) (hun : ∀ h ∈ s.tl.tasks, (s.obj h).m_started = false) :
    (execute_entry s).live_tasks = (started_count (execute_entry s) : Int) := by
  show (0 : Int) = ((s.tl.tasks.countP fun h => (s.obj h).m_started : Nat) : Int)
  have : s.tl.tasks.countP (fun h => (s.obj h).m_started) = 0 := by
    rw [List.countP_eq_zero]
    intro x hx
    simp [hun x hx]
  rw [this]; rfl

/-! ## Lemmas on the exit of the loop -/

theorem trace_getElem?_eq (b : Build) (es : List MPIEnv) (s : State) (i : Nat) (ev : Event)
    (hi : (trace b es s)[i]? = some ev) :
    ∃ e, ev = (visit b e (run b (es.take i) s)).1 := by
  induction es generalizing s i with
  | nil => simp [trace] at hi
  | cons e es ih =>
    rw [trace] at hi
    cases i with
    | zero =>
      simp only [List.getElem?_cons_zero, Option.some.injEq] at hi
      exact ⟨e, by simp [run, hi]⟩
    | succ i =>
      simp only [List.getElem?_cons_succ] at hi
      obtain ⟨e1, he1⟩ := ih _ i hi
      exact ⟨e1, by simpa [run] using he1⟩

theorem visit_assert_live {b : Build} {e : MPIEnv} {s : State}
    (hev : (visit b e s).1 = Event.assert_live) : s.tl.tasks = [] ∧ s.live_tasks ≠ 0 := by
  have hv := visit_spec b e s
  rw [hev] at hv
  generalize (visit b e s).2 = s1 at hv
  cases hv with
  | assert_live _ _ hemp hlive => exact ⟨hemp, hlive⟩

theorem live_zero_of_empty (s : State) (hinv : s.live_tasks = (started_count s : Int))
    (hemp : s.tl.tasks = []) : s.live_tasks = 0 := by
  rw [hinv, started_count, hemp]; rfl

/-- A run that has returned has an empty collection and its counter `seq_no`
back at 1. -/
theorem Visit.returned_inv {b : Build} {e : MPIEnv} {s s1 : State} {ev : Event}
    (hv : Visit b e s ev s1)
    (hinv : s.status = .returned → s.tl.tasks = [] ∧ s.tl.seq_no = 1) :
    s1.status = .returned → s1.tl.tasks = [] ∧ s1.tl.seq_no = 1 := by
  cases hv with
  | halted _ => exact hinv
  | returned _ _ hemp _ => intro _; exact ⟨hemp, rfl⟩
  | assert_live _ _ _ _ => intro h; cases h
  | rescan hst _ _ => intro h; rw [show ({ s with tli := 0 } : State).status = s.status from rfl, hst] at h; cases h
  | skip h hst _ _ => intro h1; rw [show (pruned s h).status = s.status from rfl, hst] at h1; cases h1
  | restart h hst _ _ _ _ =>
    intro h1
    rw [show ({ pruned s h with tli := 0 } : State).status = s.status from rfl, hst] at h1
    cases h1
  | startup_abort h _ _ _ _ _ _ => intro h1; cases h1
  | startup_false h t1 ops hst _ _ _ _ _ =>
    intro h1
    have : s.status = .returned := h1
    rw [hst] at this; cases this
  | startup_true h t1 ops hst _ _ _ _ _ =>
    intro h1
    have : s.status = .returned := h1
    rw [hst] at this; cases this
  | ready_abort h _ _ _ _ _ => intro h1; cases h1
  | ready_true h t1 m hst _ _ _ _ =>
    intro h1
    have : s.status = .returned := h1
    rw [hst] at this; cases this
  | ready_false h t1 m hst _ _ _ _ =>
    intro h1
    have : s.status = .returned := h1
    rw [hst] at this; cases this

theorem run_returned_inv (b : Build) (es : List MPIEnv) (s : State)
    (hinv : s.status = .returned → s.tl.tasks = [] ∧ s.tl.seq_no = 1) :
    (run b es s).status = .returned → (run b es s).tl.tasks = [] ∧ (run b es s).tl.seq_no = 1 := by
  induction es generalizing s with
  | nil => exact hinv
  | cons e es ih => exact ih _ ((visit_spec b e s).returned_inv hinv)

theorem execute_returned_inv (b : Build) (es : List MPIEnv) (s : State) :
    (execute b es s).status = .returned →
      (execute b es s).tl.tasks = [] ∧ (execute b es s).tl.seq_no = 1 :=
  run_returned_inv b es (execute_entry s) (fun h => by cases h)

/-! ## Lemmas on the constructors and the sequence numbers -/

theorem do_depend_frame (obj : Handle → task) (d : task_copy_data) (tasks : List Handle)
    (t : task) :
    (task_copy._do_depend obj tasks t d).m_sno = t.m_sno ∧
      (task_copy._do_depend obj tasks t d).m_started = t.m_started ∧
      (task_copy._do_depend obj tasks t d).kind = t.kind := by
  unfold task_copy._do_depend
  induction tasks generalizing t with
  | nil => exact ⟨rfl, rfl, rfl⟩
  | cons a l ih =>
    simp only [List.foldl_cons]
    by_cases hq : task_copy.depends_on_q d (obj a) = true
    · simp only [hq, if_true]
      exact ih (t.depend_on a)
    · simp only [hq]
      exact ih t

theorem task_ctor_some (tl : task_list) (k : task_kind) (hseq : tl.seq_no ≠ 0) :
    task.ctor tl k =
      some (⟨tl.seq_no, false, [], k⟩, { tl with seq_no := (tl.seq_no + tl.seq_delta) % sequence_number_size }) := by
  simp [task.ctor, task_list.get_then_advance, hseq]

theorem task_ctor_none (tl : task_list) (k : task_kind) (hseq : tl.seq_no = 0) :
    task.ctor tl k = none := by
  simp [task.ctor, task_list.get_then_advance, hseq]

/-- What every constructor does with the task list: it takes the number `seq_no`
for the task, advances the counter by `seq_delta` and touches nothing else of
the state; it fails only on the number 0. -/
theorem construct_spec (b : Build) (s : State) (c : Ctor) :
    (s.tl.seq_no = 0 → construct b s c = none) ∧
    (s.tl.seq_no ≠ 0 → ∃ t, construct b s c =
        some (t, { s with tl := { s.tl with seq_no := (s.tl.seq_no + s.tl.seq_delta) % sequence_number_size } }) ∧
      t.m_sno = s.tl.seq_no ∧ t.m_started = false) := by
  constructor
  · intro h0
    cases c <;>
      simp [construct, task_copy.ctor, task_copy_local.ctor, task_fab.ctor, task_fec_base.ctor,
        task_ctor_none _ _ h0]
  · intro h0
    cases c with
    | task =>
      exact ⟨⟨s.tl.seq_no, false, [], .base⟩, by simp [construct, task_ctor_some _ _ h0], rfl, rfl⟩
    | task_copy mf dgrid db smf sgrid sb =>
      refine ⟨task_copy._do_depend s.obj s.tl.tasks
        ⟨s.tl.seq_no, false, [], .copy ⟨mf, dgrid, smf, sgrid, db, sb, false, none, false⟩⟩
        ⟨mf, dgrid, smf, sgrid, db, sb, false, none, false⟩,
        by simp only [construct, task_copy.ctor, task_ctor_some _ _ h0], ?_, ?_⟩
      · exact (do_depend_frame _ _ _ _).1
      · exact (do_depend_frame _ _ _ _).2.1
    | task_copy_local fab_ target_proc_id bx smf_ grid req =>
      exact ⟨⟨s.tl.seq_no, false, [],
        .copy_local ⟨fab_, smf_, grid, bx, none, false, target_proc_id, req⟩⟩,
        by simp [construct, task_copy_local.ctor, task_ctor_some _ _ h0], rfl, rfl⟩
    | task_fab t_ tt_ region_ ncomp_ =>
      by_cases hl : is_local b (s.mem.mfs t_) tt_ = true
      · exact ⟨⟨s.tl.seq_no, false, [], .fab ⟨processor_number (s.mem.mfs t_) tt_, region_, ncomp_,
          some (FArrayBox.alloc region_ ncomp_)⟩⟩,
          by simp [construct, task_fab.ctor, task_ctor_some _ _ h0, h0, hl], rfl, rfl⟩
      · exact ⟨⟨s.tl.seq_no, false, [], .fab ⟨processor_number (s.mem.mfs t_) tt_, region_, ncomp_,
          none⟩⟩,
          by simp [construct, task_fab.ctor, task_ctor_some _ _ h0, h0, hl], rfl, rfl⟩
    | task_fec_base s_ igrid_ =>
      exact ⟨⟨s.tl.seq_no, false, [], .fec_base ⟨s_, igrid_, []⟩⟩,
        by simp [construct, task_fec_base.ctor, task_ctor_some _ _ h0], rfl, rfl⟩

theorem submit_spec (b : Build) (s : State) (c : Ctor) (h0 : s.tl.seq_no ≠ 0) :
    ∃ s1, submit b s c = some s1 ∧
      s1.tl.seq_no = (s.tl.seq_no + s.tl.seq_delta) % sequence_number_size ∧
      s1.tl.seq_delta = s.tl.seq_delta ∧ s1.nalloc = s.nalloc + 1 ∧
      (s1.obj s.nalloc).m_sno = s.tl.seq_no ∧
      (∀ x, x ≠ s.nalloc → s1.obj x = s.obj x) ∧
      s1.tl.tasks = s.tl.tasks ++ [s.nalloc] := by
  obtain ⟨t, ht, hsno, -⟩ := (construct_spec b s c).2 h0
  refine ⟨(task_list.add_task
    { s with tl := { s.tl with
        seq_no := (s.tl.seq_no + s.tl.seq_delta) % sequence_number_size } } t).2,
    by simp only [submit, ht], rfl, rfl, rfl, ?_, ?_, rfl⟩
  · simpa [task_list.add_task] using hsno
  · intro x hx
    simp [task_list.add_task, Function.update_noteq hx]

theorem sequence_number_size_pos : 0 < sequence_number_size := by decide

/-- The numbers given to the tasks of a sequence of constructions while the
counter, advanced by 1, does not wrap: the `i`-th task made gets `seq_no + i`. -/
theorem submit_all_spec (b : Build) (cs : List Ctor) (s : State)
    (h0 : cs ≠ [] → s.tl.seq_no ≠ 0) (hd : s.tl.seq_delta = 1)
    (hM : s.tl.seq_no + cs.length ≤ sequence_number_size)
    (hlt : s.tl.seq_no < sequence_number_size) :
    ∃ s1, submit_all b cs s = some s1 ∧
      s1.tl.seq_no = (s.tl.seq_no + cs.length) % sequence_number_size ∧
      s1.tl.seq_delta = 1 ∧ s1.nalloc = s.nalloc + cs.length ∧
      (∀ i, i < cs.length → (s1.obj (s.nalloc + i)).m_sno = s.tl.seq_no + i) ∧
      (∀ x, x < s.nalloc → s1.obj x = s.obj x) ∧
      s1.tl.tasks = s.tl.tasks ++ (List.range' s.nalloc cs.length) := by
  induction cs generalizing s with
  | nil =>
    exact ⟨s, rfl, by simpa using (Nat.mod_eq_of_lt hlt).symm, hd, rfl,
      fun i hi => absurd hi (Nat.not_lt_zero _), fun _ _ => rfl, by simp⟩
  | cons c cs ih =>
    obtain ⟨s1, hs1, a1, a2, a3, a4, a5, a6⟩ := submit_spec b s c (h0 (List.cons_ne_nil c cs))
    rw [hd] at a1 a2
    rw [List.length_cons] at hM
    have hle : s1.tl.seq_no ≤ s.tl.seq_no + 1 := by rw [a1]; exact Nat.mod_le _ _
    have hne : cs ≠ [] → s1.tl.seq_no = s.tl.seq_no + 1 := by
      intro hcs
      have : 0 < cs.length := List.length_pos.mpr hcs
      rw [a1]
      exact Nat.mod_eq_of_lt (by omega)
    obtain ⟨s2, hs2, b1, b2, b3, b4, b5, b6⟩ := ih s1 (fun hcs => by rw [hne hcs]; omega) a2
      (by omega) (by rw [a1]; exact Nat.mod_lt _ sequence_number_size_pos)
    refine ⟨s2, by simp only [submit_all, hs1, hs2], ?_, b2, ?_, ?_, ?_, ?_⟩
    · rw [b1, a1, List.length_cons, Nat.mod_add_mod]
      congr 1; omega
    · rw [b3, a3, List.length_cons]; omega
    · intro i hi
      cases i with
      | zero =>
        rw [Nat.add_zero, b5 _ (by omega), a4]; simp
      | succ i =>
        have hi1 : i < cs.length := by simpa using hi
        have := b4 i hi1
        rw [a3, hne (List.ne_nil_of_length_pos (by omega))] at this
        rw [show s.nalloc + (i + 1) = s.nalloc + 1 + i by omega, this]; omega
    · intro x hx
      rw [b5 x (by omega), a5 x (by omega)]
    · rw [b6, a6, a3, List.append_assoc]; rfl

/-- A sequence of constructions that succeeds, the counter advancing by 1, has
not taken the number 0: it ends before the counter wraps. -/
theorem submit_all_bound (b : Build) (cs : List Ctor) (s s1 : State)
    (hs : submit_all b cs s = some s1) (hd : s.tl.seq_delta = 1)
    (hlt : s.tl.seq_no < sequence_number_size) (hne : cs ≠ []) :
    s.tl.seq_no ≠ 0 ∧ s.tl.seq_no + cs.length ≤ sequence_number_size := by
  induction cs generalizing s with
  | nil => exact absurd rfl hne
  | cons c cs ih =>
    have h0 : s.tl.seq_no ≠ 0 := by
      intro h0
      simp [submit_all, submit, (construct_spec b s c).1 h0] at hs
    obtain ⟨s2, hs2, a1, a2, -, -, -, -⟩ := submit_spec b s c h0
    simp only [submit_all, hs2] at hs
    rw [hd] at a1 a2
    refine ⟨h0, ?_⟩
    rw [List.length_cons]
    by_cases hcs : cs = []
    · subst hcs; simp only [List.length_nil]; omega
    · obtain ⟨c1, c2⟩ := ih s2 hs a2
        (by rw [a1]; exact Nat.mod_lt _ sequence_number_size_pos) hcs
      by_cases hw : s.tl.seq_no + 1 < sequence_number_size
      · rw [a1, Nat.mod_eq_of_lt hw] at c2
        omega
      · have : s.tl.seq_no + 1 = sequence_number_size := by omega
        rw [a1, this, Nat.mod_self] at c1
        exact absurd rfl c1

/-- The numbers of a sequence of constructions that succeeds, the counter
advancing by 1 from a value of the counter type: the bound of
`submit_all_bound` and the number `seq_no + i` for the `i`-th task made. -/
theorem submit_all_numbers (b : Build) (cs : List Ctor) (s s1 : State)
    (hs : submit_all b cs s = some s1) (hd : s.tl.seq_delta = 1)
    (hlt : s.tl.seq_no < sequence_number_size) :
    (cs ≠ [] → s.tl.seq_no ≠ 0 ∧ s.tl.seq_no + cs.length ≤ sequence_number_size) ∧
    (∀ i, i < cs.length → (s1.obj (s.nalloc + i)).m_sno = s.tl.seq_no + i) ∧
    (∀ x, x < s.nalloc → s1.obj x = s.obj x) := by
  by_cases hcs : cs = []
  · subst hcs
    simp only [submit_all, Option.some.injEq] at hs
    subst hs
    exact ⟨fun h => absurd rfl h, fun i hi => absurd hi (Nat.not_lt_zero _), fun _ _ => rfl⟩
  · obtain ⟨c1, c2⟩ := submit_all_bound b cs s s1 hs hd hlt hcs
    obtain ⟨s2, hs2, -, -, -, a4, a5, -⟩ := submit_all_spec b cs s (fun _ => c1) hd c2 hlt
    rw [hs] at hs2
    obtain rfl := Option.some.inj hs2
    exact ⟨fun _ => ⟨c1, c2⟩, a4, a5⟩

theorem containsBox_self (bx : Box) : bx.containsBox bx = true := by
  simp [Box.containsBox, IntVect.le]

/-! ## Lemmas on fetches, the stuck scan, the hazard test and the configuration -/

theorem push_back_spec (s : State) (t : task) (d : task_fec_base_data) (tf : task) :
    (task_fec_base.push_back s t d tf).1.tl.tasks = s.tl.tasks ++ [s.nalloc] ∧
    (task_fec_base.push_back s t d tf).1.obj s.nalloc = tf ∧
    (task_fec_base.push_back s t d tf).1.finished s.nalloc = false ∧
    (task_fec_base.push_back s t d tf).1.nalloc = s.nalloc + 1 ∧
    (∀ x, x ≠ s.nalloc → (task_fec_base.push_back s t d tf).1.obj x = s.obj x ∧
      (task_fec_base.push_back s t d tf).1.finished x = s.finished x) ∧
    (task_fec_base.push_back s t d tf).1.tl.seq_no = s.tl.seq_no ∧
    (task_fec_base.push_back s t d tf).1.tl.seq_delta = s.tl.seq_delta ∧
    (task_fec_base.push_back s t d tf).1.mem = s.mem ∧
    (task_fec_base.push_back s t d tf).1.mpi = s.mpi ∧
    (task_fec_base.push_back s t d tf).2.as_fec_base =
      some ⟨d.s, d.igrid, d.tfvect ++ [s.nalloc]⟩ ∧
    (task_fec_base.push_back s t d tf).2.dependencies = t.dependencies ++ [s.nalloc] ∧
    (task_fec_base.push_back s t d tf).2.m_sno = t.m_sno ∧
    (task_fec_base.push_back s t d tf).2.m_started = t.m_started := by
  refine ⟨rfl, ?_, ?_, rfl, ?_, rfl, rfl, rfl, rfl, rfl, rfl, rfl, rfl⟩
  · simp [task_fec_base.push_back, task_list.add_task]
  · simp [task_fec_base.push_back, task_list.add_task]
  · intro x hx
    simp [task_fec_base.push_back, task_list.add_task, Function.update_noteq hx]

theorem push_back_all_spec (tfs : List task) (s : State) (t : task) (d : task_fec_base_data)
    (hk : t.as_fec_base = some d) :
    ∃ s1 t1, push_back_all s t tfs = some (s1, t1) ∧
      t1.as_fec_base = some ⟨d.s, d.igrid, d.tfvect ++ List.range' s.nalloc tfs.length⟩ ∧
      t1.dependencies = t.dependencies ++ List.range' s.nalloc tfs.length ∧
      s1.tl.tasks = s.tl.tasks ++ List.range' s.nalloc tfs.length := by
  induction tfs generalizing s t d with
  | nil =>
    refine ⟨s, t, rfl, ?_, by simp, by simp⟩
    simpa using hk
  | cons tf tfs ih =>
    obtain ⟨a1, -, -, a4, -, -, -, -, -, a10, a11, -, -⟩ := push_back_spec s t d tf
    obtain ⟨s1, t1, h1, h2, h3, h4⟩ := ih (task_fec_base.push_back s t d tf).1
      (task_fec_base.push_back s t d tf).2 _ a10
    refine ⟨s1, t1, by simp only [push_back_all, hk, h1], ?_, ?_, ?_⟩
    · rw [h2, a4]; simp [List.range'_succ]
    · rw [h3, a11, a4]; simp [List.range'_succ]
    · rw [h4, a1, a4]; simp [List.range'_succ]

theorem stuck_visit_event {b : Build} {e : MPIEnv} {s : State} {h d : Handle}
    (hs : Stuck s h d) : (visit b e s).1 = Event.skip h := by
  obtain ⟨hst, hget, hd, hf⟩ := hs
  have hdep : (task.depend_ready s.finished (s.obj h).dependencies).1 = false := by
    rw [Bool.eq_false_iff]
    intro hc
    have := (depend_ready_fst _ _).mp hc d hd
    rw [hf] at this
    exact Bool.noConfusion this
  rw [List.get?_eq_getElem?] at hget
  simp [visit, hst, hget, hdep]

theorem stuck_run_tli {b : Build} {s : State} {h d : Handle} (hs : Stuck s h d)
    (es : List MPIEnv) : (run b es s).tli = s.tli := by
  induction es generalizing s with
  | nil => rfl
  | cons e es ih =>
    have h1 := ih (stuck_visit (b := b) (e := e) hs)
    have h2 : run b (e :: es) s = run b es (visit b e s).2 := rfl
    rw [h2, h1, stuck_visit_eq hs]
    rfl

theorem stuck_run_started {b : Build} {s : State} {h d : Handle} (hs : Stuck s h d)
    (es : List MPIEnv) (x : Handle) :
    ((run b es s).obj x).m_started = (s.obj x).m_started := by
  induction es generalizing s with
  | nil => rfl
  | cons e es ih =>
    have h1 := ih (stuck_visit (b := b) (e := e) hs)
    have h2 : run b (e :: es) s = run b es (visit b e s).2 := rfl
    rw [h2, h1, stuck_visit_eq hs, pruned_started]

theorem depends_on_q_iff (d : task_copy_data) (t1 : task) :
    task_copy.depends_on_q d t1 = true ↔
      d.m_mf = d.m_smf ∧ ∃ t1tc, t1.kind = .copy t1tc ∧
        ((d.m_sgrid = t1tc.m_dgrid ∧ d.m_sbx.intersects t1tc.m_bx = true) ∨
         (d.m_dgrid = t1tc.m_dgrid ∧ d.m_bx.intersects t1tc.m_bx = true) ∨
         (d.m_sgrid = t1tc.m_sgrid ∧ d.m_sbx.intersects t1tc.m_sbx = true) ∨
         (d.m_dgrid = t1tc.m_sgrid ∧ d.m_bx.intersects t1tc.m_sbx = true)) := by
  unfold task_copy.depends_on_q
  by_cases hsame : d.m_mf = d.m_smf
  · simp only [hsame, ne_eq, not_true_eq_false, if_false, true_and]
    cases hk : t1.kind with
    | copy t1tc =>
      simp only [task_kind.copy.injEq, exists_eq_left', Bool.and_eq_true, beq_iff_eq]
      by_cases c1 : d.m_sgrid = t1tc.m_dgrid ∧ d.m_sbx.intersects t1tc.m_bx = true
      · simp [c1]
      · by_cases c2 : d.m_dgrid = t1tc.m_dgrid ∧ d.m_bx.intersects t1tc.m_bx = true
        · simp [c1, c2]
        · by_cases c3 : d.m_sgrid = t1tc.m_sgrid ∧ d.m_sbx.intersects t1tc.m_sbx = true
          · simp [c1, c2, c3]
          · by_cases c4 : d.m_dgrid = t1tc.m_sgrid ∧ d.m_bx.intersects t1tc.m_sbx = true
            · simp [c1, c2, c3, c4]
            · simp [c1, c2, c3, c4]
    | base => simp
    | copy_local _ => simp
    | fab _ => simp
    | fec_base _ => simp
  · simp [hsame]

theorem Visit.live_bound {b : Build} {e : MPIEnv} {s s1 : State} {ev : Event}
    (hv : Visit b e s ev s1) (hb : s.live_tasks ≤ b.max_live_tasks + 1) :
    s1.live_tasks ≤ b.max_live_tasks + 1 := by
  cases hv with
  | halted _ => exact hb
  | returned _ _ _ _ => exact hb
  | assert_live _ _ _ _ => exact hb
  | rescan _ _ _ => exact hb
  | skip h _ _ _ => exact hb
  | restart h _ _ _ _ _ => exact hb
  | startup_abort h _ _ _ _ _ _ => exact hb
  | startup_false h t1 ops _ _ _ _ _ _ => exact hb
  | startup_true h t1 ops _ _ _ _ hlive _ =>
    show s.live_tasks + 1 ≤ b.max_live_tasks + 1
    have := not_lt.mp hlive
    omega
  | ready_abort h _ _ _ _ _ => exact hb
  | ready_true h t1 m _ _ _ _ _ =>
    show s.live_tasks - 1 ≤ b.max_live_tasks + 1
    omega
  | ready_false h t1 m _ _ _ _ _ => exact hb

theorem run_live_bound (b : Build) (es : List MPIEnv) (s : State)
    (hb : s.live_tasks ≤ b.max_live_tasks + 1) :
    (run b es s).live_tasks ≤ b.max_live_tasks + 1 := by
  induction es generalizing s with
  | nil => exact hb
  | cons e es ih => exact ih _ ((visit_spec b e s).live_bound hb)

theorem MPI_init_not_initialized (use_mpi : Bool) (pp : ParmParse) (res : Int) (comm : Nat)
    (g : HG) (h : g.initialized = false) : HG.MPI_init use_mpi pp res comm g = some g := by
  simp [HG.MPI_init, HG.guard, h]

theorem MPI_init_calls_not_initialized (use_mpi : Bool) (pp : ParmParse)
    (calls : List (Int × Nat)) (g : HG) (h : g.initialized = false) :
    HG.MPI_init_calls use_mpi pp calls g = some g := by
  induction calls with
  | nil => rfl
  | cons c cs ih =>
    simp only [HG.MPI_init_calls, MPI_init_not_initialized use_mpi pp c.1 c.2 g h]
    exact ih

/-! ## Lemmas on runs of local copies -/

theorem copy_visit_startup (b : Build) (e : MPIEnv) (s : State) (h : Handle)
    (d : task_copy_data) (sno : Nat)
    (hst : s.status = .running) (hget : s.tl.tasks.get? s.tli = some h)
    (hobj : s.obj h = ⟨sno, false, [], .copy d⟩)
    (hlive : ¬ s.live_tasks > b.max_live_tasks) (hloc : Local b s.mem d) :
    (visit b e s).1 = Event.startup h (some true) ∧
      (visit b e s).2.status = .running ∧ (visit b e s).2.tl.tasks = s.tl.tasks ∧
      (visit b e s).2.tli = s.tli + 1 ∧ (visit b e s).2.live_tasks = s.live_tasks + 1 ∧
      (visit b e s).2.obj =
        Function.update s.obj h ⟨sno, true, [], .copy { d with m_local := true }⟩ ∧
      (visit b e s).2.mem = s.mem := by
  rw [List.get?_eq_getElem?] at hget
  obtain ⟨hld, hls⟩ := hloc
  simp [visit, hst, hget, hobj, task.depend_ready, task.is_started, task.startup,
    task_copy.startup, hld, hls, hlive]

theorem copy_visit_restart (b : Build) (e : MPIEnv) (s : State) (h : Handle)
    (d : task_copy_data) (sno : Nat)
    (hst : s.status = .running) (hget : s.tl.tasks.get? s.tli = some h)
    (hobj : s.obj h = ⟨sno, false, [], .copy d⟩)
    (hlive : s.live_tasks > b.max_live_tasks) :
    (visit b e s).1 = Event.restart h ∧
      (visit b e s).2.status = .running ∧ (visit b e s).2.tl.tasks = s.tl.tasks ∧
      (visit b e s).2.tli = 0 ∧ (visit b e s).2.live_tasks = s.live_tasks ∧
      (visit b e s).2.obj = s.obj ∧ (visit b e s).2.mem = s.mem := by
  rw [List.get?_eq_getElem?] at hget
  have hl : b.max_live_tasks < s.live_tasks := hlive
  simp [visit, hst, hget, hobj, task.depend_ready, task.is_started, hl]

theorem copy_visit_rescan (b : Build) (e : MPIEnv) (s : State)
    (hst : s.status = .running) (hget : s.tl.tasks.get? s.tli = none)
    (hne : s.tl.tasks ≠ []) :
    (visit b e s).1 = Event.rescan ∧ (visit b e s).2 = { s with tli := 0 } := by
  rw [List.get?_eq_getElem?] at hget
  simp [visit, hst, hget, hne]

theorem copy_visit_ready (b : Build) (e : MPIEnv) (s : State) (h : Handle)
    (d : task_copy_data) (sno : Nat) (m1 : Mem)
    (hst : s.status = .running) (hget : s.tl.tasks.get? s.tli = some h)
    (hobj : s.obj h = ⟨sno, true, [], .copy d⟩) (hloc : d.m_local = true)
    (hcopy : d.spec.perform s.mem = some m1) :
    (visit b e s).1 = Event.ready h (some true) ∧
      (visit b e s).2.status = .running ∧
      (visit b e s).2.tl.tasks = s.tl.tasks.eraseIdx s.tli ∧
      (visit b e s).2.tli = s.tli ∧ (visit b e s).2.live_tasks = s.live_tasks - 1 ∧
      (visit b e s).2.obj = s.obj ∧ (visit b e s).2.mem = m1 := by
  rw [List.get?_eq_getElem?] at hget
  have hc : ∃ f, ((s.mem.mfs d.m_mf).fabs d.m_dgrid).copy ((s.mem.mfs d.m_smf).fabs d.m_sgrid)
      d.m_sbx 0 d.m_bx 0 (s.mem.mfs d.m_mf).ncomp = some f ∧
      m1 = s.mem.setFab d.m_mf d.m_dgrid f := by
    unfold CopySpec.perform task_copy_data.spec at hcopy
    simp only at hcopy
    split at hcopy
    · cases hcopy
    · rename_i f hf
      exact ⟨f, hf, (Option.some.inj hcopy).symm⟩
  obtain ⟨f, hf, rfl⟩ := hc
  simp [visit, hst, hget, hobj, task.depend_ready, task.is_started, task.ready,
    task_copy.ready, hloc, hf]

theorem copy_visit_return (b : Build) (e : MPIEnv) (s : State)
    (hst : s.status = .running) (htasks : s.tl.tasks = []) (hlive : s.live_tasks = 0) :
    (visit b e s).1 = Event.returned ∧ (visit b e s).2.status = .returned ∧
      (visit b e s).2.tl.tasks = [] ∧ (visit b e s).2.mem = s.mem := by
  simp [visit, hst, htasks, hlive]

theorem completed_halted (b : Build) (es : List MPIEnv) (s : State)
    (hst : s.status ≠ .running) : completed (trace b es s) = [] := by
  induction es with
  | nil => rfl
  | cons e es ih => rw [trace, visit_halted hst]; exact ih

theorem is_local_setFab (b : Build) (m : Mem) (a g : Nat) (f : FArrayBox) (x y : Nat) :
    is_local b ((m.setFab a g f).mfs x) y = is_local b (m.mfs x) y := by
  by_cases hx : x = a
  · subst hx; simp [Mem.setFab, is_local, processor_number]
  · simp [Mem.setFab, is_local, processor_number, Function.update_noteq hx]

theorem perform_Local (b : Build) (c : CopySpec) (m m1 : Mem) (d : task_copy_data)
    (hc : c.perform m = some m1) (hl : Local b m d) : Local b m1 d := by
  unfold CopySpec.perform at hc
  split at hc
  · cases hc
  · cases hc
    exact ⟨by rw [is_local_setFab]; exact hl.1, by rw [is_local_setFab]; exact hl.2⟩

theorem filterMap_congr_mem {α β : Type} (f g : α → Option β) (l : List α)
    (h : ∀ x ∈ l, f x = g x) : l.filterMap f = l.filterMap g := by
  induction l with
  | nil => rfl
  | cons a l ih =>
    rw [List.filterMap_cons, List.filterMap_cons, h a (List.mem_cons_self a l),
      ih (fun x hx => h x (List.mem_cons_of_mem a hx))]

theorem serial_copies_cons (c : CopySpec) (cs : List CopySpec) (m m1 : Mem)
    (h : serial_copies (c :: cs) m = some m1) :
    ∃ m2, c.perform m = some m2 ∧ serial_copies cs m2 = some m1 := by
  unfold serial_copies at h
  split at h
  · cases h
  · rename_i m2 hm2
    exact ⟨m2, hm2, h⟩

theorem copy_run_main (b : Build) (hL : 0 ≤ b.max_live_tasks) :
    ∀ (n : Nat) (s : State) (st un : List Handle) (m1 : Mem) (es : List MPIEnv),
      CopyRun b s st un → copy_fuel s st un ≤ n →
      serial_copies (pending s) s.mem = some m1 → n ≤ es.length →
      (run b es s).status = .returned ∧ (run b es s).tl.tasks = [] ∧
        (run b es s).mem = m1 ∧ completed (trace b es s) = st ++ un := by
  intro n
  induction n with
  | zero =>
    intro s st un m1 es hrun hfuel _ _
    exfalso
    obtain ⟨_, _, _, _, hpos, _, _⟩ := hrun
    unfold copy_fuel at hfuel
    rcases hpos with h | ⟨_, hne⟩
    · simp [h] at hfuel
    · cases st with
      | nil => exact hne rfl
      | cons a st => simp at hfuel
  | succ n ih =>
    intro s st un m1 es hrun hfuel hser hlen
    cases es with
    | nil => simp at hlen
    | cons e es =>
    have hlen1 : n ≤ es.length := by simpa using hlen
    obtain ⟨hst, htasks, hnd, hlive, hpos, hstd, hun⟩ := hrun
    simp only [run, trace]
    by_cases hS : s.tli = st.length
    · cases un with
      | nil =>
        cases st with
        | nil =>
          obtain ⟨hev, h1, h2, h3⟩ := copy_visit_return b e s hst (by simpa using htasks)
            (by simpa using hlive)
          have hne : (visit b e s).2.status ≠ .running := by rw [h1]; decide
          rw [run_halted b es _ hne, hev]
          have hp : pending s = [] := by simp [pending, htasks]
          rw [hp] at hser
          refine ⟨h1, h2, ?_, ?_⟩
          · rw [h3]; exact Option.some.inj hser
          · show completed (trace b es (visit b e s).2) = _
            rw [completed_halted b es _ hne]; rfl
        | cons a st1 =>
          have hget : s.tl.tasks.get? s.tli = none := by
            rw [List.get?_eq_getElem?, htasks, hS]; simp
          obtain ⟨hev, h1⟩ := copy_visit_rescan b e s hst hget (by rw [htasks]; simp)
          rw [hev, h1]
          have hfuel1 : copy_fuel { s with tli := 0 } (a :: st1) [] ≤ n := by
            unfold copy_fuel at hfuel ⊢
            simp [hS] at hfuel ⊢
            omega
          have := ih { s with tli := 0 } (a :: st1) [] m1 es
            ⟨hst, htasks, hnd, hlive, Or.inr ⟨rfl, by simp⟩, hstd, hun⟩ hfuel1 hser hlen1
          exact this
      | cons u us =>
        have hget : s.tl.tasks.get? s.tli = some u := by
          rw [List.get?_eq_getElem?, htasks, hS, List.getElem?_append_right (le_refl _)]; simp
        obtain ⟨sno, d, hobj, hloc⟩ := hun u (List.mem_cons_self u us)
        by_cases hlv : s.live_tasks > b.max_live_tasks
        · obtain ⟨hev, h1, h2, h3, h4, h5, h6⟩ := copy_visit_restart b e s u d sno hst hget hobj hlv
          have hne : st ≠ [] := by
            intro h0; subst h0; simp at hlive; omega
          have hlen0 : st.length ≠ 0 := fun h0 => hne (List.length_eq_zero.mp h0)
          have hfuel1 : copy_fuel (visit b e s).2 st (u :: us) ≤ n := by
            unfold copy_fuel at hfuel ⊢
            rw [h3]
            simp [hS] at hfuel
            rw [if_neg (fun h0 => hlen0 h0.symm)]
            simp; omega
          have hp : pending (visit b e s).2 = pending s := by
            simp only [pending, h2, h5]
          have := ih (visit b e s).2 st (u :: us) m1 es
            ⟨h1, by rw [h2, htasks], hnd, by rw [h4, hlive], Or.inr ⟨h3, hne⟩,
              by rw [h5]; exact hstd, by rw [h5, h6]; exact hun⟩ hfuel1
            (by rw [hp, h6]; exact hser) hlen1
          rw [hev]
          exact this
        · obtain ⟨hev, h1, h2, h3, h4, h5, h6⟩ :=
            copy_visit_startup b e s u d sno hst hget hobj hlv hloc
          have hu : u ∉ us := by
            have := (List.nodup_append.mp hnd).2.1
            exact (List.nodup_cons.mp this).1
          have hfuel1 : copy_fuel (visit b e s).2 (st ++ [u]) us ≤ n := by
            unfold copy_fuel at hfuel ⊢
            rw [h3]
            simp [hS] at hfuel ⊢
            omega
          have hp : pending (visit b e s).2 = pending s := by
            simp only [pending, h2, h5]
            apply filterMap_congr_mem
            intro x _
            by_cases hx : x = u
            · subst hx; simp [hobj, task.as_copy, task_copy_data.spec]
            · rw [Function.update_noteq hx]
          have := ih (visit b e s).2 (st ++ [u]) us m1 es
            ⟨h1, by rw [h2, htasks]; simp, by simpa using hnd,
              by rw [h4, hlive]; simp, Or.inl (by rw [h3, hS]; simp),
              by
                intro x hx
                rw [h5]
                by_cases hxu : x = u
                · rw [hxu, Function.update_same]; exact ⟨sno, _, rfl, rfl⟩
                · rw [Function.update_noteq hxu]
                  rcases List.mem_append.mp hx with hx | hx
                  · exact hstd x hx
                  · exact absurd (List.mem_singleton.mp hx) hxu,
              by
                intro x hx
                rw [h5, h6]
                have hxu : x ≠ u := fun h0 => hu (h0 ▸ hx)
                rw [Function.update_noteq hxu]
                exact hun x (List.mem_cons_of_mem u hx)⟩ hfuel1
            (by rw [hp, h6]; exact hser) hlen1
          rw [hev]
          obtain ⟨r1, r2, r3, r4⟩ := this
          refine ⟨r1, r2, r3, ?_⟩
          show completed (trace b es (visit b e s).2) = _
          rw [r4]; simp
    · have h0 : s.tli = 0 ∧ st ≠ [] := by
        rcases hpos with h | h
        · exact absurd h hS
        · exact h
      obtain ⟨htli, hne⟩ := h0
      cases st with
      | nil => exact absurd rfl hne
      | cons a st1 =>
        have hget : s.tl.tasks.get? s.tli = some a := by
          rw [List.get?_eq_getElem?, htasks, htli]; simp
        obtain ⟨sno, d, hobj, hloc⟩ := hstd a (List.mem_cons_self a st1)
        have hp : pending s = d.spec :: (st1 ++ un).filterMap
            (fun h => (s.obj h).as_copy.map task_copy_data.spec) := by
          simp [pending, htasks, hobj, task.as_copy]
        rw [hp] at hser
        obtain ⟨m2, hm2, hser2⟩ := serial_copies_cons _ _ _ _ hser
        obtain ⟨hev, h1, h2, h3, h4, h5, h6⟩ :=
          copy_visit_ready b e s a d sno m2 hst hget hobj hloc hm2
        have ht : (visit b e s).2.tl.tasks = st1 ++ un := by
          rw [h2, htasks, htli]; simp
        have hfuel1 : copy_fuel (visit b e s).2 st1 un ≤ n := by
          unfold copy_fuel at hfuel ⊢
          rw [if_neg hS] at hfuel
          simp at hfuel
          split <;> omega
        have hp1 : pending (visit b e s).2 = (st1 ++ un).filterMap
            (fun h => (s.obj h).as_copy.map task_copy_data.spec) := by
          simp only [pending, ht, h5]
        have := ih (visit b e s).2 st1 un m1 es
          ⟨h1, ht, by
              have := hnd
              rw [List.cons_append] at this
              exact (List.nodup_cons.mp this).2,
            by rw [h4, hlive]; simp,
            by
              rw [h3, htli]
              cases st1 with
              | nil => exact Or.inl rfl
              | cons c st2 => exact Or.inr ⟨rfl, by simp⟩,
            by rw [h5]; exact fun x hx => hstd x (List.mem_cons_of_mem a hx),
            by
              intro x hx
              rw [h5, h6]
              obtain ⟨sno1, d1, ho, hl⟩ := hun x hx
              exact ⟨sno1, d1, ho, perform_Local b _ _ _ _ hm2 hl⟩⟩ hfuel1
          (by rw [hp1, h6]; exact hser2) hlen1
        rw [hev]
        obtain ⟨r1, r2, r3, r4⟩ := this
        refine ⟨r1, r2, r3, ?_⟩
        show a :: completed (trace b es (visit b e s).2) = _
        rw [r4]; rfl
/-! ## The claims -/

/-- C1: in a run of `task_list::execute` from any state `s0`, a visit that
invokes `startup()` on the task of handle `h` does so right after
`depend_ready()` returned true on it: every handle in its dependency list is
finished at that moment, and so is every handle that was in its dependency
list when the run began. -/
theorem C1_startup_only_when_dependencies_finished (b : Build) (s0 : State) (es : List MPIEnv)
    (e : MPIEnv) (h : Handle) (r : Option Bool)
    (hev : (visit b e (run b es s0)).1 = Event.startup h r) :
    (task.depend_ready (run b es s0).finished ((run b es s0).obj h).dependencies).1 = true ∧
      (∀ d ∈ ((run b es s0).obj h).dependencies, (run b es s0).finished d = true) ∧
      (∀ d ∈ (s0.obj h).dependencies, (run b es s0).finished d = true) := by
  have hr := (visit_startup_ready hev).2.2.1
  have hall := (depend_ready_fst _ _).mp hr
  refine ⟨hr, hall, ?_⟩
  intro d hd
  rcases run_deps_kept b es s0 h d hd with hf | hin
  · exact hf
  · exact hall d hin

/-- C1 on a run: the second of two overlapping copies, both remote to this
process, is started once the first, on which it depends, is finished. -/
theorem C1_startup_only_when_dependencies_finished_witness :
    (visit remoteBuild quiet (run remoteBuild [quiet] (execute_entry twoCopiesSameArray))).1
        = Event.startup 1 (some false) ∧
      ((execute_entry twoCopiesSameArray).obj 1).dependencies = [0] ∧
      (∀ d ∈ ((execute_entry twoCopiesSameArray).obj 1).dependencies,
        (run remoteBuild [quiet] (execute_entry twoCopiesSameArray)).finished d = true) :=
  ⟨by decide, by decide,
    (C1_startup_only_when_dependencies_finished remoteBuild (execute_entry twoCopiesSameArray)
      [quiet] quiet 1 (some false) (by decide)).2.2⟩

/-- C2, as the code has it: for a `task_copy` whose own source and destination
arrays are the same object, constructed against a task list that holds the
`task_copy` of handle `h1`, if the two tasks race in the sense of the spec then
the constructed task depends on `h1`. -/
theorem C2_hazard_dependency_same_array (s s1 : State) (mf dgrid : Nat) (db : Box)
    (smf sgrid : Nat) (sb : Box) (t : task) (h1 : Handle) (d1 : task_copy_data)
    (hc : task_copy.ctor s mf dgrid db smf sgrid sb = some (t, s1))
    (hmem : h1 ∈ s.tl.tasks) (hk : (s.obj h1).kind = .copy d1) (hsame : mf = smf)
    (hr : spec_races ⟨mf, dgrid, smf, sgrid, db, sb, false, none, false⟩ d1 = true) :
    h1 ∈ t.dependencies := by
  rw [ctor_dependencies s s1 mf dgrid db smf sgrid sb t hc, List.mem_filter]
  exact ⟨hmem, depends_on_q_of_races _ d1 _ hk hsame hr⟩

/-- C2 as amended on the copies (a) and (c) taken inside array 0: (c) depends
on (a). -/
theorem C2_hazard_dependency_same_array_witness :
    ((task_copy.ctor afterCopyInA 0 0 (box2 2 2 5 5) 0 0 (box2 2 2 5 5)).map
      fun r => r.1.dependencies) = some [0] ∧
    0 ∈ ((task_copy.ctor afterCopyInA 0 0 (box2 2 2 5 5) 0 0 (box2 2 2 5 5)).getD
      (afterCopyInA.obj 0, afterCopyInA)).1.dependencies :=
  ⟨by decide,
    C2_hazard_dependency_same_array afterCopyInA
      ((task_copy.ctor afterCopyInA 0 0 (box2 2 2 5 5) 0 0 (box2 2 2 5 5)).getD
        (afterCopyInA.obj 0, afterCopyInA)).2
      0 0 (box2 2 2 5 5) 0 0 (box2 2 2 5 5) _ 0
      ⟨0, 0, 0, 0, box2 0 0 3 3, box2 0 0 3 3, false, none, false⟩ rfl (by decide) rfl rfl
      (by decide)⟩

/-- C2 fails as stated: with (a) copying array 0 grid 0 to array 1 grid 0 over
`[0,0]-[3,3]` in the list, the copy (c) from array 0 grid 0 to array 1 grid 0
over `[2,2]-[5,5]` races with (a) in the sense of the spec and is constructed
with an empty dependency list. -/
theorem C2_hazard_missed_between_arrays :
    afterCopyA.tl.tasks = [0] ∧
    ((task_copy.ctor_bx afterCopyA 1 0 0 0 (box2 2 2 5 5)).bind fun r =>
      r.1.as_copy.bind fun c =>
        (afterCopyA.obj 0).as_copy.map fun a => (spec_races c a, r.1.dependencies))
      = some (true, []) := by
  decide

/-- C3: the claim fails on the code. With `HG::max_live_tasks = 1` and two
independent receiving copies whose transport reports nothing complete, the
second task is met when one task is live and is started all the same, so that
two tasks are started and not finished. -/
theorem C3_live_tasks_exceed_limit :
    limitOne.max_live_tasks = 1 ∧
    (run limitOne [quiet] (execute_entry twoReceives)).live_tasks = 1 ∧
    (visit limitOne quiet (run limitOne [quiet] (execute_entry twoReceives))).1
      = Event.startup 1 (some true) ∧
    (run limitOne [quiet, quiet] (execute_entry twoReceives)).live_tasks = 2 ∧
    started_not_finished (run limitOne [quiet, quiet] (execute_entry twoReceives)) = 2 := by
  decide

/-- C4: the claim fails on the code. On the list of two tasks of the base class
in which the second depends on the first, `task_list::execute` never returns:
after any number of visits the call is still running and, once the first task
is started, both tasks are in the collection with one of them live. -/
theorem C4_execute_hangs_on_dependent_task (es : List MPIEnv) :
    (baseChain.tl.tasks = [0, 1] ∧ (baseChain.obj 1).dependencies = [0] ∧
      (baseChain.obj 0).dependencies = []) ∧
    (execute serialBuild es baseChain).status = .running ∧
    (execute serialBuild es baseChain).tl.tasks = [0, 1] ∧
    (1 ≤ es.length → (execute serialBuild es baseChain).live_tasks = 1) := by
  refine ⟨by decide, ?_⟩
  cases es with
  | nil => exact ⟨rfl, rfl, fun h => absurd h (by decide)⟩
  | cons e es =>
    have h1 : Stuck (visit serialBuild e (execute_entry baseChain)).2 1 0 :=
      ⟨rfl, rfl, (List.mem_singleton.mpr rfl : (0 : Handle) ∈ [0]), rfl⟩
    have h2 := stuck_run (b := serialBuild) h1 es
    have h3 := stuck_run_frame (b := serialBuild) h1 es
    exact ⟨h2.1, h3.2.1, fun _ => h3.2.2⟩

/-- C5: the claim fails on the code. For the two local copies inside array 0
over the overlapping regions `[0,0]-[3,3]` and `[2,2]-[5,5]`, the second depends
on the first and `task_list::execute` never finishes: after any number of visits
the call is still running and the collection is not empty; once the first task
is started both tasks stay in the collection and the memory stays as it was, so
that no copy is ever performed. -/
theorem C5_execute_hangs_on_overlapping_copies (es : List MPIEnv) :
    (twoCopiesSameArray.tl.tasks = [0, 1] ∧ (twoCopiesSameArray.obj 1).dependencies = [0]) ∧
    (execute serialBuild es twoCopiesSameArray).status = .running ∧
    (execute serialBuild es twoCopiesSameArray).tl.tasks = [0, 1] ∧
    (execute serialBuild es twoCopiesSameArray).mem = twoCopiesSameArray.mem := by
  refine ⟨by decide, ?_⟩
  cases es with
  | nil => exact ⟨rfl, rfl, rfl⟩
  | cons e es =>
    have h1 : Stuck (visit serialBuild e (execute_entry twoCopiesSameArray)).2 1 0 :=
      ⟨rfl, rfl, (List.mem_singleton.mpr rfl : (0 : Handle) ∈ [0]), rfl⟩
    have h2 := stuck_run (b := serialBuild) h1 es
    have h3 := stuck_run_frame (b := serialBuild) h1 es
    exact ⟨h2.1, h3.2.1, h3.1⟩

/-- C6: for two distinct arrays `A` and `B` whose grid 0 is local, with equal
component counts, and a region `R` inside both grids, the single task
`task_copy(B, 0, A, 0, R)` submitted to an empty task list is constructed, and
`execute` (with a limit that is not negative) returns after four visits with the
collection empty, grid 0 of `B` holding at every point of `R` and every
component the value of grid 0 of `A`, and `A` unchanged. -/
theorem C6_single_local_copy_reproduces_source (b : Build) (s : State) (A B : Nat) (R : Box)
    (es : List MPIEnv)
    (hL : 0 ≤ b.max_live_tasks)
    (hemp : s.tl.tasks = []) (hseq : s.tl.seq_no ≠ 0)
    (hAB : A ≠ B)
    (hlA : is_local b (s.mem.mfs A) 0 = true) (hlB : is_local b (s.mem.mfs B) 0 = true)
    (hnc : (s.mem.mfs A).ncomp = (s.mem.mfs B).ncomp)
    (hvA : ((s.mem.mfs A).fabs 0).nvar = (s.mem.mfs A).ncomp)
    (hvB : ((s.mem.mfs B).fabs 0).nvar = (s.mem.mfs B).ncomp)
    (hRA : ((s.mem.mfs A).fabs 0).domain.containsBox R = true)
    (hRB : ((s.mem.mfs B).fabs 0).domain.containsBox R = true)
    (hes : 4 ≤ es.length) :
    ∃ s1, add_task_copy s B 0 A 0 R = some s1 ∧
      (execute b es s1).status = .returned ∧ (execute b es s1).tl.tasks = [] ∧
      (∀ p c, R.contains p = true → c < (s.mem.mfs B).ncomp →
        (((execute b es s1).mem.mfs B).fabs 0).dat p c = ((s.mem.mfs A).fabs 0).dat p c) ∧
      (execute b es s1).mem.mfs A = s.mem.mfs A := by
  obtain ⟨s1, hadd, htasks, hobj, hmem⟩ := add_task_copy_empty s B 0 A 0 R hemp hseq
  refine ⟨s1, hadd, ?_⟩
  obtain ⟨f, hcopy, hf⟩ := copy_same_region ((s.mem.mfs B).fabs 0) ((s.mem.mfs A).fabs 0) R
    (s.mem.mfs B).ncomp hRA hRB (by omega) (by omega)
  match es, hes with
  | e1 :: e2 :: e3 :: e4 :: rest, _ =>
    obtain ⟨a1, a2, a3, a4, a5, a6⟩ := single_copy_visit_startup b e1 (execute_entry s1) s.nalloc
      ⟨B, 0, A, 0, R, R, false, none, false⟩ s.tl.seq_no hL rfl htasks rfl rfl hobj
      (by rw [show (execute_entry s1).mem = s1.mem from rfl, hmem]; exact hlB)
      (by rw [show (execute_entry s1).mem = s1.mem from rfl, hmem]; exact hlA)
    have b0 := single_copy_visit_rescan b e2 _ s.nalloc a1 a2 a3
    obtain ⟨c1, c2, c3, c4, c5⟩ := single_copy_visit_ready b e3
      (visit b e2 (visit b e1 (execute_entry s1)).2).2 s.nalloc
      ⟨B, 0, A, 0, R, R, true, none, false⟩ s.tl.seq_no f
      (by rw [b0]; exact a1) (by rw [b0]; exact a2) (by rw [b0]) (by rw [b0]; exact a4)
      (by rw [b0]; exact a5) rfl
      (by rw [b0]; simp only []; rw [a6, show (execute_entry s1).mem = s1.mem from rfl, hmem]; exact hcopy)
    obtain ⟨d1, d2, d3⟩ := visit_returns b e4 _ c1 c2 c4
    have hrun : execute b (e1 :: e2 :: e3 :: e4 :: rest) s1 =
        (visit b e4 (visit b e3 (visit b e2 (visit b e1 (execute_entry s1)).2).2).2).2 := by
      simp only [execute, run]
      exact run_halted b rest _ (by rw [d1]; decide)
    have hm : (execute b (e1 :: e2 :: e3 :: e4 :: rest) s1).mem = s.mem.setFab B 0 f := by
      rw [hrun, d3, c5, b0]
      simp only []
      rw [a6, show (execute_entry s1).mem = s1.mem from rfl, hmem]
    refine ⟨by rw [hrun]; exact d1, by rw [hrun]; exact d2, ?_, ?_⟩
    · intro p c hp hc
      rw [hm]
      simpa [Mem.setFab] using hf p c hp hc
    · rw [hm]
      simp [Mem.setFab, Function.update_noteq hAB]

/-- C6 on the copy of array 0 into array 1 over `[0,0]-[3,3]`. -/
theorem C6_single_local_copy_reproduces_source_witness :
    ((add_task_copy (idle demoMem) 1 0 0 0 (box2 0 0 3 3)).map fun s1 =>
      ((execute serialBuild [quiet, quiet, quiet, quiet] s1).tl.tasks,
       (((execute serialBuild [quiet, quiet, quiet, quiet] s1).mem.mfs 1).fabs 0).dat ⟨2, 3, 0⟩ 0,
       ((demoMem.mfs 0).fabs 0).dat ⟨2, 3, 0⟩ 0, ((demoMem.mfs 1).fabs 0).dat ⟨2, 3, 0⟩ 0))
      = some ([], 32, 32, 132) ∧
    ∃ s1, add_task_copy (idle demoMem) 1 0 0 0 (box2 0 0 3 3) = some s1 ∧
      (execute serialBuild [quiet, quiet, quiet, quiet] s1).status = .returned ∧
      (execute serialBuild [quiet, quiet, quiet, quiet] s1).tl.tasks = [] ∧
      (∀ p c, (box2 0 0 3 3).contains p = true → c < ((idle demoMem).mem.mfs 1).ncomp →
        (((execute serialBuild [quiet, quiet, quiet, quiet] s1).mem.mfs 1).fabs 0).dat p c =
          (((idle demoMem).mem.mfs 0).fabs 0).dat p c) ∧
      (execute serialBuild [quiet, quiet, quiet, quiet] s1).mem.mfs 0 = (idle demoMem).mem.mfs 0 :=
  ⟨by decide,
    C6_single_local_copy_reproduces_source serialBuild (idle demoMem) 0 1 (box2 0 0 3 3)
      [quiet, quiet, quiet, quiet] (by decide) (by decide) (by decide) (by decide) (by decide)
      (by decide) (by decide) (by decide) (by decide) (by decide) (by decide) (by decide)⟩

/-- C7: `task::depend_ready()` returns true exactly when every handle of the
dependency list `D` is finished at the call, and it leaves as dependency list
the unfinished handles of `D`, in their order in `D`. -/
theorem C7_depend_ready_result_and_pruning (finished : Handle → Bool) (D : List Handle) :
    ((task.depend_ready finished D).1 = true ↔ ∀ h ∈ D, finished h = true) ∧
      (task.depend_ready finished D).2 = D.filter (fun h => !finished h) :=
  ⟨depend_ready_fst finished D, depend_ready_snd finished D⟩

/-- C8: in a sequence of `depend_ready()` calls on one task, with any finished
flags seen by each call (in particular flags that only go from false to true)
and no `depend_on` in between, once a call has returned true every later call
returns true. -/
theorem C8_depend_ready_monotone (fs : List (Handle → Bool)) (D : List Handle) (i j : Nat)
    (hij : i ≤ j) (hj : j < (depend_ready_calls fs D).length)
    (hi : (depend_ready_calls fs D)[i]? = some true) :
    (depend_ready_calls fs D)[j]? = some true :=
  depend_ready_calls_mono fs D i j hij hj hi

/-- C8 on four calls with dependencies `[0, 1]` that finish one after the other. -/
theorem C8_depend_ready_monotone_witness :
    (depend_ready_calls [fun _ => false, fun h => h == 0, fun _ => true, fun _ => true] [0, 1])
      = [false, false, true, true] ∧
    (depend_ready_calls [fun _ => false, fun h => h == 0, fun _ => true, fun _ => true] [0, 1])[3]?
      = some true :=
  ⟨by decide, C8_depend_ready_monotone
    [fun _ => false, fun h => h == 0, fun _ => true, fun _ => true] [0, 1] 2 3
    (by decide) (by decide) (by decide)⟩

/-- C9: in a run of `task_list::execute` on a list of distinct, initially
unstarted tasks, every call of `ready()` on a task comes after a call of
`startup()` on it that returned true, and `startup()` is called at most once on
each task. -/
theorem C9_ready_after_startup_and_startup_once (b : Build) (s : State) (es : List MPIEnv)
    (hun : ∀ h ∈ s.tl.tasks, (s.obj h).m_started = false) (hnd : s.tl.tasks.Nodup) :
    (∀ (i : Nat) h r, (trace b es (execute_entry s))[i]? = some (Event.ready h r) →
      ∃ j, j < i ∧ (trace b es (execute_entry s))[j]? = some (Event.startup h (some true))) ∧
    (∀ (i j : Nat) h r r1, (trace b es (execute_entry s))[i]? = some (Event.startup h r) →
      (trace b es (execute_entry s))[j]? = some (Event.startup h r1) → i = j) := by
  constructor
  · intro i h r hi
    rcases trace_ready_after_startup b es (execute_entry s) hnd i h r hi with ⟨hx, hs⟩ | hj
    · have := hun h hx
      rw [show ((execute_entry s).obj h).m_started = (s.obj h).m_started from rfl, this] at hs
      exact Bool.noConfusion hs
    · exact hj
  · intro i j h r r1 hi hj
    exact trace_startup_once b es (execute_entry s) i j h r r1 hi hj

/-- C9 on the run of two receiving copies: the call of `ready()` on the first at
the fourth visit follows its `startup()`. -/
theorem C9_ready_after_startup_and_startup_once_witness :
    (∀ h ∈ twoReceives.tl.tasks, (twoReceives.obj h).m_started = false) ∧
    twoReceives.tl.tasks.Nodup ∧
    (trace limitOne [quiet, quiet, quiet, quiet] (execute_entry twoReceives))[3]?
      = some (Event.ready 0 (some false)) ∧
    ∃ j, j < 3 ∧ (trace limitOne [quiet, quiet, quiet, quiet] (execute_entry twoReceives))[j]?
      = some (Event.startup 0 (some true)) :=
  ⟨by decide, by decide, by decide,
    (C9_ready_after_startup_and_startup_once limitOne twoReceives [quiet, quiet, quiet, quiet]
      (by decide) (by decide)).1 3 0 (some false) (by decide)⟩

/-- C10: in a run of `task_list::execute` on a list of distinct, initially
unstarted tasks, a visit in which `startup()` of the task of handle `h` returns
false marks `h` finished, erases it from the collection, leaves `live_tasks` as
it was, and `ready()` is called on `h` at no visit of the run, earlier or
later. -/
theorem C10_startup_false_finishes_without_ready (b : Build) (s : State)
    (es es1 : List MPIEnv) (e : MPIEnv) (h : Handle)
    (hun : ∀ x ∈ s.tl.tasks, (s.obj x).m_started = false) (hnd : s.tl.tasks.Nodup)
    (hev : (visit b e (run b es (execute_entry s))).1 = Event.startup h (some false)) :
    (run b es (execute_entry s)).tl.tasks.get? (run b es (execute_entry s)).tli = some h ∧
    (visit b e (run b es (execute_entry s))).2.finished h = true ∧
    (visit b e (run b es (execute_entry s))).2.tl.tasks =
      (run b es (execute_entry s)).tl.tasks.eraseIdx (run b es (execute_entry s)).tli ∧
    h ∉ (visit b e (run b es (execute_entry s))).2.tl.tasks ∧
    (visit b e (run b es (execute_entry s))).2.live_tasks =
      (run b es (execute_entry s)).live_tasks ∧
    ∀ (i : Nat) r, (trace b (es ++ e :: es1) (execute_entry s))[i]? ≠ some (Event.ready h r) := by
  obtain ⟨hget, hfin, htasks, hlive⟩ := visit_startup_false hev
  refine ⟨hget, hfin, htasks, ?_, hlive, ?_⟩
  · rw [htasks]
    exact nodup_not_mem_eraseIdx _ _ _ (run_nodup b es _ hnd) hget
  · intro i r hi
    rcases trace_ready_after_startup b _ (execute_entry s) hnd i h r hi with ⟨hx, hs⟩ | ⟨j, -, hj⟩
    · have := hun h hx
      rw [show ((execute_entry s).obj h).m_started = (s.obj h).m_started from rfl, this] at hs
      exact Bool.noConfusion hs
    · have hk := trace_getElem?_length b es es1 e (execute_entry s)
      rw [hev] at hk
      have := trace_startup_once b _ _ j es.length h _ _ hj hk
      subst this
      rw [hk] at hj
      simp at hj

/-- C10 on the run of two copies that are remote to this process. -/
theorem C10_startup_false_finishes_without_ready_witness :
    (visit remoteBuild quiet (run remoteBuild [] (execute_entry twoCopiesSameArray))).1
      = Event.startup 0 (some false) ∧
    (visit remoteBuild quiet (run remoteBuild [] (execute_entry twoCopiesSameArray))).2.finished 0
      = true ∧
    (visit remoteBuild quiet (run remoteBuild [] (execute_entry twoCopiesSameArray))).2.tl.tasks
      = [1] ∧
    (visit remoteBuild quiet (run remoteBuild [] (execute_entry twoCopiesSameArray))).2.live_tasks
      = 0 ∧
    (trace remoteBuild ([] ++ quiet :: [quiet, quiet, quiet]) (execute_entry twoCopiesSameArray))
      = [.startup 0 (some false), .startup 1 (some false), .returned, .halted] ∧
    ∀ (i : Nat) r, (trace remoteBuild ([] ++ quiet :: [quiet, quiet, quiet])
      (execute_entry twoCopiesSameArray))[i]? ≠ some (Event.ready 0 r) :=
  ⟨by decide, by decide, by decide, by decide, by decide,
    (C10_startup_false_finishes_without_ready remoteBuild twoCopiesSameArray [] [quiet, quiet, quiet]
      quiet 0 (by decide) (by decide) (by decide)).2.2.2.2.2⟩

/-- C11: on a list of distinct tasks, all unstarted when `task_list::execute` is
entered, the counter `live_tasks` is 0 whenever the collection is empty, so the
assertion `live_tasks == 0` after the loop never fails and a call that has
returned has `live_tasks == 0`. -/
theorem C11_live_tasks_zero_at_loop_exit (b : Build) (s : State) (es : List MPIEnv)
    (hun : ∀ h ∈ s.tl.tasks, (s.obj h).m_started = false) (hnd : s.tl.tasks.Nodup) :
    ((execute b es s).tl.tasks = [] → (execute b es s).live_tasks = 0) ∧
    (∀ (i : Nat), (trace b es (execute_entry s))[i]? ≠ some Event.assert_live) ∧
    ((execute b es s).status = .returned → (execute b es s).live_tasks = 0) := by
  have hinv : ∀ es1, (run b es1 (execute_entry s)).live_tasks =
      (started_count (run b es1 (execute_entry s)) : Int) :=
    fun es1 => run_live_count b es1 (execute_entry s) hnd (entry_live_count s hun)
  refine ⟨live_zero_of_empty _ (hinv es), ?_, ?_⟩
  · intro i hi
    obtain ⟨e, he⟩ := trace_getElem?_eq b es _ i _ hi
    obtain ⟨hemp, hlive⟩ := visit_assert_live he.symm
    exact hlive (live_zero_of_empty _ (hinv _) hemp)
  · intro hret
    exact live_zero_of_empty _ (hinv es) (execute_returned_inv b es s hret).1

/-- C11 on the list holding one local copy: the call returns after four visits
with `live_tasks == 0`. -/
theorem C11_live_tasks_zero_at_loop_exit_witness :
    (∀ h ∈ afterCopyA.tl.tasks, (afterCopyA.obj h).m_started = false) ∧
    afterCopyA.tl.tasks.Nodup ∧
    (execute serialBuild [quiet, quiet, quiet, quiet] afterCopyA).status = .returned ∧
    (execute serialBuild [quiet, quiet, quiet, quiet] afterCopyA).live_tasks = 0 :=
  ⟨by decide, by decide, by decide,
    (C11_live_tasks_zero_at_loop_exit serialBuild afterCopyA [quiet, quiet, quiet, quiet]
      (by decide) (by decide)).2.2 (by decide)⟩

/-- C12, as the code has it: for a freshly constructed task list, a sequence of
fewer than `2 ^ 32` constructions (each followed by `add_task`, no `execute`)
succeeds and the `n`-th task made receives the sequence number `n`: the first
receives 1, each next one the previous plus 1, none receives 0, and the counter
stands at the number of tasks plus 1 modulo `2 ^ 32`. `get_then_advance` returns
the counter and adds `seq_delta` to it modulo `2 ^ 32`, so it does not decrease
it unless the addition wraps, and `add_task` leaves it as it is. -/
theorem C12_sequence_numbers_count_from_one (b : Build) (m : Mem) (cs : List Ctor)
    (hlen : cs.length < sequence_number_size) :
    (∃ s, submit_all b cs (idle m) = some s ∧
      s.tl.seq_no = (cs.length + 1) % sequence_number_size ∧
      ∀ i, i < cs.length → (s.obj i).m_sno = i + 1 ∧ (s.obj i).m_sno ≠ 0) ∧
    (∀ tl : task_list, tl.get_then_advance.1 = tl.seq_no ∧
      tl.get_then_advance.2.seq_no = (tl.seq_no + tl.seq_delta) % sequence_number_size ∧
      (tl.seq_no + tl.seq_delta < sequence_number_size →
        tl.seq_no ≤ tl.get_then_advance.2.seq_no)) ∧
    (∀ (s : State) (t : task), (task_list.add_task s t).2.tl.seq_no = s.tl.seq_no) := by
  refine ⟨?_, fun tl => ⟨rfl, rfl, fun h => ?_⟩, fun _ _ => rfl⟩
  · have h1 : (idle m).tl.seq_no = 1 := rfl
    obtain ⟨s, hs, a1, -, -, a4, -, -⟩ := submit_all_spec b cs (idle m)
      (fun _ => Nat.succ_ne_zero 0) rfl (by rw [h1]; omega)
      (by rw [h1]; decide)
    refine ⟨s, hs, ?_, ?_⟩
    · rw [a1, h1, Nat.add_comm]
    · intro i hi
      have := a4 i hi
      rw [show (idle m).nalloc + i = i from Nat.zero_add i, h1] at this
      rw [this]
      omega
  · show tl.seq_no ≤ (tl.seq_no + tl.seq_delta) % sequence_number_size
    rw [Nat.mod_eq_of_lt h]
    exact Nat.le_add_right _ _

/-- C12 as amended on three constructions against a fresh list: the tasks
receive 1, 2 and 3 and the counter stands at 4. -/
theorem C12_sequence_numbers_count_from_one_witness :
    [Ctor.task, Ctor.task_fec_base 0 0, Ctor.task].length < sequence_number_size ∧
    ((submit_all serialBuild [.task, .task_fec_base 0 0, .task] (idle demoMem)).map fun s =>
      ((s.obj 0).m_sno, (s.obj 1).m_sno, (s.obj 2).m_sno, s.tl.seq_no)) = some (1, 2, 3, 4) ∧
    ∃ s, submit_all serialBuild [.task, .task_fec_base 0 0, .task] (idle demoMem) = some s ∧
      s.tl.seq_no = ([Ctor.task, Ctor.task_fec_base 0 0, Ctor.task].length + 1) %
        sequence_number_size ∧
      ∀ i, i < [Ctor.task, Ctor.task_fec_base 0 0, Ctor.task].length →
        (s.obj i).m_sno = i + 1 ∧ (s.obj i).m_sno ≠ 0 :=
  ⟨by decide, by decide,
    (C12_sequence_numbers_count_from_one serialBuild demoMem
      [.task, .task_fec_base 0 0, .task] (by decide)).1⟩

/-- C12 fails as stated: against a fresh task list, `2 ^ 32 - 1` constructions
succeed, the last task receiving `2 ^ 32 - 1`; the counter has then wrapped to 0,
the next constructor fails its assertion `m_sno != 0`, and so `2 ^ 32`
constructions do not succeed. At the wrap `get_then_advance` takes the counter
from `2 ^ 32 - 1` down to 0. -/
theorem C12_sequence_counter_wraps_to_zero :
    (∃ s, submit_all serialBuild (List.replicate 4294967295 Ctor.task) (idle demoMem) = some s ∧
      (s.obj 4294967294).m_sno = 4294967295 ∧ s.tl.seq_no = 0 ∧
      construct serialBuild s Ctor.task = none) ∧
    submit_all serialBuild (List.replicate 4294967296 Ctor.task) (idle demoMem) = none ∧
    (task_list.get_then_advance ⟨4294967295, 1, false, []⟩).2.seq_no = 0 := by
  have h1 : (idle demoMem).tl.seq_no = 1 := rfl
  refine ⟨?_, ?_, by decide⟩
  · obtain ⟨s, hs, a1, -, -, a4, -, -⟩ := submit_all_spec serialBuild
      (List.replicate 4294967295 Ctor.task) (idle demoMem) (fun _ => Nat.succ_ne_zero 0) rfl
      (by rw [List.length_replicate, h1]; decide) (by decide)
    rw [List.length_replicate, h1] at a1
    have a5 := a4 4294967294 (by rw [List.length_replicate]; decide)
    rw [h1] at a5
    have h0 : s.tl.seq_no = 0 := a1
    exact ⟨s, hs, a5, h0, (construct_spec serialBuild s Ctor.task).1 h0⟩
  · cases hs : submit_all serialBuild (List.replicate 4294967296 Ctor.task) (idle demoMem) with
    | none => rfl
    | some s1 =>
      have hb := (submit_all_bound serialBuild _ (idle demoMem) s1 hs rfl (by decide)
        (by
          intro h
          have := congrArg List.length h
          rw [List.length_replicate] at this
          exact absurd this (by decide))).2
      rw [List.length_replicate, h1] at hb
      exact absurd hb (by decide)

/-- C13: when `task_list::execute` has returned, the counter `seq_no` is 1, and
the next task constructed against the list receives the sequence number 1. -/
theorem C13_seq_no_reset_after_execute (b : Build) (s : State) (es : List MPIEnv)
    (k : task_kind) (hret : (execute b es s).status = .returned) :
    (execute b es s).tl.seq_no = 1 ∧
    ∃ t tl, task.ctor (execute b es s).tl k = some (t, tl) ∧ t.m_sno = 1 := by
  have h1 := (execute_returned_inv b es s hret).2
  refine ⟨h1, ?_⟩
  simp [task.ctor, task_list.get_then_advance, h1]

/-- C13 on a list of two copies that are remote to this process: two numbers
were issued before the drain, and after it the counter is 1 again. -/
theorem C13_seq_no_reset_after_execute_witness :
    twoCopiesSameArray.tl.seq_no = 3 ∧
    (execute remoteBuild [quiet, quiet, quiet] twoCopiesSameArray).status = .returned ∧
    (execute remoteBuild [quiet, quiet, quiet] twoCopiesSameArray).tl.seq_no = 1 :=
  ⟨by decide, by decide,
    (C13_seq_no_reset_after_execute remoteBuild twoCopiesSameArray [quiet, quiet, quiet] .base
      (by decide)).1⟩

/-- C14, as the code has it: in a sequence of constructions and `add_task` with
no `execute` in between, on a task list whose `seq_delta` is the 1 its
constructor sets, any two tasks made receive different sequence numbers. -/
theorem C14_sequence_numbers_distinct_between_drains (b : Build) (cs : List Ctor)
    (s s1 : State) (i j : Nat) (hdelta : s.tl.seq_delta = 1)
    (hs : submit_all b cs s = some s1) (hi : i < cs.length) (hj : j < cs.length)
    (hij : i ≠ j) :
    (s1.obj (s.nalloc + i)).m_sno ≠ (s1.obj (s.nalloc + j)).m_sno := by
  cases cs with
  | nil => exact absurd hi (Nat.not_lt_zero _)
  | cons c cs =>
    have h0 : s.tl.seq_no ≠ 0 := by
      intro h0
      simp [submit_all, submit, (construct_spec b s c).1 h0] at hs
    obtain ⟨s2, hs2, a1, a2, a3, a4, -, -⟩ := submit_spec b s c h0
    simp only [submit_all, hs2] at hs
    rw [hdelta] at a1 a2
    have hlt2 : s2.tl.seq_no < sequence_number_size := by
      rw [a1]; exact Nat.mod_lt _ sequence_number_size_pos
    obtain ⟨n1, n2, n3⟩ := submit_all_numbers b cs s2 s1 hs a2 hlt2
    have hfirst : (s1.obj (s.nalloc + 0)).m_sno = s.tl.seq_no := by
      rw [Nat.add_zero, n3 _ (by omega), a4]
    have hlater : ∀ k, k < cs.length →
        (s1.obj (s.nalloc + (k + 1))).m_sno = s2.tl.seq_no + k ∧
        s2.tl.seq_no + k ≠ s.tl.seq_no := by
      intro k hk
      have hne : cs ≠ [] := List.ne_nil_of_length_pos (by omega)
      obtain ⟨c1, c2⟩ := n1 hne
      refine ⟨by rw [show s.nalloc + (k + 1) = s2.nalloc + k by omega, n2 k hk], ?_⟩
      by_cases hw : s.tl.seq_no + 1 < sequence_number_size
      · rw [a1, Nat.mod_eq_of_lt hw]; omega
      · by_cases he : s.tl.seq_no + 1 = sequence_number_size
        · rw [a1, he, Nat.mod_self] at c1
          exact absurd rfl c1
        · omega
    cases i with
    | zero =>
      cases j with
      | zero => exact absurd rfl hij
      | succ j =>
        obtain ⟨e1, e2⟩ := hlater j (by simpa using hj)
        rw [hfirst, e1]
        exact fun h => e2 h.symm
    | succ i =>
      obtain ⟨d1, d2⟩ := hlater i (by simpa using hi)
      cases j with
      | zero => rw [hfirst, d1]; exact d2
      | succ j =>
        obtain ⟨e1, -⟩ := hlater j (by simpa using hj)
        rw [d1, e1]
        omega

/-- C14 as amended on three constructions against a fresh list: the first and
the third task receive different numbers. -/
theorem C14_sequence_numbers_distinct_between_drains_witness :
    ((submit_all serialBuild [.task, .task_fec_base 0 0, .task] (idle demoMem)).map fun s =>
      ((s.obj 0).m_sno, (s.obj 1).m_sno, (s.obj 2).m_sno)) = some (1, 2, 3) ∧
    (((submit_all serialBuild [.task, .task_fec_base 0 0, .task] (idle demoMem)).getD
      (idle demoMem)).obj ((idle demoMem).nalloc + 0)).m_sno ≠
    (((submit_all serialBuild [.task, .task_fec_base 0 0, .task] (idle demoMem)).getD
      (idle demoMem)).obj ((idle demoMem).nalloc + 2)).m_sno :=
  ⟨by decide,
    C14_sequence_numbers_distinct_between_drains serialBuild [.task, .task_fec_base 0 0, .task]
      (idle demoMem) _ 0 2 (by decide) rfl (by decide) (by decide) (by decide)⟩

/-- C14 fails as stated: a task is constructed against a fresh list and added,
`execute` runs and returns, and a second task is constructed against the same
list: both tasks have the sequence number 1. -/
theorem C14_sequence_number_reused_after_drain :
    ((submit serialBuild (idle demoMem) .task).bind fun s =>
      (submit serialBuild (execute serialBuild [quiet, quiet, quiet, quiet] s) .task).map
        fun s1 => ((execute serialBuild [quiet, quiet, quiet, quiet] s).status == .returned,
          (s1.obj 0).m_sno, (s1.obj 1).m_sno)) = some (true, 1, 1) := by
  decide

/-- C15: the dependencies the constructor of a `task_copy` attaches are handles
of the task list as it is at construction, in the order of the list, each as
often as it is in the list at most (once when the list has no repetition); when
the handles of the list are handles already made, the task does not depend on
its own handle nor on any handle made later. -/
theorem C15_dependencies_are_earlier_tasks (s s1 : State) (mf dgrid : Nat) (db : Box)
    (smf sgrid : Nat) (sb : Box) (t : task)
    (hc : task_copy.ctor s mf dgrid db smf sgrid sb = some (t, s1))
    (hwf : ∀ h ∈ s.tl.tasks, h < s.nalloc) :
    t.dependencies.Sublist s.tl.tasks ∧
    (∀ d ∈ t.dependencies, d ∈ s.tl.tasks) ∧
    (∀ d, t.dependencies.count d ≤ s.tl.tasks.count d) ∧
    (s.tl.tasks.Nodup → t.dependencies.Nodup) ∧
    (task_list.add_task s1 t).1 = s.nalloc ∧
    (∀ d ∈ t.dependencies, d < (task_list.add_task s1 t).1) ∧
    (∀ x, (task_list.add_task s1 t).1 ≤ x → x ∉ t.dependencies) := by
  have hdeps := ctor_dependencies s s1 mf dgrid db smf sgrid sb t hc
  have hsub : t.dependencies.Sublist s.tl.tasks := by rw [hdeps]; exact List.filter_sublist _
  have hn : (task_list.add_task s1 t).1 = s.nalloc := by
    unfold task_copy.ctor at hc
    simp only at hc
    split at hc
    · cases hc
    · simp only [Option.some.injEq, Prod.mk.injEq] at hc
      obtain ⟨-, rfl⟩ := hc
      rfl
  have hlt : ∀ d ∈ t.dependencies, d < (task_list.add_task s1 t).1 := by
    intro d hd
    rw [hn]
    exact hwf d (hsub.subset hd)
  refine ⟨hsub, fun d hd => hsub.subset hd, fun d => hsub.count_le d, fun h => h.sublist hsub,
    hn, hlt, ?_⟩
  intro x hx hmem
  exact absurd (hlt x hmem) (Nat.not_lt.mpr hx)

/-- C15 on the copy (c) made against the list holding the copy (a), both inside
array 0: the dependency list is `[0]` and the handle of (c) is 1. -/
theorem C15_dependencies_are_earlier_tasks_witness :
    afterCopyInA.tl.tasks = [0] ∧ afterCopyInA.nalloc = 1 ∧
    ((task_copy.ctor afterCopyInA 0 0 (box2 2 2 5 5) 0 0 (box2 2 2 5 5)).map
      fun r => r.1.dependencies) = some [0] ∧
    ((task_copy.ctor afterCopyInA 0 0 (box2 2 2 5 5) 0 0 (box2 2 2 5 5)).getD
      (afterCopyInA.obj 0, afterCopyInA)).1.dependencies.Sublist afterCopyInA.tl.tasks :=
  ⟨by decide, by decide, by decide,
    (C15_dependencies_are_earlier_tasks afterCopyInA
      ((task_copy.ctor afterCopyInA 0 0 (box2 2 2 5 5) 0 0 (box2 2 2 5 5)).getD
        (afterCopyInA.obj 0, afterCopyInA)).2
      0 0 (box2 2 2 5 5) 0 0 (box2 2 2 5 5) _ rfl (by decide)).1⟩

/-- C16, as the code has it: the constructor of `task_copy_local` derives no
dependency. Whatever the task list holds, when the counter is not 0 the
constructor succeeds, the task it makes has an empty dependency list and is
not started, the test `depends_on_q` it inherits from `task` answers false for
every task, and the tasks of the list and their handles are as they were. -/
theorem C16_copy_local_ctor_attaches_no_dependency (s : State) (fab_ : Option Nat)
    (target_proc_id : Nat) (bx : Box) (smf_ grid : Nat) (req : Bool)
    (hseq : s.tl.seq_no ≠ 0) :
    ∃ t s1, task_copy_local.ctor s fab_ target_proc_id bx smf_ grid req = some (t, s1) ∧
      t.dependencies = [] ∧ t.m_started = false ∧ (∀ t1, t.depends_on_q t1 = false) ∧
      s1.obj = s.obj ∧ s1.tl.tasks = s.tl.tasks :=
  ⟨⟨s.tl.seq_no, false, [], .copy_local ⟨fab_, smf_, grid, bx, none, false, target_proc_id, req⟩⟩,
    { s with tl := { s.tl with
        seq_no := (s.tl.seq_no + s.tl.seq_delta) % sequence_number_size } },
    by simp [task_copy_local.ctor, task_ctor_some _ _ hseq], rfl, rfl, fun _ => rfl, rfl, rfl⟩

/-- C16 as amended on the list holding the copy (a) into array 1 grid 0: the
`task_copy_local` reading array 1 grid 0 over `[2,2]-[5,5]` is made without a
dependency. -/
theorem C16_copy_local_ctor_attaches_no_dependency_witness :
    afterCopyA.tl.seq_no ≠ 0 ∧
    ∃ t s1, task_copy_local.ctor afterCopyA (some 0) 0 (box2 2 2 5 5) 1 0 false = some (t, s1) ∧
      t.dependencies = [] ∧ (∀ t1, t.depends_on_q t1 = false) :=
  ⟨by decide,
    (C16_copy_local_ctor_attaches_no_dependency afterCopyA (some 0) 0 (box2 2 2 5 5) 1 0 false
      (by decide)).imp fun _ h => h.imp fun _ h1 => ⟨h1.1, h1.2.1, h1.2.2.2.1⟩⟩

/-- C16 fails as stated: the list holds the copy (a) into array 1
grid 0 over `[0,0]-[3,3]`; a `task_copy_local` reading array 1 grid 0 over the
intersecting region `[2,2]-[5,5]` is constructed with an empty dependency list,
and the test `depends_on_q` it inherits answers false. -/
theorem C16_copy_local_derives_no_dependency :
    afterCopyA.tl.tasks = [0] ∧
    ((afterCopyA.obj 0).as_copy.map fun a =>
      (a.m_mf, a.m_dgrid, a.m_bx.intersects (box2 2 2 5 5))) = some (1, 0, true) ∧
    ((task_copy_local.ctor afterCopyA (some 0) 0 (box2 2 2 5 5) 1 0 false).map fun r =>
      (r.1.dependencies, r.1.depends_on_q (afterCopyA.obj 0))) = some ([], false) := by
  decide

/-- C17: in the build with `BL_USE_MPI`, when the transport accepts the call
(`res == 0`) and, for a send, the source buffer holds the region,
`task_copy::startup` sets the started flag and returns false exactly when
neither the destination nor the source grid is local. When both are local it
marks the task local and issues nothing; when only the destination is local it
issues one receive from the owner of the source with the task's sequence number
as tag; when only the source is local it issues one send to the owner of the
destination with the same tag; the task is marked local in the first case
only. -/
theorem C17_task_copy_startup_cases (b : Build) (m : Mem) (e : MPIEnv) (t : task)
    (d : task_copy_data) (hk : t.kind = .copy d) (hmpi : b.BL_USE_MPI = true)
    (hres : e.res = 0)
    (hloc : d.m_local = false)
    (hsrc : is_local b (m.mfs d.m_smf) d.m_sgrid = true →
      ((m.mfs d.m_smf).fabs d.m_sgrid).domain.containsBox d.m_sbx = true ∧
        (m.mfs d.m_smf).ncomp ≤ ((m.mfs d.m_smf).fabs d.m_sgrid).nvar) :
    ∃ t1 ops, task_copy.startup b m e t d =
        some (is_local b (m.mfs d.m_mf) d.m_dgrid || is_local b (m.mfs d.m_smf) d.m_sgrid,
          t1, ops) ∧
      t1.m_started = true ∧
      t1.as_copy.map (fun d1 => d1.m_local) =
        some (is_local b (m.mfs d.m_mf) d.m_dgrid && is_local b (m.mfs d.m_smf) d.m_sgrid) ∧
      (is_local b (m.mfs d.m_mf) d.m_dgrid = true → is_local b (m.mfs d.m_smf) d.m_sgrid = true →
        ops = []) ∧
      (is_local b (m.mfs d.m_mf) d.m_dgrid = true → is_local b (m.mfs d.m_smf) d.m_sgrid = false →
        ∃ count, ops = [.Irecv count (processor_number (m.mfs d.m_smf) d.m_sgrid) t.m_sno]) ∧
      (is_local b (m.mfs d.m_mf) d.m_dgrid = false → is_local b (m.mfs d.m_smf) d.m_sgrid = true →
        ∃ buf count,
          ops = [.Isend buf count (processor_number (m.mfs d.m_mf) d.m_dgrid) t.m_sno]) ∧
      (is_local b (m.mfs d.m_mf) d.m_dgrid = false → is_local b (m.mfs d.m_smf) d.m_sgrid = false →
        ops = []) := by
  cases hd : is_local b (m.mfs d.m_mf) d.m_dgrid <;>
    cases hs : is_local b (m.mfs d.m_smf) d.m_sgrid
  · exact ⟨_, _, by simp [task_copy.startup, hd, hs, hmpi]; exact ⟨rfl, rfl⟩, rfl,
      by simp [task.as_copy, hk, hloc], by simp, by simp, by simp, by simp⟩
  · obtain ⟨h1, h2⟩ := hsrc hs
    have hcopy : (FArrayBox.alloc d.m_sbx (m.mfs d.m_smf).ncomp).copyBox
        ((m.mfs d.m_smf).fabs d.m_sgrid) d.m_sbx =
        some { FArrayBox.alloc d.m_sbx (m.mfs d.m_smf).ncomp with
          dat := fun p c =>
            if d.m_sbx.contains p = true ∧ 0 ≤ c ∧ c < 0 + (m.mfs d.m_smf).ncomp then
              ((m.mfs d.m_smf).fabs d.m_sgrid).dat ((p.sub d.m_sbx.smallend).add d.m_sbx.smallend)
                (c - 0 + 0)
            else 0 } := by
      simp [FArrayBox.copyBox, FArrayBox.copy, FArrayBox.alloc, h1, h2, containsBox_self]
    refine ⟨_, _, by simp only [task_copy.startup, hd, hs, hmpi, hcopy, hres]; simp; exact ⟨rfl, rfl⟩,
      rfl, by simp [task.as_copy, hloc], by simp, by simp, ?_, by simp⟩
    intro _ _
    exact ⟨_, _, rfl⟩
  · refine ⟨_, _, by simp [task_copy.startup, hd, hs, hmpi, hres]; exact ⟨rfl, rfl⟩, rfl,
      by simp [task.as_copy, hloc], by simp, ?_, by simp, by simp⟩
    intro _ _
    exact ⟨_, rfl⟩
  · exact ⟨_, _, by simp [task_copy.startup, hd, hs]; exact ⟨rfl, rfl⟩, rfl,
      by simp [task.as_copy], by simp, by simp, by simp, by simp⟩

/-- C17 on the first of the two receiving copies: its destination is local and
its source is owned by process 1, so `startup` returns true, does not mark the
task local and issues one receive from process 1 with tag 1. -/
theorem C17_task_copy_startup_cases_witness :
    is_local limitOne (splitMem.mfs 0) 0 = true ∧ is_local limitOne (splitMem.mfs 1) 0 = false ∧
    (twoReceives.obj 0).m_sno = 1 ∧ processor_number (splitMem.mfs 1) 0 = 1 ∧
    ∃ t1 ops, task_copy.startup limitOne splitMem quiet (twoReceives.obj 0)
        ⟨0, 0, 1, 0, box2 0 0 1 1, box2 0 0 1 1, false, none, false⟩ = some (true, t1, ops) ∧
      t1.m_started = true ∧ t1.as_copy.map (fun d1 => d1.m_local) = some false ∧
      ∃ count, ops = [.Irecv count 1 1] := by
  refine ⟨by decide, by decide, by decide, by decide, ?_⟩
  obtain ⟨t1, ops, h1, h2, h3, -, h5, -, -⟩ :=
    C17_task_copy_startup_cases limitOne splitMem quiet (twoReceives.obj 0)
      ⟨0, 0, 1, 0, box2 0 0 1 1, box2 0 0 1 1, false, none, false⟩ rfl rfl rfl rfl
      (fun h => absurd h (by decide))
  exact ⟨t1, ops, h1, h2, h3, h5 (by decide) (by decide)⟩

/-- C18, as the code has it: `task::depend_on` appends the handle at the end of
the dependency list of any task, started or not, and changes nothing else of the
task; it makes no check of the started flag. -/
theorem C18_depend_on_appends_always (t : task) (t1 : Handle) :
    (t.depend_on t1).dependencies = t.dependencies ++ [t1] ∧
    (t.depend_on t1).m_started = t.m_started ∧ (t.depend_on t1).m_sno = t.m_sno ∧
    (t.depend_on t1).kind = t.kind :=
  ⟨rfl, rfl, rfl, rfl⟩

/-- C18 fails as stated: on a task whose started flag is true, with dependency
list `[3]`, `depend_on(7)` does not leave the list unchanged but makes it
`[3, 7]`. -/
theorem C18_depend_on_changes_started_task :
    (⟨1, true, [3], .base⟩ : task).m_started = true ∧
    (task.depend_on ⟨1, true, [3], .base⟩ 7).dependencies = [3, 7] ∧
    (task.depend_on ⟨1, true, [3], .base⟩ 7).dependencies ≠
      (⟨1, true, [3], .base⟩ : task).dependencies := by
  decide

/-- C19, as the code has it: `startup()` of a base task, a `task_copy` or a
`task_copy_local` makes no check of the started flag: on a task whose started
flag is already true it does what it does on the same task unstarted, with the
same result. -/
theorem C19_startup_ignores_started_flag (b : Build) (m : Mem) (e : MPIEnv) (t : task) :
    task.startup b m e { t with m_started := true } =
      task.startup b m e { t with m_started := false } := by
  unfold task.startup
  cases hk : t.kind <;> rfl

/-- C19 fails as stated: `startup()` called on a started task of the base
class, on a started local `task_copy` and on a started receiving `task_copy`
returns true each time instead of failing, and the last issues a receive
again. -/
theorem C19_startup_twice_does_not_fail :
    ((task.startup serialBuild demoMem quiet ⟨1, true, [], .base⟩).map fun r =>
      (r.1, r.2.1.m_started)) = some (true, true) ∧
    ((task.startup serialBuild demoMem quiet
      ⟨1, true, [], .copy ⟨1, 0, 0, 0, box2 0 0 3 3, box2 0 0 3 3, true, none, false⟩⟩).map
      fun r => (r.1, r.2.1.m_started)) = some (true, true) ∧
    ((task.startup limitOne splitMem quiet
      ⟨1, true, [], .copy ⟨0, 0, 1, 0, box2 0 0 1 1, box2 0 0 1 1, false,
        some (FArrayBox.alloc (box2 0 0 1 1) 1), true⟩⟩).map
      fun r => (r.1, r.2.2.length)) = some (true, 1) := by
  decide

/-- C20: `ready()` of a base task, a `task_copy` or a `task_copy_local` (or of a
class that inherits it) called on a task whose started flag is false fails the
assertion `is_started()`: the call has no result, and so no memory after it, in
whatever state the task, the memory and the transport are. -/
theorem C20_ready_before_startup_fails (b : Build) (m : Mem) (e : MPIEnv) (t : task)
    (hns : t.m_started = false) :
    task.ready b m e t = none ∧
    (∀ d, task_copy.ready b m e t d = none) ∧
    (∀ d, task_copy_local.ready b m e t d = none) ∧
    task.ready_base m t = none := by
  have h1 : ∀ d, task_copy.ready b m e t d = none := fun d => by
    simp [task_copy.ready, task.is_started, hns]
  have h2 : ∀ d, task_copy_local.ready b m e t d = none := fun d => by
    simp [task_copy_local.ready, task.is_started, hns]
  have h3 : task.ready_base m t = none := by simp [task.ready_base, task.is_started, hns]
  refine ⟨?_, h1, h2, h3⟩
  unfold task.ready
  split
  · exact h1 _
  · exact h2 _
  · exact h3

/-- C20 on the unstarted local copy (a): `ready()` has no result. -/
theorem C20_ready_before_startup_fails_witness :
    (afterCopyA.obj 0).m_started = false ∧
    (task.ready serialBuild demoMem quiet (afterCopyA.obj 0)).isNone = true :=
  ⟨by decide, by
    rw [(C20_ready_before_startup_fails serialBuild demoMem quiet (afterCopyA.obj 0)
      (by decide)).1]
    rfl⟩

/-- C21: when the counter of the task list is not 0, the constructor of
`task_fab` succeeds; right after it, `fab()` has a result exactly when the grid
is locally owned, the buffer it returns has the given region as its box and the
given number of components, and when the grid is not locally owned there is no
buffer and `fab()` fails its assertion. -/
theorem C21_task_fab_buffer_iff_local (b : Build) (s : State) (t_ tt_ : Nat) (region_ : Box)
    (ncomp_ : Nat) (hseq : s.tl.seq_no ≠ 0) :
    ∃ t s1 d, task_fab.ctor b s t_ tt_ region_ ncomp_ = some (t, s1) ∧ t.as_fab = some d ∧
      d.region = region_ ∧ d.ncomp = ncomp_ ∧
      ((task_fab.fab d).isSome = true ↔ is_local b (s.mem.mfs t_) tt_ = true) ∧
      (∀ f, task_fab.fab d = some f → f.domain = region_ ∧ f.nvar = ncomp_) ∧
      (is_local b (s.mem.mfs t_) tt_ = false → d.target = none ∧ task_fab.fab d = none) := by
  by_cases hl : is_local b (s.mem.mfs t_) tt_ = true
  · refine ⟨⟨s.tl.seq_no, false, [], .fab ⟨processor_number (s.mem.mfs t_) tt_, region_, ncomp_,
        some (FArrayBox.alloc region_ ncomp_)⟩⟩,
      { s with tl := { s.tl with
        seq_no := (s.tl.seq_no + s.tl.seq_delta) % sequence_number_size } },
      ⟨processor_number (s.mem.mfs t_) tt_, region_, ncomp_,
        some (FArrayBox.alloc region_ ncomp_)⟩,
      by simp [task_fab.ctor, task_ctor_some _ _ hseq, hseq, hl],
      rfl, rfl, rfl, ?_, ?_, ?_⟩
    · simp [task_fab.fab, hl]
    · intro f hf
      simp only [task_fab.fab, Option.some.injEq] at hf
      subst hf
      exact ⟨rfl, rfl⟩
    · intro h; rw [hl] at h; cases h
  · refine ⟨⟨s.tl.seq_no, false, [], .fab ⟨processor_number (s.mem.mfs t_) tt_, region_, ncomp_,
        none⟩⟩,
      { s with tl := { s.tl with
        seq_no := (s.tl.seq_no + s.tl.seq_delta) % sequence_number_size } },
      ⟨processor_number (s.mem.mfs t_) tt_, region_, ncomp_, none⟩,
      by simp [task_fab.ctor, task_ctor_some _ _ hseq, hseq, hl],
      rfl, rfl, rfl, ?_, ?_, ?_⟩
    · simp [task_fab.fab, hl]
    · intro f hf
      simp [task_fab.fab] at hf
    · intro _; exact ⟨rfl, rfl⟩

/-- C21 on a fetch of array 1 grid 0, which process 0 does not own in `splitMem`,
and of array 0 grid 0, which it owns. -/
theorem C21_task_fab_buffer_iff_local_witness :
    (idle splitMem).tl.seq_no ≠ 0 ∧
    ((task_fab.ctor limitOne (idle splitMem) 1 0 (box2 0 0 3 3) 2).bind fun r =>
      r.1.as_fab.map fun d => (task_fab.fab d).isSome) = some false ∧
    ((task_fab.ctor limitOne (idle splitMem) 0 0 (box2 0 0 3 3) 2).bind fun r =>
      r.1.as_fab.bind fun d => (task_fab.fab d).map fun f =>
        (decide (f.domain = box2 0 0 3 3), f.nvar)) = some (true, 2) ∧
    ∃ t s1 d, task_fab.ctor limitOne (idle splitMem) 0 0 (box2 0 0 3 3) 2 = some (t, s1) ∧
      t.as_fab = some d ∧ ((task_fab.fab d).isSome = true ↔
        is_local limitOne ((idle splitMem).mem.mfs 0) 0 = true) := by
  refine ⟨by decide, by decide, by decide, ?_⟩
  obtain ⟨t, s1, d, h1, h2, -, -, h5, -⟩ :=
    C21_task_fab_buffer_iff_local limitOne (idle splitMem) 0 0 (box2 0 0 3 3) 2 (by decide)
  exact ⟨t, s1, d, h1, h2, h5⟩

/-- C22: `push_back(tf)` on a `task_fec_base` puts `tf` behind a new handle at
the end of the shared task list, appends that handle to the vector of sub-tasks
and to the dependency list of the aggregate, and changes nothing else of the
aggregate, of the other tasks, of the counter or of the memory. After `k` calls
on a freshly constructed aggregate the vector holds `k` handles, the assertion
of `task_fab_result(n)` passes exactly for `0 <= n < k`, and `depend_ready()` of
the aggregate is true only when all `k` sub-tasks are finished. -/
theorem C22_push_back_and_aggregate (s0 s : State) (s_ igrid_ : Nat) (t : task)
    (tfs : List task) (hc : task_fec_base.ctor s0 s_ igrid_ = some (t, s)) :
    (∀ (s1 : State) (t1 : task) (d : task_fec_base_data) (tf : task),
      (task_fec_base.push_back s1 t1 d tf).1.tl.tasks = s1.tl.tasks ++ [s1.nalloc] ∧
      (task_fec_base.push_back s1 t1 d tf).1.obj s1.nalloc = tf ∧
      (task_fec_base.push_back s1 t1 d tf).2.as_fec_base =
        some ⟨d.s, d.igrid, d.tfvect ++ [s1.nalloc]⟩ ∧
      (task_fec_base.push_back s1 t1 d tf).2.dependencies = t1.dependencies ++ [s1.nalloc] ∧
      (task_fec_base.push_back s1 t1 d tf).2.m_sno = t1.m_sno ∧
      (task_fec_base.push_back s1 t1 d tf).2.m_started = t1.m_started ∧
      (∀ x, x ≠ s1.nalloc → (task_fec_base.push_back s1 t1 d tf).1.obj x = s1.obj x ∧
        (task_fec_base.push_back s1 t1 d tf).1.finished x = s1.finished x) ∧
      (task_fec_base.push_back s1 t1 d tf).1.tl.seq_no = s1.tl.seq_no ∧
      (task_fec_base.push_back s1 t1 d tf).1.mem = s1.mem) ∧
    ∃ s2 t2 d2, push_back_all s t tfs = some (s2, t2) ∧ t2.as_fec_base = some d2 ∧
      d2.tfvect.length = tfs.length ∧
      s2.tl.tasks = s.tl.tasks ++ d2.tfvect ∧
      t2.dependencies = d2.tfvect ∧
      (∀ n : Int, task_fec_base.task_fab_result_assert d2 n = true ↔
        0 ≤ n ∧ n < (tfs.length : Int)) ∧
      (∀ finished : Handle → Bool, (task.depend_ready finished t2.dependencies).1 = true →
        ∀ h ∈ d2.tfvect, finished h = true) := by
  constructor
  · intro s1 t1 d tf
    obtain ⟨a1, a2, -, -, a5, a6, -, a8, -, a10, a11, a12, a13⟩ := push_back_spec s1 t1 d tf
    exact ⟨a1, a2, a10, a11, a12, a13, a5, a6, a8⟩
  · have ht : t = ⟨s0.tl.seq_no, false, [], .fec_base ⟨s_, igrid_, []⟩⟩ := by
      unfold task_fec_base.ctor task.ctor at hc
      simp only at hc
      split at hc
      · cases hc
      · rename_i t0 tl heq
        split at heq
        · cases heq
        · simp only [Option.some.injEq, Prod.mk.injEq] at heq hc
          obtain ⟨rfl, -⟩ := heq
          obtain ⟨rfl, -⟩ := hc
          rfl
    obtain ⟨s2, t2, h1, h2, h3, h4⟩ := push_back_all_spec tfs s t ⟨s_, igrid_, []⟩
      (by rw [ht]; rfl)
    refine ⟨s2, t2, _, h1, h2, by simp, by simpa using h4, ?_, ?_, ?_⟩
    · rw [h3, ht]
    · intro n
      simp [task_fec_base.task_fab_result_assert]
    · intro finished hr h hh
      rw [h3, ht] at hr
      exact (depend_ready_fst _ _).mp hr h (by simpa using hh)

/-- C22 on a fresh aggregate and two calls of `push_back`: the sub-tasks are the
handles 0 and 1, and the assertion of `task_fab_result` passes for 0 and 1 and
fails for 2 and -1. -/
theorem C22_push_back_and_aggregate_witness :
    ((push_back_all freshAggregate.2 freshAggregate.1 [fetchTask 2, fetchTask 3]).bind fun r =>
      r.2.as_fec_base.map fun d => (d.tfvect, r.2.dependencies, r.1.tl.tasks))
      = some ([0, 1], [0, 1], [0, 1]) ∧
    ((push_back_all freshAggregate.2 freshAggregate.1 [fetchTask 2, fetchTask 3]).bind fun r =>
      r.2.as_fec_base.map fun d =>
        [task_fec_base.task_fab_result_assert d 0, task_fec_base.task_fab_result_assert d 1,
          task_fec_base.task_fab_result_assert d 2, task_fec_base.task_fab_result_assert d (-1)])
      = some [true, true, false, false] ∧
    ∃ s2 t2 d2, push_back_all freshAggregate.2 freshAggregate.1 [fetchTask 2, fetchTask 3]
        = some (s2, t2) ∧ t2.as_fec_base = some d2 ∧
      d2.tfvect.length = [fetchTask 2, fetchTask 3].length := by
  refine ⟨by decide, by decide, ?_⟩
  obtain ⟨-, s2, t2, d2, h1, h2, h3, -⟩ :=
    C22_push_back_and_aggregate (idle splitMem) freshAggregate.2 0 0 freshAggregate.1
      [fetchTask 2, fetchTask 3] rfl
  exact ⟨s2, t2, d2, h1, h2, h3⟩

/-- C23: the claim fails on the code. On the list of two tasks in which the
second depends on the first, the scan starts the first task and comes to the
second, whose `depend_ready()` is false; from then on every visit is again the
`continue` on the second task, with the iterator still at position 1 of a
collection of two: the scan neither moves on nor ends the pass, and the first
task, on which the second depends, is never visited again. -/
theorem C23_scan_does_not_move_on (e e1 : MPIEnv) (es : List MPIEnv) :
    (visit serialBuild e (execute_entry baseChain)).1 = Event.startup 0 (some true) ∧
    (execute serialBuild (e :: es) baseChain).tli = 1 ∧
    (execute serialBuild (e :: es) baseChain).tl.tasks = [0, 1] ∧
    (visit serialBuild e1 (execute serialBuild (e :: es) baseChain)).1 = Event.skip 1 ∧
    (visit serialBuild e1 (execute serialBuild (e :: es) baseChain)).2.tli = 1 ∧
    ((visit serialBuild e1 (execute serialBuild (e :: es) baseChain)).2.obj 1).m_started
      = false := by
  have h1 : Stuck (visit serialBuild e (execute_entry baseChain)).2 1 0 :=
    ⟨rfl, rfl, (List.mem_singleton.mpr rfl : (0 : Handle) ∈ [0]), rfl⟩
  have h2 := stuck_run (b := serialBuild) h1 es
  have h3 := stuck_run_frame (b := serialBuild) h1 es
  have h4 := stuck_run_tli (b := serialBuild) h1 es
  have h5 := stuck_run (b := serialBuild) h1 (es ++ [e1])
  have h6 := stuck_run_tli (b := serialBuild) h1 (es ++ [e1])
  have hrun : (visit serialBuild e1 (execute serialBuild (e :: es) baseChain)).2 =
      run serialBuild (es ++ [e1]) (visit serialBuild e (execute_entry baseChain)).2 := by
    rw [run_append]; rfl
  refine ⟨rfl, h4, h3.2.1, stuck_visit_event h2, by rw [hrun, h6]; rfl, ?_⟩
  rw [hrun, stuck_run_started h1]
  rfl

/-- C24: `task_copy::depends_on_q(t1)` is true exactly when the task's own
destination and source arrays are the same object, `t1` is a `task_copy`, and
one of the four tests on grid indices and regions holds. The answer does not
depend on the arrays `t1` refers to, and it is false for a task whose source and
destination arrays are distinct objects. -/
theorem C24_depends_on_q_characterisation (d : task_copy_data) (t1 : task) :
    (task_copy.depends_on_q d t1 = true ↔
      d.m_mf = d.m_smf ∧ ∃ t1tc, t1.kind = .copy t1tc ∧
        ((d.m_sgrid = t1tc.m_dgrid ∧ d.m_sbx.intersects t1tc.m_bx = true) ∨
         (d.m_dgrid = t1tc.m_dgrid ∧ d.m_bx.intersects t1tc.m_bx = true) ∨
         (d.m_sgrid = t1tc.m_sgrid ∧ d.m_sbx.intersects t1tc.m_sbx = true) ∨
         (d.m_dgrid = t1tc.m_sgrid ∧ d.m_bx.intersects t1tc.m_sbx = true))) ∧
    (∀ (t1tc : task_copy_data) (mf smf : Nat),
      task_copy.depends_on_q d { t1 with kind := .copy { t1tc with m_mf := mf, m_smf := smf } } =
        task_copy.depends_on_q d { t1 with kind := .copy t1tc }) ∧
    (d.m_mf ≠ d.m_smf → task_copy.depends_on_q d t1 = false) :=
  ⟨depends_on_q_iff d t1, fun _ _ _ => rfl, fun h => by simp [task_copy.depends_on_q, h]⟩

/-- C25: in a run of `task_list::execute` with a limit `HG::max_live_tasks` that
is not negative, on a list of distinct tasks that are unstarted at entry, the
counter `live_tasks` is at every visit the number of tasks of the collection
whose started flag is true, and it is at most the limit plus 1. -/
theorem C25_live_counter_counts_started_tasks (b : Build) (s : State) (es : List MPIEnv)
    (hL : 0 ≤ b.max_live_tasks) (hun : ∀ h ∈ s.tl.tasks, (s.obj h).m_started = false)
    (hnd : s.tl.tasks.Nodup) :
    (execute b es s).live_tasks =
      ((execute b es s).tl.tasks.countP fun h => ((execute b es s).obj h).m_started : Nat) ∧
    (execute b es s).live_tasks ≤ b.max_live_tasks + 1 :=
  ⟨run_live_count b es (execute_entry s) hnd (entry_live_count s hun),
    run_live_bound b es (execute_entry s) (by
      show (0 : Int) ≤ b.max_live_tasks + 1
      omega)⟩

/-- C25 on the two receiving copies with limit 1: after two visits both are
started and `live_tasks` is 2, the limit plus 1. -/
theorem C25_live_counter_counts_started_tasks_witness :
    (0 : Int) ≤ limitOne.max_live_tasks ∧
    (∀ h ∈ twoReceives.tl.tasks, (twoReceives.obj h).m_started = false) ∧
    twoReceives.tl.tasks.Nodup ∧
    (execute limitOne [quiet, quiet] twoReceives).live_tasks = 2 ∧
    (execute limitOne [quiet, quiet] twoReceives).live_tasks =
      ((execute limitOne [quiet, quiet] twoReceives).tl.tasks.countP fun h =>
        ((execute limitOne [quiet, quiet] twoReceives).obj h).m_started : Nat) ∧
    (execute limitOne [quiet, quiet] twoReceives).live_tasks ≤ limitOne.max_live_tasks + 1 :=
  ⟨by decide, by decide, by decide, by decide,
    C25_live_counter_counts_started_tasks limitOne twoReceives [quiet, quiet]
      (by decide) (by decide) (by decide)⟩

/-- C26: on a task list of `task_copy` tasks that are not started, have no
dependency and have both ends locally owned, with a limit `L ≥ 0`, and when the
copies performed one after another in list order are defined and give the memory
`m1`: `execute()` returns within `3 * n + 1` visits (whatever the transport
answers), the collection is empty, the memory is `m1`, and the tasks whose
`ready()` returned true are, in the order of the visits, exactly the tasks of the
list in list order, each once. -/
theorem C26_local_copies_refine_serial_copies (b : Build) (s : State) (m1 : Mem)
    (es : List MPIEnv) (hL : 0 ≤ b.max_live_tasks) (hnd : s.tl.tasks.Nodup)
    (hcopies : ∀ h ∈ s.tl.tasks, ∃ sno d,
      s.obj h = ⟨sno, false, [], .copy d⟩ ∧ Local b s.mem d)
    (hser : serial_copies (pending s) s.mem = some m1)
    (hlen : 3 * s.tl.tasks.length + 1 ≤ es.length) :
    (execute b es s).status = .returned ∧ (execute b es s).tl.tasks = [] ∧
      (execute b es s).mem = m1 ∧
      completed (trace b es (execute_entry s)) = s.tl.tasks := by
  have hrun : CopyRun b (execute_entry s) [] s.tl.tasks :=
    ⟨rfl, rfl, hnd, rfl, Or.inl rfl, fun _ hx => absurd hx (List.not_mem_nil _), hcopies⟩
  have hfuel : copy_fuel (execute_entry s) [] s.tl.tasks ≤ 3 * s.tl.tasks.length + 1 := by
    simp [copy_fuel, execute_entry]
  exact copy_run_main b hL _ (execute_entry s) [] s.tl.tasks m1 es hrun hfuel hser hlen

/-- C26 on the two chained copies with limit 0: seven visits return, the tasks
complete in list order, the memory is that of the two copies in list order, and
array 2 holds at the origin the value 0 that array 0 had there (its own was 200,
that of array 1 was 100). -/
theorem C26_local_copies_refine_serial_copies_witness :
    (0 : Int) ≤ limitZero.max_live_tasks ∧ chainCopies.tl.tasks.Nodup ∧
    3 * chainCopies.tl.tasks.length + 1 ≤ (List.replicate 7 quiet).length ∧
    ((((execute limitZero (List.replicate 7 quiet) chainCopies).mem.mfs 2).fabs 0).dat
      ⟨0, 0, 0⟩ 0 = 0) ∧
    ∃ m1, serial_copies (pending chainCopies) chainCopies.mem = some m1 ∧
      (execute limitZero (List.replicate 7 quiet) chainCopies).status = .returned ∧
      (execute limitZero (List.replicate 7 quiet) chainCopies).tl.tasks = [] ∧
      (execute limitZero (List.replicate 7 quiet) chainCopies).mem = m1 ∧
      completed (trace limitZero (List.replicate 7 quiet) (execute_entry chainCopies)) =
        chainCopies.tl.tasks := by
  obtain ⟨m1, hm1⟩ := Option.isSome_iff_exists.mp
    (show (serial_copies (pending chainCopies) chainCopies.mem).isSome = true by decide)
  have ht : chainCopies.tl.tasks = [0, 1] := by decide
  have hcopies : ∀ h ∈ chainCopies.tl.tasks, ∃ sno d,
      chainCopies.obj h = ⟨sno, false, [], .copy d⟩ ∧ Local limitZero chainCopies.mem d := by
    intro h hh
    rw [ht] at hh
    simp only [List.mem_cons, List.mem_singleton, List.not_mem_nil, or_false] at hh
    rcases hh with rfl | rfl
    · exact ⟨1, ⟨1, 0, 0, 0, box2 0 0 3 3, box2 0 0 3 3, false, none, false⟩, rfl, rfl, rfl⟩
    · exact ⟨2, ⟨2, 0, 1, 0, box2 0 0 3 3, box2 0 0 3 3, false, none, false⟩, rfl, rfl, rfl⟩
  exact ⟨by decide, by decide, by decide, by decide, m1, hm1,
    C26_local_copies_refine_serial_copies limitZero chainCopies m1 (List.replicate 7 quiet)
      (by decide) (by decide) hcopies hm1 (by decide)⟩

/-- C27: the condition `!initialized == 0` of `HG::MPI_init` holds exactly when
`initialized` is already true. With `initialized` false the call returns with
every member of `HG` as it was, whatever the parameter table holds; so from the
static defaults, after any number of calls, `initialized` is false and
`max_live_tasks` is 50. -/
theorem C27_MPI_init_does_nothing_when_not_initialized (use_mpi : Bool) (pp : ParmParse)
    (res : Int) (comm : Nat) (g : HG) (h : g.initialized = false) :
    (∀ g1 : HG, g1.guard = true ↔ g1.initialized = true) ∧
    HG.MPI_init use_mpi pp res comm g = some g ∧
    (∀ calls, ∃ g1, HG.MPI_init_calls use_mpi pp calls HG.defaults = some g1 ∧
      g1.initialized = false ∧ g1.max_live_tasks = 50 ∧ g1.multigrid_maxiter = 100 ∧
      g1.cgsolve_maxiter = 250 ∧ g1.cgsolve_tolfact = 1 / 1000) := by
  refine ⟨?_, MPI_init_not_initialized use_mpi pp res comm g h, ?_⟩
  · intro g1
    cases hi : g1.initialized <;> simp [HG.guard, hi]
  · intro calls
    exact ⟨HG.defaults, MPI_init_calls_not_initialized use_mpi pp calls HG.defaults rfl,
      rfl, rfl, rfl, rfl, rfl⟩

/-- C27 on the static defaults with a parameter table that sets
`max_live_tasks` to 7: the call leaves the value 50. -/
theorem C27_MPI_init_does_nothing_when_not_initialized_witness :
    HG.defaults.initialized = false ∧
    ((HG.MPI_init true ⟨none, none, none, some 7⟩ 0 1 HG.defaults).map fun g =>
      (g.initialized, g.max_live_tasks, g.mpi_comm)) = some (false, 50, 0) ∧
    HG.MPI_init true ⟨none, none, none, some 7⟩ 0 1 HG.defaults = some HG.defaults :=
  ⟨by decide, by decide,
    (C27_MPI_init_does_nothing_when_not_initialized true ⟨none, none, none, some 7⟩ 0 1
      HG.defaults (by decide)).2.1⟩

end HGParallel
